import Mathlib

/-!
# Hybrid granulator: delay line, grain and grain voice

A shallow embedding of `DelayLine.h`, `Grain.cpp` and `GrainSampler.h`.

Conventions of the embedding:

* `float` and `double` values are rationals (`ℚ`).  The arithmetic of the audio path is
  exact; the conversion of milliseconds to samples (`msToSamples` and the quantise
  branch), whose result is truncated to an `int`, rounds every operation to its IEEE 754
  format with `roundFloat` and `roundDouble`.
* `int` values are mathematical integers (`Int`); C++ `%` and `/` on `int` are the
  truncating `Int.tmod` and `Int.tdiv`.  A remainder by 0, undefined in C++, is
  `Int.tmod a 0 = a`; the theorems state the divisor positive where it matters.  Where a
  32-bit overflow is part of the statement the wrap-around is written explicitly with
  `wrapInt32`.
* A `std::vector<float>` is the memory seen from its first element: a function
  `Int → ℚ`.  Cells `0 .. size-1` are the elements of the vector; any other index is
  memory outside the vector, which holds an arbitrary value.  An access is *in bounds*
  when its index is in `[0, size)`; the C++ code performs no bounds check.
* Library functions whose result is not rational (`std::sqrt`, `std::cos`, π) and the
  library classes (`juce::SmoothedValue`, `juce::ADSR`, the random generators) are
  parameters of the definitions that use them.
* A loop that may not terminate is run on a bounded number of iterations and returns
  `none` when the bound is reached; the functions built on it return an `Option`.
-/

namespace HybridGranulator

/-! ## Numeric conversions -/

/-- Conversion of a floating value to `int`: truncation toward zero. -/
def truncToInt (q : ℚ) : Int := if 0 ≤ q then ⌊q⌋ else ⌈q⌉

/-- The C function `fmod x y`: `x - y * trunc (x / y)`. -/
def fmod (x y : ℚ) : ℚ := x - y * (truncToInt (x / y) : ℚ)

/-- The residue of `x` modulo `n` in `[0, n)` for real `x` (specification helper). -/
def floorMod (x n : ℚ) : ℚ := x - n * (⌊x / n⌋ : ℚ)

/-! ## DelayLine.h -/

/-- The state of `class DelayLine`. -/
structure DelayLine where
  /-- The cells of `std::vector<float> delayBuffer`, indexed from its first element. -/
  delayBuffer : Int → ℚ
  /-- The field `int maxDelaySize`, which `setMaxSize` makes the size of the vector. -/
  maxDelaySize : Int
  /-- The field `float readHeadPosition`. -/
  readHeadPosition : ℚ
  /-- The field `int writeHeadPosition`. -/
  writeHeadPosition : Int
  /-- The field `float delayTimeSamples`. -/
  delayTimeSamples : ℚ
  /-- The field `float feedbackAmt`. -/
  feedbackAmt : ℚ

namespace DelayLine

/-- Assignment `v[i] = x` on the memory of a vector. -/
def writeCell (buf : Int → ℚ) (i : Int) (x : ℚ) : Int → ℚ :=
  fun j => if j = i then x else buf j

/-- An index is inside the vector of the delay line. -/
def inBounds (d : DelayLine) (i : Int) : Prop := 0 ≤ i ∧ i < d.maxDelaySize

instance (d : DelayLine) (i : Int) : Decidable (d.inBounds i) := by
  unfold inBounds; infer_instance

/-- The method `setInputSample`. -/
def setInputSample (d : DelayLine) (sample : ℚ) : DelayLine :=
  { d with delayBuffer := writeCell d.delayBuffer d.writeHeadPosition sample }

/-- The method `setDelayTime`. -/
def setDelayTime (d : DelayLine) (delayTime : ℚ) : DelayLine :=
  if (d.writeHeadPosition : ℚ) > delayTime then
    { d with delayTimeSamples := delayTime
             readHeadPosition := (d.writeHeadPosition : ℚ) - delayTime }
  else
    { d with delayTimeSamples := delayTime
             readHeadPosition :=
               (d.maxDelaySize : ℚ) - (delayTime - (d.writeHeadPosition : ℚ)) }

/-- The method `setFeedback`. -/
def setFeedback (d : DelayLine) (feedback : ℚ) : DelayLine :=
  if 0 < feedback ∧ feedback ≤ 1 then { d with feedbackAmt := feedback } else d

/-- The local `lowerBound` of `linearInterpolation`. -/
def lowerBound (d : DelayLine) : Int := ⌊d.readHeadPosition⌋

/-- The local `higherBound` of `linearInterpolation`: `lowerBound + 1.0f`, not wrapped. -/
def higherBound (d : DelayLine) : Int := truncToInt ((d.lowerBound : ℚ) + 1)

/-- The method `linearInterpolation`. -/
def linearInterpolation (d : DelayLine) : ℚ :=
  let lowerVal := d.delayBuffer d.lowerBound
  let higherVal := d.delayBuffer d.higherBound
  let frac := d.readHeadPosition - (d.lowerBound : ℚ)
  (1 - frac) * lowerVal + frac * higherVal

/-- The method `process`: the returned sample and the state after the call. -/
def process (d : DelayLine) (inputSample : ℚ) : ℚ × DelayLine :=
  let outputSample := d.linearInterpolation
  (outputSample,
   { d with
     delayBuffer :=
       writeCell d.delayBuffer d.writeHeadPosition (inputSample + outputSample * d.feedbackAmt)
     writeHeadPosition := (d.writeHeadPosition + 1).tmod d.maxDelaySize
     readHeadPosition := fmod (d.readHeadPosition + 1) (d.maxDelaySize : ℚ) })

/-- The method `getWriteHeadPosition`. -/
def getWriteHeadPosition (d : DelayLine) : Int := d.writeHeadPosition

/-- The method `getDelaySize`. -/
def getDelaySize (d : DelayLine) : Int := d.maxDelaySize

/-- The method `getSampleAtIndex`. -/
def getSampleAtIndex (d : DelayLine) (index : Int) : ℚ :=
  d.delayBuffer (index.tmod d.maxDelaySize)

/-- The state after `k` calls of `process` fed with `input 0, input 1, ...`. -/
def lineAfter (d : DelayLine) (input : Nat → ℚ) : Nat → DelayLine
  | 0 => d
  | k + 1 => (process (lineAfter d input k) (input k)).2

/-- The value returned by call number `k` (from 0) of `process` on that input stream. -/
def outputAt (d : DelayLine) (input : Nat → ℚ) (k : Nat) : ℚ :=
  (process (lineAfter d input k) (input k)).1

end DelayLine

/-- The unit impulse: 1 at step 0 and 0 afterwards. -/
def unitImpulse (k : Nat) : ℚ := if k = 0 then 1 else 0


/-- The echo train of a feedback delay of `del` samples with gain `g` (specification):
`g ^ (k-1)` at step `k * del` for `k ≥ 1`, and 0 at every other step. -/
def echoTrain (g : ℚ) (del : Nat) (k : Nat) : ℚ :=
  if 0 < k ∧ del ∣ k then g ^ (k / del - 1) else 0

/-! ## Library interfaces -/

/-- The JUCE helper `jmax` on `int`. -/
def jmax (a b : Int) : Int := if a < b then b else a

/-- The JUCE helper `jmin` on `int`. -/
def jmin (a b : Int) : Int := if b < a then b else a

/-- The JUCE helper `jlimit lowerLimit upperLimit value` on `int`. -/
def jlimit (lowerLimit upperLimit value : Int) : Int :=
  if value < lowerLimit then lowerLimit
  else if upperLimit < value then upperLimit else value

/-- The JUCE helper `jlimit lowerLimit upperLimit value` on `float`. -/
def jlimitF (lowerLimit upperLimit value : ℚ) : ℚ :=
  if value < lowerLimit then lowerLimit
  else if upperLimit < value then upperLimit else value

/-- A 32-bit two's complement `int` holding the integer `x` after wrap-around. -/
def wrapInt32 (x : Int) : Int := (x + 2 ^ 31) % 2 ^ 32 - 2 ^ 31

/-- The floating-point library functions used by the grains: `std::sqrt`, `std::cos` and
`juce::MathConstants<float>::pi`. -/
structure FloatLib where
  /-- The function `std::sqrt`. -/
  sqrt : ℚ → ℚ
  /-- The function `std::cos`. -/
  cos : ℚ → ℚ
  /-- The constant π. -/
  pi : ℚ

/-- The operations of `juce::SmoothedValue<float>` on its state `σ`. -/
structure SmoothedValueOps (σ : Type) where
  /-- The default-constructed value. -/
  fresh : σ
  /-- The method `reset (sampleRate, rampLengthInSeconds)`. -/
  reset : σ → ℚ → ℚ → σ
  /-- The method `setCurrentAndTargetValue`. -/
  setCurrentAndTargetValue : σ → ℚ → σ
  /-- The method `setTargetValue`. -/
  setTargetValue : σ → ℚ → σ
  /-- The method `getNextValue`: the value returned and the state after the call. -/
  getNextValue : σ → ℚ × σ

/-- The operations of `juce::ADSR` on its state `α`. -/
structure ADSROps (α : Type) where
  /-- The method `setSampleRate`. -/
  setSampleRate : α → ℚ → α
  /-- The method `setParameters` with attack, decay, sustain and release. -/
  setParameters : α → ℚ → ℚ → ℚ → ℚ → α
  /-- The method `noteOn`. -/
  noteOn : α → α
  /-- The method `noteOff`. -/
  noteOff : α → α
  /-- The method `getNextSample`: the value returned and the state after the call. -/
  getNextSample : α → ℚ × α
  /-- The method `isActive`. -/
  isActive : α → Bool

/-- The process-wide random generators: `rand()` and
`juce::Random::getSystemRandom().nextFloat()`, each a stream of values with the number of
draws made so far. -/
structure RandomSource where
  /-- The constant `RAND_MAX`. -/
  randMax : Int
  /-- The successive results of `rand()`. -/
  randValues : Nat → Int
  /-- The number of calls of `rand()` so far. -/
  randCalls : Nat
  /-- The successive results of `nextFloat()`. -/
  floatValues : Nat → ℚ
  /-- The number of calls of `nextFloat()` so far. -/
  floatCalls : Nat

/-- One call of `rand()`. -/
def RandomSource.rand (r : RandomSource) : Int × RandomSource :=
  (r.randValues r.randCalls, { r with randCalls := r.randCalls + 1 })

/-- One call of `nextFloat()`. -/
def RandomSource.nextFloat (r : RandomSource) : ℚ × RandomSource :=
  (r.floatValues r.floatCalls, { r with floatCalls := r.floatCalls + 1 })

/-- A `juce::AudioBuffer<float>`: its dimensions and its samples by channel and index. -/
structure AudioBuffer where
  /-- The result of `getNumChannels`. -/
  numChannels : Int
  /-- The result of `getNumSamples`. -/
  numSamples : Int
  /-- The sample at a channel and an index. -/
  data : Int → Int → ℚ

namespace AudioBuffer

/-- The method `getSample`. -/
def getSample (b : AudioBuffer) (channel index : Int) : ℚ := b.data channel index

/-- The method `setSample`. -/
def setSample (b : AudioBuffer) (channel index : Int) (value : ℚ) : AudioBuffer :=
  { b with data := fun c i => if c = channel ∧ i = index then value else b.data c i }

/-- The method `addSample`. -/
def addSample (b : AudioBuffer) (channel index : Int) (value : ℚ) : AudioBuffer :=
  { b with data := fun c i => if c = channel ∧ i = index then b.data c i + value else b.data c i }

/-- A buffer of the given dimensions after `clear`. -/
def cleared (channels samples : Int) : AudioBuffer := ⟨channels, samples, fun _ _ => 0⟩

end AudioBuffer

/-! ## Grain.h, Grain.cpp -/

/-- The state of `class Grain`; `σ` is the state of a `juce::SmoothedValue<float>`. -/
structure Grain (σ : Type) where
  /-- The field `int onset`. -/
  onset : Int
  /-- The field `int length`. -/
  length : Int
  /-- The field `float rate`. -/
  rate : ℚ
  /-- The field `float level`. -/
  level : ℚ
  /-- The field `float position`. -/
  position : ℚ
  /-- The field `float sr`. -/
  sr : ℚ
  /-- The field `int delayOffset`. -/
  delayOffset : Int
  /-- The field `float pan`. -/
  pan : ℚ
  /-- The field `smoothLevel`. -/
  smoothLevel : σ
  /-- The field `smoothRate`. -/
  smoothRate : σ

/-- The loop `while (readPos < 0) readPos += size`, run for at most `fuel` iterations;
`none` when the condition still holds after them. -/
def wrapUp : Nat → ℚ → ℚ → Option ℚ
  | 0, _, readPos => if readPos < 0 then none else some readPos
  | fuel + 1, size, readPos =>
    if readPos < 0 then wrapUp fuel size (readPos + size) else some readPos

/-- The loop `while (readPos >= size) readPos -= size`, run for at most `fuel` iterations;
`none` when the condition still holds after them. -/
def wrapDown : Nat → ℚ → ℚ → Option ℚ
  | 0, size, readPos => if readPos ≥ size then none else some readPos
  | fuel + 1, size, readPos =>
    if readPos ≥ size then wrapDown fuel size (readPos - size) else some readPos

/-- A number of iterations that is enough for either wrap loop to finish on `readPos`
when `size > 0`; 0 when `size ≤ 0`, where a loop that starts never finishes. -/
def wrapFuel (size : Int) (readPos : ℚ) : Nat :=
  if 0 < size then (⌈|readPos| / (size : ℚ)⌉).toNat + 1 else 0

/-- The two wrap loops of the delay read position, one after the other; `none` when a
loop does not terminate. -/
def wrapReadPos (size : Int) (readPos : ℚ) : Option ℚ :=
  (wrapUp (wrapFuel size readPos) (size : ℚ) readPos).bind
    (fun p => wrapDown (wrapFuel size readPos) (size : ℚ) p)

namespace Grain

variable {σ : Type}

/-- The default constructor `Grain()`. -/
def mkDefault (sm : SmoothedValueOps σ) : Grain σ :=
  { onset := 0, length := 0, rate := 1, level := 1, position := 0, sr := 48000,
    delayOffset := 0, pan := 0, smoothLevel := sm.fresh, smoothRate := sm.fresh }

/-- The constructor with arguments; the pan is drawn from the system random generator. -/
def construct (sm : SmoothedValueOps σ) (rng : RandomSource) (onset length : Int)
    (rate level position : ℚ) (delayOffset : Int) (sr stereoWidth : ℚ) :
    Grain σ × RandomSource :=
  let draw := rng.nextFloat
  ({ onset := onset, length := length, rate := rate, level := level, position := position,
     sr := sr, delayOffset := delayOffset,
     smoothLevel := sm.setCurrentAndTargetValue (sm.reset sm.fresh sr (1 / 10)) level,
     smoothRate := sm.setCurrentAndTargetValue (sm.reset sm.fresh sr (1 / 10)) rate,
     pan := (draw.1 * 2 - 1) * stereoWidth },
   draw.2)

/-- The method `isDone`; the `int` sum `onset + length` wraps at 32 bits. -/
def isDone (g : Grain σ) (time : Int) : Bool :=
  decide (time > wrapInt32 (g.onset + g.length))

/-- The method `triEnvelope`. -/
def triEnvelope (g : Grain σ) (t : Int) : ℚ :=
  if t < 0 ∨ t ≥ g.length then 0
  else if t < g.length.tdiv 2 then 2 * (t : ℚ) / (g.length : ℚ)
  else 2 * (1 - (t : ℚ) / (g.length : ℚ))

/-- The method `hannEnvelope`. -/
def hannEnvelope (fl : FloatLib) (g : Grain σ) (t : Int) : ℚ :=
  if t < 0 ∨ t ≥ g.length then 0
  else
    let phase := (t : ℚ) / (g.length : ℚ)
    (1 / 2) * (1 - fl.cos (2 * fl.pi * phase))

/-- The method `expEnvelope`; `std::pow (x, 3.0f)` is the cube of `x`. -/
def expEnvelope (g : Grain σ) (t : Int) : ℚ :=
  if t < 0 ∨ t ≥ g.length then 0
  else
    let phase := (t : ℚ) / (g.length : ℚ)
    if phase < 1 / 2 then (phase * 2) ^ 3 else ((1 - phase) * 2) ^ 3

/-- The method `trapezoidEnvelope`. -/
def trapezoidEnvelope (g : Grain σ) (t : Int) : ℚ :=
  if t < 0 ∨ t ≥ g.length then 0
  else
    let phase := (t : ℚ) / (g.length : ℚ)
    let attackPortion : ℚ := 1 / 5
    let releasePortion : ℚ := 1 / 5
    if phase < attackPortion then phase / attackPortion
    else if phase > 1 - releasePortion then (1 - phase) / releasePortion
    else 1

/-- The method `getOnset`. -/
def getOnset (g : Grain σ) : Int := g.onset

/-- The method `getLength`. -/
def getLength (g : Grain σ) : Int := g.length

/-- The method `getRate`. -/
def getRate (g : Grain σ) : ℚ := g.rate

/-- The method `getDelayOffset`. -/
def getDelayOffset (g : Grain σ) : ℚ := (g.delayOffset : ℚ)

/-- The method `getSmoothedLevel`: the value returned and the grain after the call. -/
def getSmoothedLevel (sm : SmoothedValueOps σ) (g : Grain σ) : ℚ × Grain σ :=
  ((sm.getNextValue g.smoothLevel).1, { g with smoothLevel := (sm.getNextValue g.smoothLevel).2 })

/-- The envelope selection of the channel loop of `sampleProcess` and `delayProcess`. -/
def selectEnvelope (fl : FloatLib) (g : Grain σ) (envelope t : Int) : ℚ :=
  if envelope = 0 then g.triEnvelope t
  else if envelope = 1 then g.hannEnvelope fl t
  else if envelope = 2 then g.expEnvelope t
  else g.trapezoidEnvelope t

/-- One iteration of the channel loop of `sampleProcess` and of `delayProcess` after the
source sample has been fetched (the two loops have the same text from there on): the
state is the `smoothLevel` ramp and the output buffer. -/
def renderChannel (sm : SmoothedValueOps σ) (fl : FloatLib) (g : Grain σ) (sample : ℚ)
    (t sampleIndex envelope activity : Int) (st : σ × AudioBuffer) : σ × AudioBuffer :=
  let env := g.selectEnvelope fl envelope t
  let levelSmoothed := (sm.getNextValue st.1).1
  let grainGain := levelSmoothed / ((jmax 1 activity : Int) : ℚ)
  let leftGain := fl.sqrt ((1 / 2) * (1 - g.pan))
  let rightGain := fl.sqrt ((1 / 2) * (1 + g.pan))
  if st.2.numChannels ≥ 2 then
    ((sm.getNextValue st.1).2,
     (st.2.addSample 0 sampleIndex (sample * env * grainGain * leftGain)).addSample 1
       sampleIndex (sample * env * grainGain * rightGain))
  else
    ((sm.getNextValue st.1).2, st.2.addSample 0 sampleIndex (sample * env * grainGain))

/-- The source index `scrSample` of `sampleProcess`. -/
def scrSample (g : Grain σ) (source : AudioBuffer) (t : Int) (rateSmoothed : ℚ) : Int :=
  jlimit 0 (source.numSamples - 1)
    (truncToInt (g.position * (source.numSamples : ℚ)) + truncToInt ((t : ℚ) * rateSmoothed))

/-- The method `sampleProcess`: the grain and the output buffer after the call. -/
def sampleProcess (sm : SmoothedValueOps σ) (fl : FloatLib) (g : Grain σ)
    (output source : AudioBuffer) (time sampleIndex envelope activity : Int) :
    Grain σ × AudioBuffer :=
  let t := time - g.onset
  if t < 0 ∨ t ≥ g.length then (g, output)
  else
    let rateSmoothed := (sm.getNextValue g.smoothRate).1
    let src := g.scrSample source t rateSmoothed
    let r := (List.range output.numChannels.toNat).foldl
      (fun st (ch : Nat) =>
        g.renderChannel sm fl (source.getSample ((ch : Int).tmod source.numChannels) src)
          t sampleIndex envelope activity st)
      (g.smoothLevel, output)
    ({ g with smoothRate := (sm.getNextValue g.smoothRate).2, smoothLevel := r.1 }, r.2)

/-- The interpolated delay sample read at the wrapped position `readPos`. -/
def delaySample (source : DelayLine) (readPos : ℚ) : ℚ :=
  let lower : Int := ⌊readPos⌋
  let upper : Int := (lower + 1).tmod source.getDelaySize
  let frac := readPos - (lower : ℚ)
  let lowerVal := source.getSampleAtIndex lower
  let upperVal := source.getSampleAtIndex upper
  (1 - frac) * lowerVal + frac * upperVal

/-- The method `delayProcess`: the grain and the output buffer after the call, `none`
when a wrap loop does not terminate. -/
def delayProcess (sm : SmoothedValueOps σ) (fl : FloatLib) (g : Grain σ)
    (output : AudioBuffer) (source : DelayLine) (time sampleIndex envelope activity : Int) :
    Option (Grain σ × AudioBuffer) :=
  let t := time - g.onset
  if t < 0 ∨ t ≥ g.length then some (g, output)
  else
    (wrapReadPos source.getDelaySize ((g.delayOffset : ℚ) + (t : ℚ) * g.rate)).map
      (fun readPos =>
        let r := (List.range output.numChannels.toNat).foldl
          (fun st _ =>
            g.renderChannel sm fl (delaySample source readPos) t sampleIndex envelope
              activity st)
          (g.smoothLevel, output)
        ({ g with smoothLevel := r.1 }, r.2))

end Grain

/-! ## Floating-point rounding -/

/-- The integer nearest to `x`, the even one of the two when `x` lies half-way between
them (the default rounding direction of IEEE 754 arithmetic). -/
def roundHalfEven (x : ℚ) : Int :=
  if x - (⌊x⌋ : ℚ) < 1 / 2 then ⌊x⌋
  else if 1 / 2 < x - (⌊x⌋ : ℚ) then ⌊x⌋ + 1
  else if ⌊x⌋ % 2 = 0 then ⌊x⌋ else ⌊x⌋ + 1

/-- The unit in the last place of `q` in a binary floating-point format with `p`
significant bits whose least normal exponent is `emin`: `2 ^ (e - p + 1)` for
`2 ^ e ≤ |q| < 2 ^ (e + 1)`, and the one of the exponent `emin` below the normal range. -/
def ulpBinary (p : Nat) (emin : Int) (q : ℚ) : ℚ :=
  (2 : ℚ) ^ (max (Int.log 2 |q|) emin - (p : Int) + 1)

/-- The value of `q` rounded to a binary floating-point format with `p` significant bits
and least normal exponent `emin`, to nearest with ties to even: the result of a C++
floating-point operation whose exact result is `q`, or of a conversion of `q` to the
format.  Overflow to infinity is not represented. -/
def roundBinary (p : Nat) (emin : Int) (q : ℚ) : ℚ :=
  (roundHalfEven (q / ulpBinary p emin q) : ℚ) * ulpBinary p emin q

/-- Rounding to `float` (IEEE 754 binary32: 24 significant bits). -/
def roundFloat (q : ℚ) : ℚ := roundBinary 24 (-126) q

/-- Rounding to `double` (IEEE 754 binary64: 53 significant bits). -/
def roundDouble (q : ℚ) : ℚ := roundBinary 53 (-1022) q

/-! ## GrainSampler.h -/

/-- The values of the plugin parameters read through the `std::atomic<float>*` fields of
`GrainVoice`; `grainFeedback` is `none` when `grainFeedbackParam` is a null pointer. -/
structure Params where
  /-- The parameter "Level". -/
  level : ℚ
  /-- The parameter "Position". -/
  position : ℚ
  /-- The parameter "stereoWidth". -/
  stereoWidth : ℚ
  /-- The parameter "Activity". -/
  activity : ℚ
  /-- The parameter "Envelope". -/
  envelope : ℚ
  /-- The parameter "Sparse". -/
  sparse : ℚ
  /-- The parameter "Length". -/
  length : ℚ
  /-- The parameter "jitter". -/
  jitter : ℚ
  /-- The parameter "LevelRand". -/
  levelRand : ℚ
  /-- The parameter "Mode". -/
  mode : ℚ
  /-- The parameter "Density". -/
  density : ℚ
  /-- The parameter "Mix". -/
  mix : ℚ
  /-- The parameter "Playback". -/
  playback : ℚ
  /-- The parameter "Quantise". -/
  quantise : ℚ
  /-- The parameter "QuantiseDivision". -/
  quantiseDivision : ℚ
  /-- The parameter "GrainFeedback". -/
  grainFeedback : Option ℚ
  /-- The parameter "Feedback". -/
  feedback : ℚ

/-- The state of `class GrainVoice`; `σ` is the state of a `juce::SmoothedValue<float>` and
`α` the state of a `juce::ADSR`. -/
structure GrainVoice (σ α : Type) where
  /-- The field `bool noteOn`. -/
  noteOn : Bool
  /-- The field `float grainPosition`. -/
  grainPosition : ℚ
  /-- The field `int currentSampleIndex`. -/
  currentSampleIndex : Int
  /-- The field `int activeVoiceOn`. -/
  activeVoiceOn : Int
  /-- The field `float playbackRate`. -/
  playbackRate : ℚ
  /-- The field `int density`. -/
  density : Int
  /-- The buffer behind the pointer `sampleBuffer`, `none` for a null pointer. -/
  sampleBuffer : Option AudioBuffer
  /-- The cells of `std::vector<float> dryReadHeads`, indexed from its first element. -/
  dryReadHeads : Int → ℚ
  /-- The size of `dryReadHeads`. -/
  dryReadHeadsSize : Int
  /-- The field `double currentBpm`. -/
  currentBpm : ℚ
  /-- The field `juce::Array<Grain> grains`. -/
  grains : List (Grain σ)
  /-- The field `DelayLine delayLine`. -/
  delayLine : DelayLine
  /-- The field `int maxDelaySize`. -/
  maxDelaySize : Int
  /-- The field `juce::ADSR envelope`. -/
  envelope : α
  /-- The field `smoothSparse`. -/
  smoothSparse : σ
  /-- The field `smoothedMix`. -/
  smoothedMix : σ
  /-- The field `smoothedFeedback`. -/
  smoothedFeedback : σ
  /-- The result of `getSampleRate()` of the base class `juce::SynthesiserVoice`. -/
  sampleRate : ℚ
  /-- The process-wide random generators. -/
  random : RandomSource
  /-- A trace, not a field of the class: for every call of `grains.add`, in order, the
  value of `currentSampleIndex` at the call and the grain added. -/
  spawnLog : List (Int × Grain σ)

namespace GrainVoice

variable {σ α : Type}

/-- The method `msToSamples`, `int((ms / 1000.0f) * getSampleRate())`: the argument is a
`float`, the division by `1000.0f` is a `float` division, the product with the `double`
that `getSampleRate()` returns is a `double` product, and `int(...)` truncates. -/
def msToSamples (v : GrainVoice σ α) (ms : ℚ) : Int :=
  truncToInt (roundDouble (roundFloat (roundFloat ms / 1000) * v.sampleRate))

/-- The value given to `density` at the start of `renderNextBlock` (the quantise test);
`msPerQuarter` and `msBetweenGrains` are computed in `double`. -/
def computeDensity (v : GrainVoice σ α) (p : Params) : Int :=
  if p.quantise > 1 / 2 then
    let msPerQuarter := roundDouble (roundDouble (60 / v.currentBpm) * 1000)
    let division : Int :=
      if truncToInt p.quantiseDivision = 0 then 1
      else if truncToInt p.quantiseDivision = 1 then 2
      else if truncToInt p.quantiseDivision = 2 then 4
      else 2
    let msBetweenGrains := roundDouble (msPerQuarter / (division : ℚ))
    v.msToSamples msBetweenGrains
  else
    v.msToSamples p.density

/-- The playback direction of a new grain: the rate of the grain and the random
generators after the choice. -/
def chooseGrainRate (rng : RandomSource) (playbackMode : Int) (rate : ℚ) : ℚ × RandomSource :=
  if playbackMode = 0 then (rate, rng)
  else if playbackMode = 1 then (-rate, rng)
  else
    let flip := decide ((rng.rand.1).tmod 2 = 0)
    if flip then (rate, rng.rand.2) else (-rate, rng.rand.2)

/-- The probability gate of a new grain: its level and the random generators after it. -/
def gateLevel (rng : RandomSource) (levelRandomness level : ℚ) : ℚ × RandomSource :=
  if levelRandomness > 0 then
    let randProb := (rng.rand.1 : ℚ) / (rng.randMax : ℚ)
    if randProb > levelRandomness then (0, rng.rand.2) else (level, rng.rand.2)
  else (level, rng)

/-- The body of the spawn test of `renderNextBlock` (the statements run when
`currentSampleIndex % density == 0`), at loop index `i`. -/
def spawnGrain (sm : SmoothedValueOps σ) (adsr : ADSROps α) (p : Params)
    (v : GrainVoice σ α) (i : Int) (enVal : ℚ) (mode : Int) (sparse : ℚ) : GrainVoice σ α :=
  let level := p.level * enVal
  let rate := v.playbackRate
  let grainPosition := p.position
  let playbackMode := truncToInt p.playback
  let dir := chooseGrainRate v.random playbackMode rate
  let grainRate := dir.1
  let dev := dir.2.nextFloat
  let deviation := dev.1 * 2 - 1
  let spreadAmount := sparse * (1 / 2)
  let position := jlimitF 0 1 (grainPosition + deviation * spreadAmount)
  let spread := p.stereoWidth
  let baseLength := v.msToSamples p.length
  let jitterAmount := p.jitter
  let jit := dev.2.rand
  let randVal := ((jit.1 : ℚ) / (jit.2.randMax : ℚ)) * 2 - 1
  let jitterSamples := truncToInt ((baseLength : ℚ) * jitterAmount * randVal)
  let length := max 1 (baseLength + jitterSamples)
  let gate := gateLevel jit.2 p.levelRand level
  let onset := i + v.currentSampleIndex
  let made : Grain σ × RandomSource :=
    if mode = 0 then
      let delayOffset :=
        (v.delayLine.getWriteHeadPosition
          - truncToInt (position * (v.delayLine.getDelaySize : ℚ))
          + v.delayLine.getDelaySize).tmod v.delayLine.getDelaySize
      Grain.construct sm gate.2 onset length grainRate gate.1 0 delayOffset v.sampleRate spread
    else
      Grain.construct sm gate.2 onset length grainRate gate.1 position 0 v.sampleRate spread
  { v with
    grainPosition := grainPosition
    random := made.2
    grains := v.grains ++ [made.1]
    spawnLog := v.spawnLog ++ [(v.currentSampleIndex, made.1)]
    noteOn := if adsr.isActive v.envelope then v.noteOn else false }

/-- The state of the loop over the grains: the collection, the output buffer and
`grainSum`. -/
structure RenderState (σ : Type) where
  /-- The collection `grains`. -/
  grains : List (Grain σ)
  /-- The output buffer. -/
  output : AudioBuffer
  /-- The local `grainSum`. -/
  grainSum : ℚ

/-- The body of the loop over the grains at index `g`.  `juce::Array::operator[]`
returns the element by value (the default grain for an index out of range), so every
`grains[g]` is a copy and the stored grain is not modified; `none` when a wrap loop does
not terminate. -/
def renderGrainAt (sm : SmoothedValueOps σ) (fl : FloatLib) (mode envelope activity : Int)
    (currentSampleIndex i : Int) (line : DelayLine) (source : AudioBuffer) (g : Nat)
    (st : RenderState σ) : Option (RenderState σ) :=
  let grain := (st.grains.get? g).getD (Grain.mkDefault sm)
  let rendered : Option (AudioBuffer × ℚ) :=
    if mode = 0 then
      (grain.delayProcess sm fl st.output line currentSampleIndex i envelope activity).bind
        (fun r =>
          let t := currentSampleIndex - grain.getOnset
          if t ≥ 0 ∧ t < grain.getLength then
            (wrapReadPos line.getDelaySize (grain.getDelayOffset + (t : ℚ) * grain.getRate)).map
              (fun readPos =>
                let sample := Grain.delaySample line readPos
                let env := grain.triEnvelope t
                let levelSmoothed := (grain.getSmoothedLevel sm).1
                let gain := levelSmoothed / ((max 1 activity : Int) : ℚ)
                (r.2, st.grainSum + sample * env * gain))
          else some (r.2, st.grainSum))
    else
      some ((grain.sampleProcess sm fl st.output source currentSampleIndex i envelope
        activity).2, st.grainSum)
  rendered.map (fun r =>
    { grains := if grain.isDone currentSampleIndex then st.grains.eraseIdx g else st.grains
      output := r.1
      grainSum := r.2 })

/-- The loop `for (int g = grains.size() - 1; g >= 0; --g)`: `count` is `g + 1`. -/
def renderGrains (sm : SmoothedValueOps σ) (fl : FloatLib) (mode envelope activity : Int)
    (currentSampleIndex i : Int) (line : DelayLine) (source : AudioBuffer) :
    Nat → RenderState σ → Option (RenderState σ)
  | 0, st => some st
  | g + 1, st =>
    (renderGrainAt sm fl mode envelope activity currentSampleIndex i line source g st).bind
      (renderGrains sm fl mode envelope activity currentSampleIndex i line source g)

/-- The body of the per-sample loop of `renderNextBlock` at loop index `i`; `none` when
a wrap loop does not terminate. -/
def perSample (sm : SmoothedValueOps σ) (adsr : ADSROps α) (fl : FloatLib) (p : Params)
    (source : AudioBuffer) (v : GrainVoice σ α) (output : AudioBuffer) (i : Int) :
    Option (GrainVoice σ α × AudioBuffer) :=
  let enVal := (adsr.getNextSample v.envelope).1
  let mode := truncToInt p.mode
  let sparseRamp := sm.getNextValue (sm.setTargetValue v.smoothSparse p.sparse)
  let sparse := sparseRamp.1
  let v1 : GrainVoice σ α :=
    { v with envelope := (adsr.getNextSample v.envelope).2, smoothSparse := sparseRamp.2 }
  let v2 : GrainVoice σ α :=
    if v1.currentSampleIndex.tmod v1.density = 0 then spawnGrain sm adsr p v1 i enVal mode sparse
    else v1
  let envelope := truncToInt p.envelope
  let activity := truncToInt p.activity * v2.activeVoiceOn
  let input := source.getSample 0 (v2.currentSampleIndex.tmod source.numSamples)
  let line1 := (v2.delayLine.process input).2
  (renderGrains sm fl mode envelope activity v2.currentSampleIndex i line1 source
      v2.grains.length ⟨v2.grains, output, 0⟩).map
    (fun st =>
      let feedbackRamp := sm.getNextValue (sm.setTargetValue v2.smoothedFeedback p.feedback)
      let feedbackAmt := feedbackRamp.1
      let line2 := line1.setFeedback feedbackAmt
      let feedbackGain : ℚ := p.grainFeedback.getD 0
      let line3 := (line2.process (st.grainSum * feedbackGain)).2
      ({ v2 with
         grains := st.grains
         delayLine := line3
         smoothedFeedback := feedbackRamp.2
         currentSampleIndex := v2.currentSampleIndex + 1 },
       st.output))

/-- The per-sample loop `for (int i = startSample; i < startSample + numSamples; ++i)`:
`count` iterations are left and the loop index is `i`. -/
def sampleLoop (sm : SmoothedValueOps σ) (adsr : ADSROps α) (fl : FloatLib) (p : Params)
    (source : AudioBuffer) :
    Nat → Int → GrainVoice σ α × AudioBuffer → Option (GrainVoice σ α × AudioBuffer)
  | 0, _, st => some st
  | count + 1, i, st =>
    (perSample sm adsr fl p source st.1 st.2 i).bind
      (sampleLoop sm adsr fl p source count (i + 1))

/-- One iteration of the inner loop of the dry pass for channel `ch` at index `i`: the
state is the read head of the channel and the dry buffer. -/
def drySample (source : AudioBuffer) (playbackRate : ℚ) (ch : Int) (st : ℚ × AudioBuffer)
    (i : Nat) : ℚ × AudioBuffer :=
  let numSourceSamples := source.numSamples
  let lowerIndex := truncToInt st.1
  let upperIndex := jmin (lowerIndex + 1) (numSourceSamples - 1)
  let frac := st.1 - (lowerIndex : ℚ)
  let sampleLower := source.getSample (ch.tmod source.numChannels) lowerIndex
  let sampleUpper := source.getSample (ch.tmod source.numChannels) upperIndex
  let interpolatedSample := sampleLower * (1 - frac) + sampleUpper * frac
  let readHead := st.1 + playbackRate
  (if readHead ≥ ((numSourceSamples - 1 : Int) : ℚ)
     then readHead - ((numSourceSamples - 1 : Int) : ℚ) else readHead,
   st.2.setSample ch (i : Int) interpolatedSample)

/-- The dry pass of `renderNextBlock` (the loop over the channels): the state is the
memory of `dryReadHeads` and the dry buffer. -/
def dryPass (source : AudioBuffer) (playbackRate : ℚ) (headsSize : Int)
    (numChannels numSamples : Int) (st : (Int → ℚ) × AudioBuffer) : (Int → ℚ) × AudioBuffer :=
  (List.range numChannels.toNat).foldl
    (fun st (ch : Nat) =>
      let slot := (ch : Int).tmod headsSize
      let r := (List.range numSamples.toNat).foldl
        (drySample source playbackRate (ch : Int)) (st.1 slot, st.2)
      (DelayLine.writeCell st.1 slot r.1, r.2))
    st

/-- One iteration of the inner loop of the final mix at channel `ch` and index `i`: the
state is the `smoothedMix` ramp and the output buffer. -/
def mixSample (sm : SmoothedValueOps σ) (dryBuffer : AudioBuffer) (ch : Int)
    (st : σ × AudioBuffer) (i : Int) : σ × AudioBuffer :=
  let wetMix := (sm.getNextValue st.1).1
  let dryMix := 1 - wetMix
  let dry := dryBuffer.getSample ch i
  let wet := st.2.getSample ch i
  let mixed := jlimitF (-1) 1 (dry * dryMix + wet * wetMix)
  ((sm.getNextValue st.1).2, st.2.setSample ch i mixed)

/-- The final mix of `renderNextBlock` (both loops), after `setTargetValue`. -/
def mixPass (sm : SmoothedValueOps σ) (dryBuffer : AudioBuffer) (startSample numSamples : Int)
    (st : σ × AudioBuffer) : σ × AudioBuffer :=
  (List.range st.2.numChannels.toNat).foldl
    (fun st (ch : Nat) =>
      (List.range numSamples.toNat).foldl
        (fun st (k : Nat) => mixSample sm dryBuffer (ch : Int) st (startSample + (k : Int)))
        st)
    st

/-- The method `renderNextBlock`: the voice and the output buffer after the call; `none`
when a wrap loop does not terminate. -/
def renderNextBlock (sm : SmoothedValueOps σ) (adsr : ADSROps α) (fl : FloatLib) (p : Params)
    (v : GrainVoice σ α) (outputBuffer : AudioBuffer) (startSample numSamples : Int) :
    Option (GrainVoice σ α × AudioBuffer) :=
  match v.sampleBuffer with
  | none => some (v, outputBuffer)
  | some source =>
    if v.noteOn = false then some (v, outputBuffer)
    else
      let dry :=
        if source.numSamples > 0 then
          dryPass source v.playbackRate v.dryReadHeadsSize outputBuffer.numChannels
            outputBuffer.numSamples
            (v.dryReadHeads, AudioBuffer.cleared outputBuffer.numChannels outputBuffer.numSamples)
        else
          (v.dryReadHeads, AudioBuffer.cleared outputBuffer.numChannels outputBuffer.numSamples)
      let v1 : GrainVoice σ α :=
        { v with dryReadHeads := dry.1, density := v.computeDensity p }
      (sampleLoop sm adsr fl p source numSamples.toNat startSample (v1, outputBuffer)).map
        (fun r =>
          let mixed := mixPass sm dry.2 startSample numSamples
            (sm.setTargetValue r.1.smoothedMix p.mix, r.2)
          ({ r.1 with smoothedMix := mixed.1 }, mixed.2))

/-- The envelope state after `k` calls of `getNextSample`. -/
def envelopeAfter (adsr : ADSROps α) (e : α) : Nat → α
  | 0 => e
  | k + 1 => (adsr.getNextSample (envelopeAfter adsr e k)).2

end GrainVoice

/-- The sample-mode rendering of every grain of a collection into one output buffer at one
time, as the grain loop of `renderNextBlock` does with `sampleProcess`: the output buffer
after all the calls. -/
def Grain.sampleProcessAll {σ : Type} (sm : SmoothedValueOps σ) (fl : FloatLib)
    (grains : List (Grain σ)) (output source : AudioBuffer)
    (time sampleIndex envelope activity : Int) : AudioBuffer :=
  grains.foldl
    (fun out g => (g.sampleProcess sm fl out source time sampleIndex envelope activity).2)
    output

/-- A `juce::SmoothedValue<float>` that is not ramping, as a state that is its value:
`getNextValue` returns the value and leaves it as it is. -/
def settledRamp : SmoothedValueOps ℚ :=
  { fresh := 0
    reset := fun s _ _ => s
    setCurrentAndTargetValue := fun _ x => x
    setTargetValue := fun _ x => x
    getNextValue := fun s => (s, s) }

/-- A `FloatLib` whose square root is `Rat.sqrt`, exact on the squares of rationals; its
cosine is the constant 1. -/
def exactSqrtLib : FloatLib :=
  { sqrt := Rat.sqrt
    cos := fun _ => 1
    pi := 355 / 113 }

/-- A `juce::ADSR` held at its sustain level 1: every sample is 1 and it stays active. -/
def heldEnvelope : ADSROps Unit :=
  { setSampleRate := fun e _ => e
    setParameters := fun e _ _ _ _ => e
    noteOn := fun e => e
    noteOff := fun e => e
    getNextSample := fun e => (1, e)
    isActive := fun _ => true }

/-- Random generators whose every draw is 0, with `RAND_MAX = 32767`. -/
def zeroRandom : RandomSource :=
  { randMax := 32767, randValues := fun _ => 0, randCalls := 0,
    floatValues := fun _ => 0, floatCalls := 0 }

/-- A voice right after a note has started (counter 0, no grain, note on) at a sample rate
of 1000 Hz, on a mono source of 4 samples and a delay line of 3000 cells. -/
def heldVoice : GrainVoice ℚ Unit :=
  { noteOn := true, grainPosition := 0, currentSampleIndex := 0, activeVoiceOn := 1,
    playbackRate := 1, density := 500,
    sampleBuffer := some ⟨1, 4, fun _ _ => 1⟩,
    dryReadHeads := fun _ => 0, dryReadHeadsSize := 1, currentBpm := 120, grains := [],
    delayLine := ⟨fun _ => 0, 3000, 0, 0, 0, 0⟩, maxDelaySize := 3000, envelope := (),
    smoothSparse := 0, smoothedMix := 0, smoothedFeedback := 0, sampleRate := 1000,
    random := zeroRandom, spawnLog := [] }

/-- Parameter values with quantise off and a density of 100 ms, in sample mode. -/
def fixedDensityParams : Params :=
  { level := 1, position := 0, stereoWidth := 0, activity := 1, envelope := 0, sparse := 0,
    length := 50, jitter := 0, levelRand := 0, mode := 1, density := 100, mix := 1,
    playback := 0, quantise := 0, quantiseDivision := 0, grainFeedback := some 0,
    feedback := 0 }

/-! ## Specification helpers -/

/-- The counter values in `c, c+1, ..., c+n-1` at which the spawn test holds for the
interval `D` (specification helper). -/
def spawnTimes (D : Int) : Int → Nat → List Int
  | _, 0 => []
  | c, n + 1 => (if c.tmod D = 0 then [c] else []) ++ spawnTimes D (c + 1) n


namespace DelayLine

/-- The invariant of the impulse run after `j` calls of `process`. -/
structure ImpulseInv (N : Int) (g : ℚ) (del : Nat) (j : Nat) (L : DelayLine) : Prop where
  size : L.maxDelaySize = N
  gain : L.feedbackAmt = g
  wr : L.writeHeadPosition = (j : Int) % N
  rd : L.readHeadPosition = (((N - del + j) % N : Int) : ℚ)
  recent : ∀ i : Nat, i < j → (j : Int) ≤ i + N →
    L.delayBuffer ((i : Int) % N) = echoTrain g del (i + del)
  untouched : ∀ c : Int, (j : Int) ≤ c → c < N → L.delayBuffer c = 0

end DelayLine

namespace GrainVoice

variable {σ α : Type}

/-- The part of the voice that the spawn schedule depends on is carried from `v` to `w` by
one per-sample step. -/
structure StepsTo (adsr : ADSROps α) (v w : GrainVoice σ α) : Prop where
  counter : w.currentSampleIndex = v.currentSampleIndex + 1
  density : w.density = v.density
  envelope : w.envelope = (adsr.getNextSample v.envelope).2
  source : w.sampleBuffer = v.sampleBuffer
  bpm : w.currentBpm = v.currentBpm
  rate : w.sampleRate = v.sampleRate
  size : w.delayLine.maxDelaySize = v.delayLine.maxDelaySize
  log : w.spawnLog.map Prod.fst
    = v.spawnLog.map Prod.fst
      ++ (if v.currentSampleIndex.tmod v.density = 0 then [v.currentSampleIndex] else [])
  note : adsr.isActive (adsr.getNextSample v.envelope).2 = true → w.noteOn = v.noteOn

end GrainVoice

namespace GrainVoice

variable {σ α : Type}

/-- The part of the voice that the spawn schedule depends on is carried from `v` to `w` by
`n` per-sample steps run with the spawn interval `D` while the envelope stays active. -/
structure RunsTo (adsr : ADSROps α) (D : Int) (n : Nat) (v w : GrainVoice σ α) : Prop where
  counter : w.currentSampleIndex = v.currentSampleIndex + n
  density : w.density = D
  envelope : w.envelope = envelopeAfter adsr v.envelope n
  source : w.sampleBuffer = v.sampleBuffer
  bpm : w.currentBpm = v.currentBpm
  rate : w.sampleRate = v.sampleRate
  size : w.delayLine.maxDelaySize = v.delayLine.maxDelaySize
  log : w.spawnLog.map Prod.fst = v.spawnLog.map Prod.fst ++ spawnTimes D v.currentSampleIndex n
  note : w.noteOn = v.noteOn

end GrainVoice

/-! ## Definitions for the claims on envelopes, density and the final mix -/

/-- The state of a `juce::SmoothedValue<float>` after `j` calls of `getNextValue`. -/
def rampAfter {σ : Type} (sm : SmoothedValueOps σ) (s : σ) : Nat → σ
  | 0 => s
  | j + 1 => (sm.getNextValue (rampAfter sm s j)).2

/-- The value returned by call number `j` (from 0) of `getNextValue`. -/
def rampValue {σ : Type} (sm : SmoothedValueOps σ) (s : σ) (j : Nat) : ℚ :=
  (sm.getNextValue (rampAfter sm s j)).1

/-- The value the final mix stores for a dry sample, a wet sample and a wet weight. -/
def mixedValue (dry wet wetMix : ℚ) : ℚ := jlimitF (-1) 1 (dry * (1 - wetMix) + wet * wetMix)

/-- The divisor of the quarter note chosen by the `switch` of the quantise branch for the
subdivision index `k`. -/
def quantiseDivisor (k : Int) : Int :=
  if k = 0 then 1 else if k = 1 then 2 else if k = 2 then 4 else 2

/-- The onsets of the grains passed to `grains.add`, in order. -/
def GrainVoice.spawnOnsets {σ α : Type} (v : GrainVoice σ α) : List Int :=
  v.spawnLog.map (fun e => e.2.onset)

/-- The state of a linear `juce::SmoothedValue<float>`. -/
structure LinearRamp where
  /-- The field `currentValue`. -/
  currentValue : ℚ
  /-- The field `target`. -/
  target : ℚ
  /-- The field `step`. -/
  step : ℚ
  /-- The field `countdown`. -/
  countdown : Int
  /-- The field `stepsToTarget`. -/
  stepsToTarget : Int

/-- Modelled from the spec: `juce::SmoothedValue<float>` belongs to the JUCE library and is
not among the sources; the spec describes it as a ramp that is initialised on its target,
moves to a new target over a fixed ramp length (0.1 s) and advances by one step at every
`getNextValue`.  This is the linear ramp of the library: `reset` fixes the number of steps
`⌊rampLength * sampleRate⌋`, `setTargetValue` starts a ramp of that many equal steps from
the current value, and `getNextValue` returns the target when no ramp is running. -/
def linearRamp : SmoothedValueOps LinearRamp :=
  { fresh := ⟨0, 0, 0, 0, 0⟩
    reset := fun s sampleRate rampLength =>
      { s with stepsToTarget := ⌊rampLength * sampleRate⌋, currentValue := s.target,
               countdown := 0 }
    setCurrentAndTargetValue := fun s x =>
      { s with target := x, currentValue := x, countdown := 0 }
    setTargetValue := fun s x =>
      if x = s.target then s
      else if s.stepsToTarget ≤ 0 then { s with target := x, currentValue := x, countdown := 0 }
      else { s with target := x, countdown := s.stepsToTarget,
                    step := (x - s.currentValue) / (s.stepsToTarget : ℚ) }
    getNextValue := fun s =>
      if s.countdown ≤ 0 then (s.target, s)
      else if s.countdown - 1 > 0 then
        (s.currentValue + s.step,
         { s with countdown := s.countdown - 1, currentValue := s.currentValue + s.step })
      else (s.target, { s with countdown := s.countdown - 1, currentValue := s.target }) }

/-- The inner loop of the final mix for channel `ch`, run over `n` samples. -/
def GrainVoice.mixRow {σ : Type} (sm : SmoothedValueOps σ) (dryBuffer : AudioBuffer)
    (startSample : Int) (n : Nat) (ch : Nat) (st : σ × AudioBuffer) : σ × AudioBuffer :=
  (List.range n).foldl
    (fun st (k : Nat) => GrainVoice.mixSample sm dryBuffer (ch : Int) st (startSample + (k : Int)))
    st

/-! ## Definitions for the claims on configuration and on the spawned grain -/

/-- The method `setMaxSize`.  The size of the vector before the call is `maxDelaySize`;
`resize` keeps the cells below it and sets the new cells to 0.  For a negative `size` the
conversion to the unsigned size type makes `resize` throw `std::length_error`: `none`. -/
def DelayLine.setMaxSize (d : DelayLine) (size : Int) : Option DelayLine :=
  if size < 0 then none
  else
    some { d with
      delayBuffer := fun i => if d.maxDelaySize ≤ i ∧ i < size then 0 else d.delayBuffer i
      maxDelaySize := size }

namespace GrainVoice

variable {σ α : Type}

end GrainVoice

/-! ## Definitions for the claims on the note life cycle, the grain loop and the dry pass -/

namespace GrainVoice

variable {σ α : Type}

/-- The method `stopNote`. -/
def stopNote (adsr : ADSROps α) (v : GrainVoice σ α) : GrainVoice σ α :=
  { v with envelope := adsr.noteOff v.envelope, activeVoiceOn := v.activeVoiceOn - 1 }

/-- The method `startNote` for the MIDI note `midiNoteNumber`; `pow` is `std::pow`.  The
call dereferences `sampleBuffer`: `none` for a null pointer. -/
def startNote (adsr : ADSROps α) (pow : ℚ → ℚ → ℚ) (v : GrainVoice σ α)
    (midiNoteNumber : Int) : Option (GrainVoice σ α) :=
  match v.sampleBuffer with
  | none => none
  | some source =>
    some { v with
      grains := []
      dryReadHeads := fun i => if 0 ≤ i ∧ i < source.numChannels then 0 else v.dryReadHeads i
      dryReadHeadsSize := source.numChannels
      noteOn := true
      currentSampleIndex := 0
      density := 500
      playbackRate := pow 2 (((midiNoteNumber - 60 : Int) : ℚ) / 12)
      envelope :=
        adsr.noteOn (adsr.setParameters (adsr.setSampleRate v.envelope v.sampleRate) 1 1 1 1)
      activeVoiceOn := v.activeVoiceOn + 1 }

/-- The voice in the per-sample step of `renderNextBlock` at loop index `i` after the
envelope and the sparse ramp have advanced and the spawn test has run (the statements of
the step before `int envelope = ...`). -/
def afterSpawn (sm : SmoothedValueOps σ) (adsr : ADSROps α) (p : Params)
    (v : GrainVoice σ α) (i : Int) : GrainVoice σ α :=
  let enVal := (adsr.getNextSample v.envelope).1
  let mode := truncToInt p.mode
  let sparseRamp := sm.getNextValue (sm.setTargetValue v.smoothSparse p.sparse)
  let sparse := sparseRamp.1
  let v1 : GrainVoice σ α :=
    { v with envelope := (adsr.getNextSample v.envelope).2, smoothSparse := sparseRamp.2 }
  if v1.currentSampleIndex.tmod v1.density = 0 then spawnGrain sm adsr p v1 i enVal mode sparse
  else v1

/-- The delay line in the per-sample step after the first call of `process`, the one fed
with the dry input sample `sampleBuffer->getSample (0, currentSampleIndex % numSamples)`. -/
def lineAfterInput (source : AudioBuffer) (v : GrainVoice σ α) : DelayLine :=
  (v.delayLine.process
    (source.getSample 0 (v.currentSampleIndex.tmod source.numSamples))).2

/-- The delay line at the end of the per-sample step for the value `grainSum` of the
feedback accumulator: `setFeedback` with the next value of the `smoothedFeedback` ramp,
then the second call of `process`, fed with `grainSum * feedbackGain`. -/
def lineAfterFeedback (sm : SmoothedValueOps σ) (p : Params) (source : AudioBuffer)
    (v : GrainVoice σ α) (grainSum : ℚ) : DelayLine :=
  (((lineAfterInput source v).setFeedback
      (sm.getNextValue (sm.setTargetValue v.smoothedFeedback p.feedback)).1).process
    (grainSum * p.grainFeedback.getD 0)).2

/-- The rendering part of the body of the loop over the grains for the grain `grain`
(the value of `grains[g]`): the output buffer and `grainSum` after it; `none` when a wrap
loop does not terminate. -/
def renderOne (sm : SmoothedValueOps σ) (fl : FloatLib) (mode envelope activity : Int)
    (currentSampleIndex i : Int) (line : DelayLine) (source : AudioBuffer) (grain : Grain σ)
    (st : AudioBuffer × ℚ) : Option (AudioBuffer × ℚ) :=
  if mode = 0 then
    (grain.delayProcess sm fl st.1 line currentSampleIndex i envelope activity).bind
      (fun r =>
        let t := currentSampleIndex - grain.getOnset
        if t ≥ 0 ∧ t < grain.getLength then
          (wrapReadPos line.getDelaySize (grain.getDelayOffset + (t : ℚ) * grain.getRate)).map
            (fun readPos =>
              let sample := Grain.delaySample line readPos
              let env := grain.triEnvelope t
              let levelSmoothed := (grain.getSmoothedLevel sm).1
              let gain := levelSmoothed / ((max 1 activity : Int) : ℚ)
              (r.2, st.2 + sample * env * gain))
        else some (r.2, st.2))
  else
    some ((grain.sampleProcess sm fl st.1 source currentSampleIndex i envelope
      activity).2, st.2)

/-- The rendering of every grain of a list once, in the order of the list. -/
def renderEach (sm : SmoothedValueOps σ) (fl : FloatLib) (mode envelope activity : Int)
    (currentSampleIndex i : Int) (line : DelayLine) (source : AudioBuffer) :
    List (Grain σ) → AudioBuffer × ℚ → Option (AudioBuffer × ℚ)
  | [], st => some st
  | g :: gs, st =>
    (renderOne sm fl mode envelope activity currentSampleIndex i line source g st).bind
      (renderEach sm fl mode envelope activity currentSampleIndex i line source gs)

/-- The dry buffer and the read heads that `renderNextBlock` has after its dry pass (the
statements before the quantise test) for the source `source` and the output buffer
`outputBuffer`. -/
def dryStage (v : GrainVoice σ α) (source outputBuffer : AudioBuffer) :
    (Int → ℚ) × AudioBuffer :=
  if source.numSamples > 0 then
    dryPass source v.playbackRate v.dryReadHeadsSize outputBuffer.numChannels
      outputBuffer.numSamples
      (v.dryReadHeads, AudioBuffer.cleared outputBuffer.numChannels outputBuffer.numSamples)
  else
    (v.dryReadHeads, AudioBuffer.cleared outputBuffer.numChannels outputBuffer.numSamples)

end GrainVoice

/-- A `std::pow` that is exact at the exponents that are natural numbers: the power of the
base by the integer part of the exponent. -/
def integerPow (b e : ℚ) : ℚ := b ^ ⌊e⌋.toNat

/-- A mono source of 2 samples whose cell `i` holds `i`. -/
def twoSampleSource : AudioBuffer := ⟨1, 2, fun _ i => (i : ℚ)⟩

/-- A mono source of 4 samples whose cell `i` holds `i / 4`. -/
def rampSource : AudioBuffer := ⟨1, 4, fun _ i => (i : ℚ) / 4⟩

/-- The held voice on the source `rampSource`: pitch ratio 1, one dry read head at 0. -/
def rampVoice : GrainVoice ℚ Unit :=
  { noteOn := true, grainPosition := 0, currentSampleIndex := 0, activeVoiceOn := 1,
    playbackRate := 1, density := 500,
    sampleBuffer := some rampSource,
    dryReadHeads := fun _ => 0, dryReadHeadsSize := 1, currentBpm := 120, grains := [],
    delayLine := ⟨fun _ => 0, 3000, 0, 0, 0, 0⟩, maxDelaySize := 3000, envelope := (),
    smoothSparse := 0, smoothedMix := 0, smoothedFeedback := 0, sampleRate := 1000,
    random := zeroRandom, spawnLog := [] }

/-- Parameter values with quantise off, a density of 100 ms, sample mode and a Mix of 0
(dry signal only). -/
def dryParams : Params :=
  { level := 1, position := 0, stereoWidth := 0, activity := 1, envelope := 0, sparse := 0,
    length := 50, jitter := 0, levelRand := 0, mode := 1, density := 100, mix := 0,
    playback := 0, quantise := 0, quantiseDivision := 0, grainFeedback := some 0,
    feedback := 0 }

/-- Modelled from the spec: `juce::ADSR` belongs to the JUCE library and is not among the
sources; the spec describes it as an amplitude envelope with attack, decay, sustain and
release state that a note-off event moves to its release phase and that is inactive once
the release has ended.  This model keeps the sustain and the release: the state is the
level and whether the release has begun; `noteOn` holds the level 1, `noteOff` begins the
release, in which every sample lowers the level by 1/4 down to 0, and the envelope is
active while the level is above 0. -/
def fadingEnvelope : ADSROps (ℚ × Bool) :=
  { setSampleRate := fun e _ => e
    setParameters := fun e _ _ _ _ => e
    noteOn := fun _ => (1, false)
    noteOff := fun e => (e.1, true)
    getNextSample := fun e =>
      if e.2 then (max 0 (e.1 - 1 / 4), (max 0 (e.1 - 1 / 4), true)) else (e.1, e)
    isActive := fun e => decide (0 < e.1) }

/-- A voice whose note is held at the sustain level of `fadingEnvelope`, with the counter
at 0 and the spawn interval 500, on a mono source of 4 samples. -/
def sustainedVoice : GrainVoice ℚ (ℚ × Bool) :=
  { noteOn := true, grainPosition := 0, currentSampleIndex := 0, activeVoiceOn := 1,
    playbackRate := 1, density := 500,
    sampleBuffer := some ⟨1, 4, fun _ _ => 1⟩,
    dryReadHeads := fun _ => 0, dryReadHeadsSize := 1, currentBpm := 120, grains := [],
    delayLine := ⟨fun _ => 0, 3000, 0, 0, 0, 0⟩, maxDelaySize := 3000, envelope := (1, false),
    smoothSparse := 0, smoothedMix := 0, smoothedFeedback := 0, sampleRate := 1000,
    random := zeroRandom, spawnLog := [] }


/-! ## Numeric lemmas -/

lemma truncToInt_intCast (n : Int) : truncToInt (n : ℚ) = n := by
  unfold truncToInt
  split <;> simp

lemma truncToInt_of_nonneg {q : ℚ} (h : 0 ≤ q) : truncToInt q = ⌊q⌋ := by
  unfold truncToInt
  simp [h]

lemma fmod_eq_floorMod {x y : ℚ} (hx : 0 ≤ x) (hy : 0 < y) : fmod x y = floorMod x y := by
  unfold fmod floorMod
  rw [truncToInt_of_nonneg (div_nonneg hx hy.le)]

lemma floorMod_nonneg (x : ℚ) {n : ℚ} (hn : 0 < n) : 0 ≤ floorMod x n := by
  unfold floorMod
  have h := Int.floor_le (x / n)
  have h2 : (⌊x / n⌋ : ℚ) * n ≤ x := by
    have := mul_le_mul_of_nonneg_right h hn.le
    rwa [div_mul_cancel₀ x hn.ne'] at this
  linarith

lemma floorMod_lt (x : ℚ) {n : ℚ} (hn : 0 < n) : floorMod x n < n := by
  unfold floorMod
  have h := Int.lt_floor_add_one (x / n)
  have h2 : x < ((⌊x / n⌋ : ℚ) + 1) * n := by
    have := mul_lt_mul_of_pos_right h hn
    rwa [div_mul_cancel₀ x hn.ne'] at this
  linarith

lemma floorMod_add_int_mul (x : ℚ) {n : ℚ} (hn : 0 < n) (k : Int) :
    floorMod (x + k * n) n = floorMod x n := by
  unfold floorMod
  have : (x + k * n) / n = x / n + k := by
    field_simp
  rw [this, Int.floor_add_int]
  push_cast
  ring

lemma floorMod_of_lt {x n : ℚ} (hx : 0 ≤ x) (hxn : x < n) : floorMod x n = x := by
  unfold floorMod
  have hn : 0 < n := lt_of_le_of_lt hx hxn
  have : ⌊x / n⌋ = 0 := by
    rw [Int.floor_eq_iff]
    constructor
    · simpa using div_nonneg hx hn.le
    · simpa using (div_lt_one hn).2 hxn
  simp [this]

namespace DelayLine

lemma higherBound_eq (d : DelayLine) : d.higherBound = d.lowerBound + 1 := by
  unfold higherBound
  have : ((d.lowerBound : ℚ) + 1) = ((d.lowerBound + 1 : Int) : ℚ) := by push_cast; ring
  rw [this, truncToInt_intCast]

end DelayLine


/-! ## Lemmas on floating-point rounding -/

lemma roundHalfEven_of_lt_half {x : ℚ} {n : Int} (h1 : (n : ℚ) ≤ x) (h2 : x < (n : ℚ) + 1 / 2) :
    roundHalfEven x = n := by
  have hf : ⌊x⌋ = n := by
    rw [Int.floor_eq_iff]
    exact ⟨h1, by linarith⟩
  unfold roundHalfEven
  rw [hf, if_pos (by linarith)]

lemma roundHalfEven_of_gt_half {x : ℚ} {n : Int} (h1 : (n : ℚ) + 1 / 2 < x)
    (h2 : x < (n : ℚ) + 1) : roundHalfEven x = n + 1 := by
  have hf : ⌊x⌋ = n := by
    rw [Int.floor_eq_iff]
    exact ⟨by linarith, h2⟩
  unfold roundHalfEven
  rw [hf, if_neg (by linarith), if_pos (by linarith)]

lemma roundHalfEven_intCast (n : Int) : roundHalfEven (n : ℚ) = n :=
  roundHalfEven_of_lt_half (le_refl _) (by linarith)

lemma roundHalfEven_abs_sub_le (x : ℚ) : |(roundHalfEven x : ℚ) - x| ≤ 1 / 2 := by
  have h0 := Int.floor_le x
  have h1 := Int.lt_floor_add_one x
  unfold roundHalfEven
  split
  · rw [abs_le]
    constructor <;> linarith
  · split
    · rw [abs_le]
      push_cast
      constructor <;> linarith
    · have he : x - (⌊x⌋ : ℚ) = 1 / 2 := by
        rename_i h2 h3
        linarith [not_lt.1 h2, not_lt.1 h3]
      split
      · rw [abs_le]
        constructor <;> linarith
      · rw [abs_le]
        push_cast
        constructor <;> linarith

lemma log_two_eq {q : ℚ} {e : Int} (h1 : (2 : ℚ) ^ e ≤ |q|) (h2 : |q| < (2 : ℚ) ^ (e + 1)) :
    Int.log 2 |q| = e := by
  have hpos : (0 : ℚ) < |q| := lt_of_lt_of_le (by positivity) h1
  have hle : e ≤ Int.log 2 |q| := by
    rw [← Int.zpow_le_iff_le_log (by norm_num) hpos]
    exact_mod_cast h1
  have hlt : Int.log 2 |q| < e + 1 := by
    rw [← Int.lt_zpow_iff_log_lt (by norm_num) hpos]
    exact_mod_cast h2
  omega

lemma roundBinary_eval (p : Nat) (emin : Int) (q : ℚ) (e k : Int)
    (h1 : (2 : ℚ) ^ e ≤ |q|) (h2 : |q| < (2 : ℚ) ^ (e + 1))
    (hk : max e emin - (p : Int) + 1 = k) :
    roundBinary p emin q = (roundHalfEven (q / (2 : ℚ) ^ k) : ℚ) * (2 : ℚ) ^ k := by
  unfold roundBinary ulpBinary
  rw [log_two_eq h1 h2, hk]

lemma roundBinary_zero (p : Nat) (emin : Int) : roundBinary p emin 0 = 0 := by
  unfold roundBinary
  rw [zero_div]
  have : roundHalfEven 0 = 0 := by
    have := roundHalfEven_intCast 0
    simpa using this
  rw [this]
  simp

lemma roundBinary_sub_le (p : Nat) (emin : Int) (q : ℚ) (hq : (2 : ℚ) ^ emin ≤ |q|) :
    |roundBinary p emin q - q| ≤ (2 : ℚ) ^ (-(p : Int)) * |q| := by
  have hpos : (0 : ℚ) < |q| := lt_of_lt_of_le (by positivity) hq
  have hemin : emin ≤ Int.log 2 |q| := by
    rw [← Int.zpow_le_iff_le_log (by norm_num) hpos]
    exact_mod_cast hq
  have hlog : ((2 : ℕ) : ℚ) ^ Int.log 2 |q| ≤ |q| := Int.zpow_log_le_self (by norm_num) hpos
  have hlog' : (2 : ℚ) ^ Int.log 2 |q| ≤ |q| := by exact_mod_cast hlog
  unfold roundBinary ulpBinary
  rw [max_eq_left hemin]
  generalize Int.log 2 |q| = e at hlog'
  have hu : (0 : ℚ) < (2 : ℚ) ^ (e - (p : Int) + 1) := by positivity
  have h := roundHalfEven_abs_sub_le (q / (2 : ℚ) ^ (e - (p : Int) + 1))
  have e1 : (roundHalfEven (q / (2 : ℚ) ^ (e - (p : Int) + 1)) : ℚ) * (2 : ℚ) ^ (e - (p : Int) + 1)
      - q
      = ((roundHalfEven (q / (2 : ℚ) ^ (e - (p : Int) + 1)) : ℚ)
          - q / (2 : ℚ) ^ (e - (p : Int) + 1)) * (2 : ℚ) ^ (e - (p : Int) + 1) := by
    field_simp
  rw [e1, abs_mul, abs_of_pos hu]
  have e2 : (2 : ℚ) ^ (e - (p : Int) + 1) = 2 * ((2 : ℚ) ^ (-(p : Int)) * (2 : ℚ) ^ e) := by
    rw [← zpow_add₀ (by norm_num : (2 : ℚ) ≠ 0), show e - (p : Int) + 1 = (-(p : Int) + e) + 1 by ring,
      zpow_add_one₀ (by norm_num : (2 : ℚ) ≠ 0)]
    ring
  have hp : (0 : ℚ) < (2 : ℚ) ^ (-(p : Int)) := by positivity
  calc |(roundHalfEven (q / (2 : ℚ) ^ (e - (p : Int) + 1)) : ℚ)
          - q / (2 : ℚ) ^ (e - (p : Int) + 1)| * (2 : ℚ) ^ (e - (p : Int) + 1)
      ≤ 1 / 2 * (2 : ℚ) ^ (e - (p : Int) + 1) := mul_le_mul_of_nonneg_right h hu.le
    _ = (2 : ℚ) ^ (-(p : Int)) * (2 : ℚ) ^ e := by rw [e2]; ring
    _ ≤ (2 : ℚ) ^ (-(p : Int)) * |q| := mul_le_mul_of_nonneg_left hlog' hp.le

lemma roundBinary_eval_exact (p : Nat) (emin : Int) (q : ℚ) (e k n : Int)
    (h1 : (2 : ℚ) ^ e ≤ |q|) (h2 : |q| < (2 : ℚ) ^ (e + 1))
    (hk : max e emin - (p : Int) + 1 = k) (hn : q / (2 : ℚ) ^ k = (n : ℚ)) :
    roundBinary p emin q = q := by
  rw [roundBinary_eval p emin q e k h1 h2 hk, hn, roundHalfEven_intCast, ← hn]
  have hu : (2 : ℚ) ^ k ≠ 0 := by positivity
  field_simp

lemma truncToInt_of_floor {c : ℚ} {n : Int} (hn : 0 ≤ n) (h0 : (n : ℚ) ≤ c)
    (h1 : c < (n : ℚ) + 1) : truncToInt c = n := by
  have hc : 0 ≤ c := le_trans (by exact_mod_cast hn) h0
  rw [truncToInt_of_nonneg hc, Int.floor_eq_iff]
  exact ⟨h0, h1⟩

lemma roundFloat_tenth : roundFloat (1 / 10) = 13421773 / 134217728 := by
  unfold roundFloat
  rw [roundBinary_eval 24 (-126) (1 / 10) (-4) (-27) (by norm_num [abs_of_pos])
    (by norm_num [abs_of_pos]) (by decide),
    roundHalfEven_of_gt_half (n := 13421772) (by norm_num) (by norm_num)]
  norm_num

lemma roundFloat_twentieth : roundFloat (1 / 20) = 13421773 / 268435456 := by
  unfold roundFloat
  rw [roundBinary_eval 24 (-126) (1 / 20) (-5) (-28) (by norm_num [abs_of_pos])
    (by norm_num [abs_of_pos]) (by decide),
    roundHalfEven_of_gt_half (n := 13421772) (by norm_num) (by norm_num)]
  norm_num

namespace GrainVoice

variable {σ α : Type}

lemma msToSamples_hundred (v : GrainVoice σ α) (h : v.sampleRate = 1000) :
    v.msToSamples 100 = 100 := by
  have h1 : roundFloat 100 = 100 := by
    unfold roundFloat
    exact roundBinary_eval_exact 24 (-126) 100 6 (-17) 13107200 (by norm_num [abs_of_pos])
      (by norm_num [abs_of_pos]) (by decide) (by norm_num)
  have h2 : roundFloat ((100 : ℚ) / 1000) = 13421773 / 134217728 := by
    rw [show (100 : ℚ) / 1000 = 1 / 10 by norm_num]
    exact roundFloat_tenth
  have h3 : roundDouble ((13421773 / 134217728 : ℚ) * 1000) = 13421773 / 134217728 * 1000 := by
    unfold roundDouble
    exact roundBinary_eval_exact 53 (-1022) _ 6 (-46) (13421773000 * 524288)
      (by norm_num [abs_of_pos]) (by norm_num [abs_of_pos]) (by decide) (by norm_num)
  unfold msToSamples
  rw [h, h1, h2, h3]
  exact truncToInt_of_floor (by decide) (by norm_num) (by norm_num)

lemma msToSamples_fifty (v : GrainVoice σ α) (h : v.sampleRate = 1000) :
    v.msToSamples 50 = 50 := by
  have h1 : roundFloat 50 = 50 := by
    unfold roundFloat
    exact roundBinary_eval_exact 24 (-126) 50 5 (-18) 13107200 (by norm_num [abs_of_pos])
      (by norm_num [abs_of_pos]) (by decide) (by norm_num)
  have h2 : roundFloat ((50 : ℚ) / 1000) = 13421773 / 268435456 := by
    rw [show (50 : ℚ) / 1000 = 1 / 20 by norm_num]
    exact roundFloat_twentieth
  have h3 : roundDouble ((13421773 / 268435456 : ℚ) * 1000) = 13421773 / 268435456 * 1000 := by
    unfold roundDouble
    exact roundBinary_eval_exact 53 (-1022) _ 5 (-47) (13421773000 * 524288)
      (by norm_num [abs_of_pos]) (by norm_num [abs_of_pos]) (by decide) (by norm_num)
  unfold msToSamples
  rw [h, h1, h2, h3]
  exact truncToInt_of_floor (by decide) (by norm_num) (by norm_num)

end GrainVoice

lemma roundBinary_pos_bounds (p : Nat) (emin : Int) (q : ℚ) (hq : (2 : ℚ) ^ emin ≤ q) :
    q * (1 - (2 : ℚ) ^ (-(p : Int))) ≤ roundBinary p emin q ∧
    roundBinary p emin q ≤ q * (1 + (2 : ℚ) ^ (-(p : Int))) := by
  have hpos : (0 : ℚ) < q := lt_of_lt_of_le (by positivity) hq
  have h := roundBinary_sub_le p emin q (by rw [abs_of_pos hpos]; exact hq)
  rw [abs_of_pos hpos, abs_le] at h
  constructor <;> linarith [h.1, h.2]

lemma roundFloat_bounds (q : ℚ) (hq : 1 / 2 ^ 126 ≤ q) :
    q * (1 - 1 / 16777216) ≤ roundFloat q ∧ roundFloat q ≤ q * (1 + 1 / 16777216) := by
  have h := roundBinary_pos_bounds 24 (-126) q (by
    have : (2 : ℚ) ^ (-126 : Int) = 1 / 2 ^ 126 := by
      rw [zpow_neg, one_div]
      norm_cast
    rw [this]
    exact hq)
  have e : (2 : ℚ) ^ (-((24 : Nat) : Int)) = 1 / 16777216 := by
    rw [zpow_neg, one_div]
    norm_num
  rw [e] at h
  exact h

lemma roundDouble_bounds (q : ℚ) (hq : 1 / 2 ^ 1022 ≤ q) :
    q * (1 - 1 / 9007199254740992) ≤ roundDouble q ∧
    roundDouble q ≤ q * (1 + 1 / 9007199254740992) := by
  have h := roundBinary_pos_bounds 53 (-1022) q (by
    have : (2 : ℚ) ^ (-1022 : Int) = 1 / 2 ^ 1022 := by
      rw [zpow_neg, one_div]
      norm_cast
    rw [this]
    exact hq)
  have e : (2 : ℚ) ^ (-((53 : Nat) : Int)) = 1 / 9007199254740992 := by
    rw [zpow_neg, one_div]
    norm_num
  rw [e] at h
  exact h

lemma tiny_float_le : (1 : ℚ) / 2 ^ 126 ≤ 1 / 2 ^ 20 :=
  one_div_le_one_div_of_le (by positivity) (pow_le_pow_right₀ (by norm_num) (by norm_num))

lemma tiny_double_le : (1 : ℚ) / 2 ^ 1022 ≤ 1 / 2 ^ 20 :=
  one_div_le_one_div_of_le (by positivity) (pow_le_pow_right₀ (by norm_num) (by norm_num))

lemma floorMod_intCast (a : Int) {n : Int} (hn : 0 < n) :
    floorMod (a : ℚ) (n : ℚ) = ((a % n : Int) : ℚ) := by
  have hnq : (0 : ℚ) < (n : ℚ) := by exact_mod_cast hn
  have h1 : (a : ℚ) = ((a % n : Int) : ℚ) + ((a / n : Int) : ℚ) * (n : ℚ) := by
    have := Int.emod_add_ediv a n
    have h2 : ((a % n + n * (a / n) : Int) : ℚ) = (a : ℚ) := by rw [this]
    push_cast at h2
    linarith
  rw [h1, floorMod_add_int_mul _ hnq]
  apply floorMod_of_lt
  · exact_mod_cast Int.emod_nonneg a hn.ne'
  · exact_mod_cast Int.emod_lt_of_pos a hn
  
namespace DelayLine

lemma lowerBound_intCast (d : DelayLine) (m : Int) (h : d.readHeadPosition = (m : ℚ)) :
    d.lowerBound = m := by
  unfold lowerBound
  rw [h]
  exact Int.floor_intCast m

lemma linearInterpolation_intCast (d : DelayLine) (m : Int) (h : d.readHeadPosition = (m : ℚ)) :
    d.linearInterpolation = d.delayBuffer m := by
  unfold linearInterpolation
  rw [lowerBound_intCast d m h, h]
  simp

lemma process_readHead (d : DelayLine) (x : ℚ) (hN : 0 < d.maxDelaySize)
    (hr : 0 ≤ d.readHeadPosition) :
    (d.process x).2.readHeadPosition = floorMod (d.readHeadPosition + 1) d.maxDelaySize := by
  have hnq : (0 : ℚ) < (d.maxDelaySize : ℚ) := by exact_mod_cast hN
  show fmod _ _ = _
  exact fmod_eq_floorMod (by linarith) hnq

lemma process_writeHead (d : DelayLine) (x : ℚ) (hN : 0 ≤ d.maxDelaySize)
    (hw : 0 ≤ d.writeHeadPosition) :
    (d.process x).2.writeHeadPosition = (d.writeHeadPosition + 1) % d.maxDelaySize := by
  show Int.tmod _ _ = _
  exact Int.tmod_eq_emod (by omega) hN

end DelayLine

/-! ## Claims on the delay line -/

/-- C1: for a capacity `N > 0`, a write head `w` in `[0,N)` and a read head `r` with
`0 ≤ r < N-1`, `process x` reads two cells inside the buffer, returns
`y = (1-frac)*buf[⌊r⌋] + frac*buf[⌊r⌋+1]` with `frac = r - ⌊r⌋` taken on the buffer before
the call, stores `x + g*y` at cell `w`, leaves every other cell unchanged, and moves the
write head to `(w+1) mod N` and the read head to `(r+1) mod N` (which is `r+1`). -/
theorem DelayLine.process_postcondition (d : DelayLine) (x : ℚ)
    (hw : 0 ≤ d.writeHeadPosition ∧ d.writeHeadPosition < d.maxDelaySize)
    (hr : 0 ≤ d.readHeadPosition ∧ d.readHeadPosition < (d.maxDelaySize : ℚ) - 1) :
    d.inBounds d.lowerBound ∧ d.inBounds d.higherBound ∧
    d.lowerBound = ⌊d.readHeadPosition⌋ ∧ d.higherBound = ⌊d.readHeadPosition⌋ + 1 ∧
    (d.process x).1 =
      (1 - (d.readHeadPosition - (⌊d.readHeadPosition⌋ : ℚ))) * d.delayBuffer ⌊d.readHeadPosition⌋
        + (d.readHeadPosition - (⌊d.readHeadPosition⌋ : ℚ))
            * d.delayBuffer (⌊d.readHeadPosition⌋ + 1) ∧
    (d.process x).2.delayBuffer d.writeHeadPosition = x + d.feedbackAmt * (d.process x).1 ∧
    (∀ i, i ≠ d.writeHeadPosition → (d.process x).2.delayBuffer i = d.delayBuffer i) ∧
    (d.process x).2.writeHeadPosition = (d.writeHeadPosition + 1) % d.maxDelaySize ∧
    (d.process x).2.readHeadPosition = floorMod (d.readHeadPosition + 1) d.maxDelaySize ∧
    (d.process x).2.readHeadPosition = d.readHeadPosition + 1 ∧
    (d.process x).2.maxDelaySize = d.maxDelaySize ∧
    (d.process x).2.feedbackAmt = d.feedbackAmt := by
  have hN : 0 < d.maxDelaySize := by omega
  have hnq : (0 : ℚ) < (d.maxDelaySize : ℚ) := by exact_mod_cast hN
  have hlo : 0 ≤ ⌊d.readHeadPosition⌋ := Int.floor_nonneg.2 hr.1
  have hhi : ⌊d.readHeadPosition⌋ + 1 < d.maxDelaySize := by
    have h1 : (⌊d.readHeadPosition⌋ : ℚ) ≤ d.readHeadPosition := Int.floor_le _
    have h2 : ((⌊d.readHeadPosition⌋ + 1 : Int) : ℚ) < (d.maxDelaySize : ℚ) := by
      push_cast; linarith [hr.2]
    exact_mod_cast h2
  have hmod := DelayLine.process_readHead d x hN hr.1
  refine ⟨⟨hlo, by show ⌊d.readHeadPosition⌋ < _; omega⟩, ?_, rfl, d.higherBound_eq, ?_, ?_,
    ?_, DelayLine.process_writeHead d x hN.le hw.1, hmod, ?_, rfl, rfl⟩
  · rw [d.higherBound_eq]
    exact ⟨by show 0 ≤ ⌊d.readHeadPosition⌋ + 1; omega, hhi⟩
  · show d.linearInterpolation = _
    unfold DelayLine.linearInterpolation
    rw [d.higherBound_eq]
    rfl
  · show DelayLine.writeCell _ _ _ _ = _
    unfold DelayLine.writeCell
    rw [if_pos rfl]
    show x + d.linearInterpolation * d.feedbackAmt = x + d.feedbackAmt * d.linearInterpolation
    ring
  · intro i hi
    show DelayLine.writeCell _ _ _ _ = _
    unfold DelayLine.writeCell
    rw [if_neg hi]
  · rw [hmod]
    exact floorMod_of_lt (by linarith [hr.1]) (by linarith [hr.2])

/-- Witness of C1: capacity 4, write head 2, read head 3/2, feedback 1/2, cell `i` holding
`i`, input 5: the call returns 3/2, stores 23/4 at cell 2 and moves the heads to 3 and 5/2. -/
theorem DelayLine.process_postcondition_witness :
    ((0 : Int) ≤ 2 ∧ (2 : Int) < 4) ∧ ((0 : ℚ) ≤ 3 / 2 ∧ (3 / 2 : ℚ) < ((4 : Int) : ℚ) - 1) ∧
    ((⟨fun i => (i : ℚ), 4, 3 / 2, 2, 0, 1 / 2⟩ : DelayLine).process 5).1 = 3 / 2 ∧
    ((⟨fun i => (i : ℚ), 4, 3 / 2, 2, 0, 1 / 2⟩ : DelayLine).process 5).2.delayBuffer 2 = 23 / 4 ∧
    ((⟨fun i => (i : ℚ), 4, 3 / 2, 2, 0, 1 / 2⟩ : DelayLine).process 5).2.writeHeadPosition = 3 ∧
    ((⟨fun i => (i : ℚ), 4, 3 / 2, 2, 0, 1 / 2⟩ : DelayLine).process 5).2.readHeadPosition
      = 5 / 2 := by
  have h := DelayLine.process_postcondition ⟨fun i => (i : ℚ), 4, 3 / 2, 2, 0, 1 / 2⟩ 5
    (by decide) (by norm_num)
  have hf : ⌊(3 / 2 : ℚ)⌋ = 1 := by norm_num [Int.floor_eq_iff]
  have hout : ((⟨fun i => (i : ℚ), 4, 3 / 2, 2, 0, 1 / 2⟩ : DelayLine).process 5).1 = 3 / 2 := by
    rw [h.2.2.2.2.1]
    simp only [hf]
    norm_num
  refine ⟨by decide, by norm_num, hout, ?_, ?_, ?_⟩
  · rw [h.2.2.2.2.2.1, hout]
    norm_num
  · rw [h.2.2.2.2.2.2.2.1]
    decide
  · rw [h.2.2.2.2.2.2.2.2.2.1]
    norm_num

/-- C2, evaluated on the code: with capacity 4 and the read head at the integer position 3
(the last cell), `linearInterpolation` uses the upper index 4, which is outside `[0,4)`;
it does not wrap to index 0, so the value returned depends on memory outside the buffer. -/
theorem DelayLine.linearInterpolation_reads_past_end :
    (⟨fun i => if i = 4 then 7 else 0, 4, 3, 3, 0, 0⟩ : DelayLine).lowerBound = 3 ∧
    (⟨fun i => if i = 4 then 7 else 0, 4, 3, 3, 0, 0⟩ : DelayLine).higherBound = 4 ∧
    ¬ (⟨fun i => if i = 4 then 7 else 0, 4, 3, 3, 0, 0⟩ : DelayLine).inBounds
        (⟨fun i => if i = 4 then 7 else 0, 4, 3, 3, 0, 0⟩ : DelayLine).higherBound ∧
    (⟨fun i => if i = 4 then 7 else 0, 4, 7 / 2, 3, 0, 0⟩ : DelayLine).higherBound = 4 ∧
    (⟨fun i => if i = 4 then 7 else 0, 4, 7 / 2, 3, 0, 0⟩ : DelayLine).linearInterpolation
      = 7 / 2 := by
  have hl3 : (⟨fun i => if i = 4 then 7 else 0, 4, 3, 3, 0, 0⟩ : DelayLine).lowerBound = 3 :=
    DelayLine.lowerBound_intCast _ 3 (by norm_num)
  have hh3 : (⟨fun i => if i = 4 then 7 else 0, 4, 3, 3, 0, 0⟩ : DelayLine).higherBound = 4 := by
    rw [DelayLine.higherBound_eq, hl3]; rfl
  have hl7 : (⟨fun i => if i = 4 then 7 else 0, 4, 7 / 2, 3, 0, 0⟩ : DelayLine).lowerBound
      = 3 := by
    show ⌊(7 / 2 : ℚ)⌋ = 3
    norm_num [Int.floor_eq_iff]
  have hh7 : (⟨fun i => if i = 4 then 7 else 0, 4, 7 / 2, 3, 0, 0⟩ : DelayLine).higherBound
      = 4 := by
    rw [DelayLine.higherBound_eq, hl7]; rfl
  refine ⟨hl3, hh3, ?_, hh7, ?_⟩
  · rw [hh3]
    unfold DelayLine.inBounds
    decide
  · unfold DelayLine.linearInterpolation
    rw [hh7, hl7]
    norm_num

/-- C3: for a capacity `N > 0`, if the write head is in `[0,N)` and the read head is in
`[0,N)` before `process`, then after it the write head is in `[0,N)`, the read head is in
`[0,N)`, and the distance `(writeHead - readHead) mod N` is the same as before. -/
theorem DelayLine.process_head_invariant (d : DelayLine) (x : ℚ)
    (hw : 0 ≤ d.writeHeadPosition ∧ d.writeHeadPosition < d.maxDelaySize)
    (hr : 0 ≤ d.readHeadPosition ∧ d.readHeadPosition < (d.maxDelaySize : ℚ)) :
    (0 ≤ (d.process x).2.writeHeadPosition ∧
      (d.process x).2.writeHeadPosition < (d.process x).2.maxDelaySize) ∧
    (0 ≤ (d.process x).2.readHeadPosition ∧
      (d.process x).2.readHeadPosition < ((d.process x).2.maxDelaySize : ℚ)) ∧
    floorMod (((d.process x).2.writeHeadPosition : ℚ) - (d.process x).2.readHeadPosition)
        ((d.process x).2.maxDelaySize : ℚ)
      = floorMod ((d.writeHeadPosition : ℚ) - d.readHeadPosition) (d.maxDelaySize : ℚ) := by
  have hN : 0 < d.maxDelaySize := by omega
  have hnq : (0 : ℚ) < (d.maxDelaySize : ℚ) := by exact_mod_cast hN
  have hW := DelayLine.process_writeHead d x hN.le hw.1
  have hR := DelayLine.process_readHead d x hN hr.1
  have hM : (d.process x).2.maxDelaySize = d.maxDelaySize := rfl
  rw [hW, hR, hM]
  refine ⟨⟨Int.emod_nonneg _ hN.ne', Int.emod_lt_of_pos _ hN⟩,
    ⟨floorMod_nonneg _ hnq, floorMod_lt _ hnq⟩, ?_⟩
  have e1 : (((d.writeHeadPosition + 1) % d.maxDelaySize : Int) : ℚ)
      = (d.writeHeadPosition : ℚ) + 1
        - (((d.writeHeadPosition + 1) / d.maxDelaySize : Int) : ℚ) * (d.maxDelaySize : ℚ) := by
    have h := Int.emod_add_ediv (d.writeHeadPosition + 1) d.maxDelaySize
    have h2 : (((d.writeHeadPosition + 1) % d.maxDelaySize
        + d.maxDelaySize * ((d.writeHeadPosition + 1) / d.maxDelaySize) : Int) : ℚ)
        = ((d.writeHeadPosition + 1 : Int) : ℚ) := by rw [h]
    push_cast at h2
    linarith
  have e2 : ((((d.writeHeadPosition + 1) % d.maxDelaySize : Int) : ℚ)
        - floorMod (d.readHeadPosition + 1) (d.maxDelaySize : ℚ))
      = ((d.writeHeadPosition : ℚ) - d.readHeadPosition)
        + ((⌊(d.readHeadPosition + 1) / (d.maxDelaySize : ℚ)⌋
            - (d.writeHeadPosition + 1) / d.maxDelaySize : Int) : ℚ) * (d.maxDelaySize : ℚ) := by
    rw [e1]
    unfold floorMod
    push_cast
    ring
  rw [e2, floorMod_add_int_mul _ hnq]

/-- Witness of C3: capacity 4, write head 3, read head 7/2 (both heads wrap). -/
theorem DelayLine.process_head_invariant_witness :
    ((0 : Int) ≤ 3 ∧ (3 : Int) < 4) ∧ ((0 : ℚ) ≤ 7 / 2 ∧ (7 / 2 : ℚ) < ((4 : Int) : ℚ)) ∧
    ((⟨fun _ => 0, 4, 7 / 2, 3, 0, 1 / 2⟩ : DelayLine).process 1).2.writeHeadPosition < 4 ∧
    ((⟨fun _ => 0, 4, 7 / 2, 3, 0, 1 / 2⟩ : DelayLine).process 1).2.readHeadPosition
      < ((4 : Int) : ℚ) :=
  have h := DelayLine.process_head_invariant ⟨fun _ => 0, 4, 7 / 2, 3, 0, 1 / 2⟩ 1
    (by decide) (by norm_num)
  ⟨by decide, by norm_num, h.1.2, h.2.1.2⟩

/-- C4, evaluated on the code: on a line of capacity 4 whose write head is 2,
`setDelayTime 2` puts the read head at 4, which is outside `[0,4)`; the same happens on a
fresh line (write head 0) with `setDelayTime 0`. -/
theorem DelayLine.setDelayTime_read_head_at_capacity :
    ((⟨fun _ => 0, 4, 0, 2, 0, 0⟩ : DelayLine).setDelayTime 2).readHeadPosition = 4 ∧
    ((⟨fun _ => 0, 4, 0, 0, 0, 0⟩ : DelayLine).setDelayTime 0).readHeadPosition = 4 ∧
    ¬ (((⟨fun _ => 0, 4, 0, 0, 0, 0⟩ : DelayLine).setDelayTime 0).readHeadPosition
        < (((⟨fun _ => 0, 4, 0, 0, 0, 0⟩ : DelayLine).setDelayTime 0).maxDelaySize : ℚ)) := by
  refine ⟨?_, ?_, ?_⟩ <;> norm_num [DelayLine.setDelayTime]

/-! ## Impulse response of the feedback delay -/

lemma echoTrain_shift (g : ℚ) (del : Nat) (hdel : 0 < del) (i : Nat) :
    unitImpulse i + echoTrain g del i * g = echoTrain g del (i + del) := by
  unfold unitImpulse echoTrain
  by_cases hi : i = 0
  · subst hi
    simp [hdel, Nat.div_self hdel]
  · have hipos : 0 < i := Nat.pos_of_ne_zero hi
    have hdvd : del ∣ i + del ↔ del ∣ i := by
      constructor
      · intro h; exact (Nat.dvd_add_left (dvd_refl del)).1 h
      · intro h; exact Dvd.dvd.add h (dvd_refl del)
    by_cases hd : del ∣ i
    · have h1 : 0 < i / del := Nat.div_pos (Nat.le_of_dvd hipos hd) hdel
      have h2 : (i + del) / del = i / del + 1 := Nat.add_div_right i hdel
      simp only [hi, if_false, hipos, hd, and_self, if_true, hdvd, h2, Nat.add_sub_cancel,
        Nat.add_pos_left hipos del, zero_add]
      obtain ⟨m, hm⟩ : ∃ m, i / del = m + 1 := ⟨i / del - 1, by omega⟩
      rw [hm, Nat.add_sub_cancel, pow_succ]
    · simp [hi, hd, hdvd]

lemma echoTrain_of_lt (g : ℚ) (del : Nat) (k : Nat) (h : k < del) : echoTrain g del k = 0 := by
  unfold echoTrain
  by_cases hk : k = 0
  · simp [hk]
  · have : ¬ del ∣ k := fun hd => by
      have := Nat.le_of_dvd (Nat.pos_of_ne_zero hk) hd
      omega
    simp [this]

lemma echoTrain_abs_le (g : ℚ) (hg : 0 < g ∧ g ≤ 1) (del k : Nat) :
    |echoTrain g del k| ≤ 1 := by
  unfold echoTrain
  split
  · rw [abs_of_nonneg (pow_nonneg hg.1.le _)]
    exact pow_le_one₀ hg.1.le hg.2
  · simp

namespace DelayLine

lemma ImpulseInv.output_eq {N : Int} {g : ℚ} {del j : Nat} {L : DelayLine}
    (hdel : 0 < del ∧ (del : Int) < N) (h : ImpulseInv N g del j L) (x : ℚ) :
    (L.process x).1 = echoTrain g del j := by
  have hN : 0 < N := by omega
  show L.linearInterpolation = _
  rw [linearInterpolation_intCast L _ h.rd]
  by_cases hj : j < del
  · rw [echoTrain_of_lt g del j hj]
    have hc0 : 0 ≤ N - del + j := by omega
    have hc1 : N - del + j < N := by omega
    rw [Int.emod_eq_of_lt hc0 hc1]
    exact h.untouched _ (by omega) hc1
  · push_neg at hj
    obtain ⟨i, rfl⟩ : ∃ i, j = i + del := ⟨j - del, by omega⟩
    have : (N - (del : Int) + ((i + del : Nat) : Int)) % N = (i : Int) % N := by
      have : N - (del : Int) + ((i + del : Nat) : Int) = (i : Int) + N := by push_cast; ring
      rw [this, Int.add_emod_self]
    rw [this]
    exact h.recent i (by omega) (by push_cast; omega)

lemma ImpulseInv.step_next {N : Int} {g : ℚ} {del j : Nat} {L : DelayLine}
    (hdel : 0 < del ∧ (del : Int) < N) (h : ImpulseInv N g del j L) :
    ImpulseInv N g del (j + 1) (L.process (unitImpulse j)).2 := by
  have hN : 0 < N := by omega
  have hout := h.output_eq hdel (unitImpulse j)
  have hwr0 : 0 ≤ L.writeHeadPosition := by rw [h.wr]; exact Int.emod_nonneg _ hN.ne'
  have hrd0 : 0 ≤ L.readHeadPosition := by
    rw [h.rd]; exact_mod_cast Int.emod_nonneg _ hN.ne'
  have hbuf : ∀ c, (L.process (unitImpulse j)).2.delayBuffer c
      = if c = (j : Int) % N then echoTrain g del (j + del) else L.delayBuffer c := by
    intro c
    show writeCell _ _ _ _ = _
    unfold writeCell
    rw [h.wr]
    split
    · show unitImpulse j + (L.process (unitImpulse j)).1 * L.feedbackAmt = _
      rw [hout, h.gain]
      exact echoTrain_shift g del hdel.1 j
    · rfl
  refine ⟨h.size, h.gain, ?_, ?_, ?_, ?_⟩
  · rw [process_writeHead L _ (by rw [h.size]; exact hN.le) hwr0, h.wr, h.size]
    push_cast
    rw [Int.emod_add_cancel_right]
    exact Int.emod_emod_of_dvd _ (dvd_refl N)
  · rw [process_readHead L _ (by rw [h.size]; exact hN) hrd0, h.rd, h.size]
    have : (((N - (del : Int) + (j : Int)) % N : Int) : ℚ) + 1
        = ((((N - (del : Int) + (j : Int)) % N + 1 : Int)) : ℚ) := by push_cast; ring
    rw [this, floorMod_intCast _ hN]
    congr 1
    have : N - (del : Int) + ((j + 1 : Nat) : Int) = (N - (del : Int) + (j : Int)) + 1 := by
      push_cast; ring
    rw [this, Int.emod_add_cancel_right]
    exact Int.emod_emod_of_dvd _ (dvd_refl N)
  · intro i hi hle
    rw [hbuf]
    by_cases hij : i = j
    · subst hij
      simp
    · have hne : (i : Int) % N ≠ (j : Int) % N := by
        intro heq
        have hd : N ∣ (j : Int) - i :=
          Int.dvd_of_emod_eq_zero (Int.emod_eq_emod_iff_emod_sub_eq_zero.1 heq.symm)
        have hlt : (j : Int) - i < N := by push_cast at hle; omega
        have hpos : 0 < (j : Int) - i := by omega
        have := Int.le_of_dvd hpos hd
        omega
      rw [if_neg hne]
      exact h.recent i (by omega) (by push_cast at hle; omega)
  · intro c hc hcN
    rw [hbuf]
    have hjN : (j : Int) % N = j := Int.emod_eq_of_lt (by omega) (by push_cast at hc; omega)
    have hne : c ≠ (j : Int) % N := by rw [hjN]; push_cast at hc; omega
    rw [if_neg hne]
    exact h.untouched c (by push_cast at hc; omega) hcN

lemma impulseInv_lineAfter (d0 : DelayLine) (g : ℚ) (del : Nat)
    (hw0 : d0.writeHeadPosition = 0)
    (hzero : ∀ i, d0.inBounds i → d0.delayBuffer i = 0)
    (hg : 0 < g ∧ g ≤ 1) (hdel : 0 < del ∧ (del : Int) < d0.maxDelaySize) (j : Nat) :
    ImpulseInv d0.maxDelaySize g del j
      (lineAfter ((d0.setFeedback g).setDelayTime del) unitImpulse j) := by
  induction j with
  | zero =>
    have hnot : ¬ ((0 : ℚ) > (del : ℚ)) := by
      have : (0 : ℚ) ≤ (del : ℚ) := Nat.cast_nonneg del
      linarith
    have hN : 0 < d0.maxDelaySize := by omega
    refine ⟨?_, ?_, ?_, ?_, ?_, ?_⟩
    · simp [lineAfter, setDelayTime, setFeedback, hg, hw0, hnot]
    · simp [lineAfter, setDelayTime, setFeedback, hg, hw0, hnot]
    · simp [lineAfter, setDelayTime, setFeedback, hg, hw0, hnot]
    · have hm : (d0.maxDelaySize - (del : Int) + ((0 : Nat) : Int)) % d0.maxDelaySize
          = d0.maxDelaySize - del := by
        have h0 : d0.maxDelaySize - (del : Int) + ((0 : Nat) : Int)
            = d0.maxDelaySize - (del : Int) := by simp
        rw [h0]
        exact Int.emod_eq_of_lt (by omega) (by omega)
      rw [hm]
      simp [lineAfter, setDelayTime, setFeedback, hg, hw0, hnot]
    · intro i hi
      omega
    · intro c hc hcN
      have : d0.delayBuffer c = 0 := hzero c ⟨by push_cast at hc; omega, hcN⟩
      simpa [lineAfter, setDelayTime, setFeedback, hg, hw0, hnot] using this
  | succ j ih =>
    exact ih.step_next hdel

end DelayLine

namespace DelayLine

lemma impulse_run_read_head (d0 : DelayLine) (g : ℚ) (del : Nat)
    (hw0 : d0.writeHeadPosition = 0)
    (hzero : ∀ i, d0.inBounds i → d0.delayBuffer i = 0)
    (hg : 0 < g ∧ g ≤ 1) (hdel : 0 < del ∧ (del : Int) < d0.maxDelaySize) :
    (lineAfter ((d0.setFeedback g).setDelayTime del) unitImpulse (del - 1)).readHeadPosition
      = ((d0.maxDelaySize - 1 : Int) : ℚ) ∧
    (lineAfter ((d0.setFeedback g).setDelayTime del) unitImpulse (del - 1)).maxDelaySize
      = d0.maxDelaySize ∧
    (lineAfter ((d0.setFeedback g).setDelayTime del) unitImpulse (del - 1)).higherBound
      = d0.maxDelaySize ∧
    ¬ (lineAfter ((d0.setFeedback g).setDelayTime del) unitImpulse (del - 1)).inBounds
      (lineAfter ((d0.setFeedback g).setDelayTime del) unitImpulse (del - 1)).higherBound := by
  have h := impulseInv_lineAfter d0 g del hw0 hzero hg hdel (del - 1)
  have hrd : (lineAfter ((d0.setFeedback g).setDelayTime del) unitImpulse
      (del - 1)).readHeadPosition = ((d0.maxDelaySize - 1 : Int) : ℚ) := by
    rw [h.rd]
    congr 1
    have e : d0.maxDelaySize - (del : Int) + ((del - 1 : Nat) : Int) = d0.maxDelaySize - 1 := by
      have : ((del - 1 : Nat) : Int) = (del : Int) - 1 := by
        rw [Nat.cast_sub (by omega)]
        simp
      rw [this]
      ring
    rw [e]
    exact Int.emod_eq_of_lt (by omega) (by omega)
  have hhigh : (lineAfter ((d0.setFeedback g).setDelayTime del) unitImpulse
      (del - 1)).higherBound = d0.maxDelaySize := by
    rw [higherBound_eq, lowerBound_intCast _ _ hrd]
    ring
  refine ⟨hrd, h.size, hhigh, ?_⟩
  rw [hhigh]
  unfold inBounds
  rw [h.size]
  omega

end DelayLine

/-- C5, evaluated on the code: on a fresh line of capacity 4 with gain 1/2 and delay 2 fed
with the unit impulse, the second call of `process` (call `d - 1` from 0) finds the read
head at 3 = N - 1, so `linearInterpolation` reads the cells 3 and 4; the cell 4 is past
the 4 cells of the vector, and the value the call returns is
`(1 - 0) * cell 3 + 0 * cell 4`. -/
theorem DelayLine.impulse_run_reads_past_end :
    (DelayLine.lineAfter
      (((⟨fun _ => 0, 4, 0, 0, 0, 0⟩ : DelayLine).setFeedback (1 / 2)).setDelayTime (2 : Nat))
      unitImpulse 1).readHeadPosition = 3 ∧
    (DelayLine.lineAfter
      (((⟨fun _ => 0, 4, 0, 0, 0, 0⟩ : DelayLine).setFeedback (1 / 2)).setDelayTime (2 : Nat))
      unitImpulse 1).lowerBound = 3 ∧
    (DelayLine.lineAfter
      (((⟨fun _ => 0, 4, 0, 0, 0, 0⟩ : DelayLine).setFeedback (1 / 2)).setDelayTime (2 : Nat))
      unitImpulse 1).higherBound = 4 ∧
    ¬ (DelayLine.lineAfter
      (((⟨fun _ => 0, 4, 0, 0, 0, 0⟩ : DelayLine).setFeedback (1 / 2)).setDelayTime (2 : Nat))
      unitImpulse 1).inBounds 4 ∧
    DelayLine.outputAt
      (((⟨fun _ => 0, 4, 0, 0, 0, 0⟩ : DelayLine).setFeedback (1 / 2)).setDelayTime (2 : Nat))
      unitImpulse 1
      = (1 - 0) * (DelayLine.lineAfter
          (((⟨fun _ => 0, 4, 0, 0, 0, 0⟩ : DelayLine).setFeedback (1 / 2)).setDelayTime (2 : Nat))
          unitImpulse 1).delayBuffer 3
        + 0 * (DelayLine.lineAfter
          (((⟨fun _ => 0, 4, 0, 0, 0, 0⟩ : DelayLine).setFeedback (1 / 2)).setDelayTime (2 : Nat))
          unitImpulse 1).delayBuffer 4 := by
  obtain ⟨hrd, hsz, hhigh, hnot⟩ := DelayLine.impulse_run_read_head ⟨fun _ => 0, 4, 0, 0, 0, 0⟩
    (1 / 2) 2 rfl (fun _ _ => rfl) (by norm_num) (by decide)
  have hrd' : (DelayLine.lineAfter
      (((⟨fun _ => 0, 4, 0, 0, 0, 0⟩ : DelayLine).setFeedback (1 / 2)).setDelayTime (2 : Nat))
      unitImpulse 1).readHeadPosition = ((3 : Int) : ℚ) := hrd
  have hlow := DelayLine.lowerBound_intCast _ 3 hrd'
  have hhigh' : (DelayLine.lineAfter
      (((⟨fun _ => 0, 4, 0, 0, 0, 0⟩ : DelayLine).setFeedback (1 / 2)).setDelayTime (2 : Nat))
      unitImpulse 1).higherBound = 4 := hhigh
  refine ⟨by rw [hrd']; norm_num, hlow, hhigh', ?_, ?_⟩
  · rw [hhigh'] at hnot
    exact hnot
  · show DelayLine.linearInterpolation _ = _
    unfold DelayLine.linearInterpolation
    dsimp only
    rw [hlow, hhigh', hrd']
    norm_num

/-! ## Claims on the grain -/

lemma exactSqrtLib_sqrt_sq (q : ℚ) (hq : 0 ≤ q) : exactSqrtLib.sqrt (q * q) = q := by
  show Rat.sqrt (q * q) = q
  rw [Rat.sqrt_eq, abs_of_nonneg hq]

lemma wrapInt32_of_range {x : Int} (h : -2 ^ 31 ≤ x ∧ x < 2 ^ 31) : wrapInt32 x = x := by
  unfold wrapInt32
  omega

/-- C6: when `onset + length` does not overflow a 32-bit `int`, `isDone t` is true exactly
when `t > onset + length`; so it is false for every `t` in `[onset, onset + length]` and
true for every `t > onset + length`. -/
theorem Grain.isDone_iff {σ : Type} (g : Grain σ) (t : Int)
    (h : -2 ^ 31 ≤ g.onset + g.length ∧ g.onset + g.length < 2 ^ 31) :
    (g.isDone t = true ↔ t > g.onset + g.length) ∧
    (g.onset ≤ t ∧ t ≤ g.onset + g.length → g.isDone t = false) ∧
    (t > g.onset + g.length → g.isDone t = true) := by
  have e : g.isDone t = decide (t > g.onset + g.length) := by
    unfold Grain.isDone
    rw [wrapInt32_of_range h]
  rw [e]
  refine ⟨by simp, fun hh => by simp; omega, fun hh => by simp [hh]⟩

/-- Witness of C6: a grain with onset 100 and length 50 at time 150. -/
theorem Grain.isDone_iff_witness :
    (-2 ^ 31 ≤ (100 : Int) + 50 ∧ (100 : Int) + 50 < 2 ^ 31) ∧
    ((⟨100, 50, 1, 1, 0, 48000, 0, 0, 1, 1⟩ : Grain ℚ).isDone 150 = true ↔
      (150 : Int) > 100 + 50) :=
  ⟨by norm_num, (Grain.isDone_iff (⟨100, 50, 1, 1, 0, 48000, 0, 0, 1, 1⟩ : Grain ℚ) 150
    (by norm_num)).1⟩

/-- C7: at a time before the onset or at or after `onset + length`, `sampleProcess` and
`delayProcess` return at once: the output buffer is the one given (every sample of every
channel unchanged) and the grain, with its level and rate ramps, is the one given. -/
theorem Grain.render_outside_window {σ : Type} (sm : SmoothedValueOps σ) (fl : FloatLib)
    (g : Grain σ) (output source : AudioBuffer) (line : DelayLine)
    (time sampleIndex envelope activity : Int)
    (h : time < g.onset ∨ time ≥ g.onset + g.length) :
    g.sampleProcess sm fl output source time sampleIndex envelope activity = (g, output) ∧
    g.delayProcess sm fl output line time sampleIndex envelope activity = some (g, output) ∧
    (∀ ch i, (g.sampleProcess sm fl output source time sampleIndex envelope activity).2.data ch i
      = output.data ch i) ∧
    (g.sampleProcess sm fl output source time sampleIndex envelope activity).1.smoothLevel
      = g.smoothLevel ∧
    (g.sampleProcess sm fl output source time sampleIndex envelope activity).1.smoothRate
      = g.smoothRate := by
  have hc : time - g.onset < 0 ∨ time - g.onset ≥ g.length := by omega
  have h1 : g.sampleProcess sm fl output source time sampleIndex envelope activity
      = (g, output) := by
    unfold Grain.sampleProcess
    simp only [hc, if_true]
  have h2 : g.delayProcess sm fl output line time sampleIndex envelope activity
      = some (g, output) := by
    unfold Grain.delayProcess
    simp only [hc, if_true]
  refine ⟨h1, h2, ?_, ?_, ?_⟩
  · intro ch i
    rw [h1]
  · rw [h1]
  · rw [h1]

/-- Witness of C7: a grain with onset 100 and length 50 at time 150. -/
theorem Grain.render_outside_window_witness :
    ((150 : Int) < 100 ∨ (150 : Int) ≥ 100 + 50) ∧
    (⟨100, 50, 1, 1, 0, 48000, 0, 0, 1, 1⟩ : Grain ℚ).sampleProcess settledRamp exactSqrtLib
      (AudioBuffer.cleared 2 8) ⟨1, 4, fun _ _ => 1⟩ 150 3 0 1
      = (⟨100, 50, 1, 1, 0, 48000, 0, 0, 1, 1⟩, AudioBuffer.cleared 2 8) :=
  ⟨by norm_num, (Grain.render_outside_window settledRamp exactSqrtLib
    (⟨100, 50, 1, 1, 0, 48000, 0, 0, 1, 1⟩ : Grain ℚ) (AudioBuffer.cleared 2 8)
    ⟨1, 4, fun _ _ => 1⟩ ⟨fun _ => 0, 4, 0, 0, 0, 0⟩ 150 3 0 1 (by norm_num)).1⟩

/-- C8, evaluated on the code: a grain inside its window (onset 0, length 4, time 2,
triangle envelope value 1) with level 1, activity 1 and pan 7/25 rendered from a mono
source whose samples are all 1 into a cleared 2-channel output.  One call of
`sampleProcess` adds 6/5 to channel 0 and 8/5 to channel 1, twice the amounts
`1*1*(1/1)*sqrt(0.5*(1-pan)) = 3/5` and `1*1*(1/1)*sqrt(0.5*(1+pan)) = 4/5`: the loop over
the two channels runs the two `addSample` calls once per channel. -/
theorem Grain.sampleProcess_stereo_adds_twice :
    ((⟨0, 4, 1, 1, 0, 48000, 0, 7 / 25, 1, 1⟩ : Grain ℚ).sampleProcess settledRamp exactSqrtLib
      (AudioBuffer.cleared 2 1) ⟨1, 4, fun _ _ => 1⟩ 2 0 0 1).2.data 0 0 = 6 / 5 ∧
    ((⟨0, 4, 1, 1, 0, 48000, 0, 7 / 25, 1, 1⟩ : Grain ℚ).sampleProcess settledRamp exactSqrtLib
      (AudioBuffer.cleared 2 1) ⟨1, 4, fun _ _ => 1⟩ 2 0 0 1).2.data 1 0 = 8 / 5 ∧
    (⟨0, 4, 1, 1, 0, 48000, 0, 7 / 25, 1, 1⟩ : Grain ℚ).selectEnvelope exactSqrtLib 0 (2 - 0) = 1 ∧
    exactSqrtLib.sqrt ((1 / 2) * (1 - 7 / 25)) = 3 / 5 ∧
    exactSqrtLib.sqrt ((1 / 2) * (1 + 7 / 25)) = 4 / 5 := by
  have hl : exactSqrtLib.sqrt ((1 / 2) * (1 - 7 / 25)) = 3 / 5 := by
    have e : ((1 : ℚ) / 2) * (1 - 7 / 25) = (3 / 5) * (3 / 5) := by norm_num
    rw [e]
    exact exactSqrtLib_sqrt_sq _ (by norm_num)
  have hr : exactSqrtLib.sqrt ((1 / 2) * (1 + 7 / 25)) = 4 / 5 := by
    have e : ((1 : ℚ) / 2) * (1 + 7 / 25) = (4 / 5) * (4 / 5) := by norm_num
    rw [e]
    exact exactSqrtLib_sqrt_sq _ (by norm_num)
  have he : (⟨0, 4, 1, 1, 0, 48000, 0, 7 / 25, 1, 1⟩ : Grain ℚ).selectEnvelope exactSqrtLib 0
      (2 - 0) = 1 := by
    simp [Grain.selectEnvelope, Grain.triEnvelope]
    norm_num [Int.tdiv]
  have he2 : (⟨0, 4, 1, 1, 0, 48000, 0, 7 / 25, 1, 1⟩ : Grain ℚ).selectEnvelope exactSqrtLib 0 2
      = 1 := he
  have hl2 : exactSqrtLib.sqrt (2⁻¹ * (1 - 7 / 25)) = 3 / 5 := by
    rw [← hl]; norm_num
  have hr2 : exactSqrtLib.sqrt (2⁻¹ * (1 + 7 / 25)) = 4 / 5 := by
    rw [← hr]; norm_num
  refine ⟨?_, ?_, he, hl, hr⟩
  · simp [Grain.sampleProcess, Grain.renderChannel, List.range_succ, AudioBuffer.cleared,
      AudioBuffer.addSample, AudioBuffer.getSample, settledRamp, jmax]
    rw [he2, hl2]
    norm_num
  · simp [Grain.sampleProcess, Grain.renderChannel, List.range_succ, AudioBuffer.cleared,
      AudioBuffer.addSample, AudioBuffer.getSample, settledRamp, jmax]
    rw [he2, hr2]
    norm_num

lemma jmax_one_pos (activity : Int) : 1 ≤ jmax 1 activity := by
  unfold jmax
  split <;> omega

lemma Grain.sampleProcess_mono {σ : Type} (sm : SmoothedValueOps σ) (fl : FloatLib)
    (g : Grain σ) (output source : AudioBuffer) (time sampleIndex envelope activity : Int)
    (hmono : output.numChannels = 1)
    (hwin : g.onset ≤ time ∧ time < g.onset + g.length) :
    (g.sampleProcess sm fl output source time sampleIndex envelope activity).2
      = output.addSample 0 sampleIndex
          (source.getSample ((0 : Int).tmod source.numChannels)
              (g.scrSample source (time - g.onset) (sm.getNextValue g.smoothRate).1)
            * g.selectEnvelope fl envelope (time - g.onset)
            * ((sm.getNextValue g.smoothLevel).1 / ((jmax 1 activity : Int) : ℚ))) := by
  have hc : ¬ (time - g.onset < 0 ∨ time - g.onset ≥ g.length) := by omega
  unfold Grain.sampleProcess
  simp only [hc, if_false, hmono]
  simp [Grain.renderChannel, hmono, List.range_succ]

lemma Grain.sampleProcessAll_mono {σ : Type} (sm : SmoothedValueOps σ) (fl : FloatLib)
    (source : AudioBuffer) (time sampleIndex envelope activity : Int) (s env L : ℚ)
    (gs : List (Grain σ))
    (hwin : ∀ g ∈ gs, g.onset ≤ time ∧ time < g.onset + g.length)
    (hlevel : ∀ g ∈ gs, (sm.getNextValue g.smoothLevel).1 = L)
    (hsample : ∀ g ∈ gs, source.getSample ((0 : Int).tmod source.numChannels)
      (g.scrSample source (time - g.onset) (sm.getNextValue g.smoothRate).1) = s)
    (henv : ∀ g ∈ gs, g.selectEnvelope fl envelope (time - g.onset) = env)
    (output : AudioBuffer) (hmono : output.numChannels = 1) :
    (Grain.sampleProcessAll sm fl gs output source time sampleIndex envelope activity).numChannels
      = 1 ∧
    (∀ c i, (Grain.sampleProcessAll sm fl gs output source time sampleIndex envelope
        activity).data c i
      = if c = 0 ∧ i = sampleIndex then
          output.data c i + (gs.length : ℚ) * (s * env * (L / ((jmax 1 activity : Int) : ℚ)))
        else output.data c i) := by
  induction gs generalizing output with
  | nil =>
    refine ⟨hmono, fun c i => ?_⟩
    simp [Grain.sampleProcessAll]
  | cons g gs ih =>
    have hg := Grain.sampleProcess_mono sm fl g output source time sampleIndex envelope
      activity hmono (hwin g (List.mem_cons_self g gs))
    rw [hsample g (List.mem_cons_self g gs), henv g (List.mem_cons_self g gs),
      hlevel g (List.mem_cons_self g gs)] at hg
    have ih' := ih (fun x hx => hwin x (List.mem_cons_of_mem g hx))
      (fun x hx => hlevel x (List.mem_cons_of_mem g hx))
      (fun x hx => hsample x (List.mem_cons_of_mem g hx))
      (fun x hx => henv x (List.mem_cons_of_mem g hx))
      (g.sampleProcess sm fl output source time sampleIndex envelope activity).2
      (by rw [hg]; exact hmono)
    have hfold : Grain.sampleProcessAll sm fl (g :: gs) output source time sampleIndex envelope
        activity
        = Grain.sampleProcessAll sm fl gs
            (g.sampleProcess sm fl output source time sampleIndex envelope activity).2 source
            time sampleIndex envelope activity := rfl
    rw [hfold]
    refine ⟨ih'.1, fun c i => ?_⟩
    rw [ih'.2 c i, hg]
    unfold AudioBuffer.addSample
    by_cases hci : c = 0 ∧ i = sampleIndex
    · simp only [hci, and_self, if_true, List.length_cons]
      push_cast
      ring
    · simp only [hci, if_false]

/-- C9: the gain of a grain is its smoothed level divided by `max(1, activity)`, a divisor
that is at least 1 for every integer activity; and when `A ≥ 1` grains inside their window,
with the same smoothed level `L`, the same source sample `s` and the same envelope value
`env`, are rendered by `sampleProcess` with activity `A` into a mono output, the output
sample at `sampleIndex` grows by exactly `s * env * L` in total and no other sample
changes. -/
theorem Grain.gain_normalisation {σ : Type} (sm : SmoothedValueOps σ) (fl : FloatLib)
    (gs : List (Grain σ)) (output source : AudioBuffer) (time sampleIndex envelope : Int)
    (s env L : ℚ)
    (hmono : output.numChannels = 1)
    (hA : 1 ≤ gs.length)
    (hwin : ∀ g ∈ gs, g.onset ≤ time ∧ time < g.onset + g.length)
    (hlevel : ∀ g ∈ gs, (sm.getNextValue g.smoothLevel).1 = L)
    (hsample : ∀ g ∈ gs, source.getSample ((0 : Int).tmod source.numChannels)
      (g.scrSample source (time - g.onset) (sm.getNextValue g.smoothRate).1) = s)
    (henv : ∀ g ∈ gs, g.selectEnvelope fl envelope (time - g.onset) = env) :
    (∀ activity : Int, 1 ≤ jmax 1 activity) ∧
    (∀ g ∈ gs, (g.sampleProcess sm fl output source time sampleIndex envelope gs.length).2
      = output.addSample 0 sampleIndex (s * env * (L / ((max 1 gs.length : Nat) : ℚ)))) ∧
    (Grain.sampleProcessAll sm fl gs output source time sampleIndex envelope gs.length).data 0
        sampleIndex
      = output.data 0 sampleIndex + s * env * L ∧
    (∀ c i, ¬ (c = 0 ∧ i = sampleIndex) →
      (Grain.sampleProcessAll sm fl gs output source time sampleIndex envelope gs.length).data c i
        = output.data c i) := by
  have hall := (Grain.sampleProcessAll_mono sm fl source time sampleIndex envelope gs.length
    s env L gs hwin hlevel hsample henv output hmono).2
  have hj : jmax 1 (gs.length : Int) = (gs.length : Int) := by
    unfold jmax
    split <;> omega
  have hne : (gs.length : ℚ) ≠ 0 := by
    have : (0 : ℚ) < (gs.length : ℚ) := by exact_mod_cast hA
    exact this.ne'
  refine ⟨jmax_one_pos, fun g hg => ?_, ?_, fun c i hci => ?_⟩
  · rw [Grain.sampleProcess_mono sm fl g output source time sampleIndex envelope gs.length
      hmono (hwin g hg), hsample g hg, henv g hg, hlevel g hg, hj, max_eq_right hA]
    push_cast
    rfl
  · rw [hall 0 sampleIndex, hj]
    simp only [and_self, if_true]
    push_cast
    field_simp
  · rw [hall c i, if_neg hci]

/-- Witness of C9: two grains of level 1 in mid-window (triangle envelope value 1) on a
source whose samples are all 1, rendered with activity 2 into a cleared mono output: the
output sample is 1, not 2. -/
theorem Grain.gain_normalisation_witness :
    (1 ≤ [(⟨0, 4, 1, 1, 0, 48000, 0, 0, 1, 1⟩ : Grain ℚ), ⟨0, 4, 1, 1, 0, 48000, 0, 0, 1, 1⟩].length) ∧
    (Grain.sampleProcessAll settledRamp exactSqrtLib
      [(⟨0, 4, 1, 1, 0, 48000, 0, 0, 1, 1⟩ : Grain ℚ), ⟨0, 4, 1, 1, 0, 48000, 0, 0, 1, 1⟩]
      (AudioBuffer.cleared 1 1) ⟨1, 4, fun _ _ => 1⟩ 2 0 0 2).data 0 0 = 1 := by
  have h := Grain.gain_normalisation settledRamp exactSqrtLib
    [(⟨0, 4, 1, 1, 0, 48000, 0, 0, 1, 1⟩ : Grain ℚ), ⟨0, 4, 1, 1, 0, 48000, 0, 0, 1, 1⟩]
    (AudioBuffer.cleared 1 1) ⟨1, 4, fun _ _ => 1⟩ 2 0 0 1 1 1 rfl (by decide)
    (by
      intro g hg
      simp only [List.mem_cons, List.mem_singleton, List.not_mem_nil, or_false, or_self] at hg
      subst hg
      decide)
    (by
      intro g hg
      simp only [List.mem_cons, List.mem_singleton, List.not_mem_nil, or_false, or_self] at hg
      subst hg
      rfl)
    (by
      intro g hg
      rfl)
    (by
      intro g hg
      simp only [List.mem_cons, List.mem_singleton, List.not_mem_nil, or_false, or_self] at hg
      subst hg
      simp [Grain.selectEnvelope, Grain.triEnvelope]
      norm_num [Int.tdiv])
  refine ⟨by decide, ?_⟩
  have h3 := h.2.2.1
  simp only [AudioBuffer.cleared, zero_add, mul_one] at h3
  exact h3

/-! ## Termination of the wrap loops -/

lemma wrapUp_some (fuel : Nat) (size : ℚ) (p : ℚ)
    (h : 0 ≤ p + (fuel : ℚ) * size) :
    ∃ q, wrapUp fuel size p = some q ∧ 0 ≤ q ∧ (p < 0 → q < size) ∧ (0 ≤ p → q = p) := by
  induction fuel generalizing p with
  | zero =>
    have hp : ¬ p < 0 := by simpa using h
    exact ⟨p, by simp [wrapUp, hp], by linarith, fun hh => absurd hh hp, fun _ => rfl⟩
  | succ n ih =>
    by_cases hp : p < 0
    · have h' : 0 ≤ (p + size) + (n : ℚ) * size := by
        push_cast at h
        linarith
      obtain ⟨q, hq, hq0, hqneg, hqpos⟩ := ih (p + size) h'
      refine ⟨q, ?_, hq0, fun _ => ?_, fun hh => absurd hp (not_lt.2 hh)⟩
      · simp only [wrapUp, hp, if_true]
        exact hq
      · by_cases hps : p + size < 0
        · exact hqneg hps
        · rw [hqpos (not_lt.1 hps)]
          linarith
    · exact ⟨p, by simp [wrapUp, hp], not_lt.1 hp, fun hh => absurd hh hp, fun _ => rfl⟩

lemma wrapDown_some (fuel : Nat) (size : ℚ) (p : ℚ) (hp0 : 0 ≤ p)
    (h : p < ((fuel : ℚ) + 1) * size) :
    ∃ q, wrapDown fuel size p = some q ∧ 0 ≤ q ∧ q < size := by
  induction fuel generalizing p with
  | zero =>
    have hp : ¬ p ≥ size := by
      have : p < size := by simpa using h
      exact not_le.2 this
    exact ⟨p, by simp [wrapDown, not_le.1 hp], hp0, not_le.1 hp⟩
  | succ n ih =>
    by_cases hp : p ≥ size
    · have h' : p - size < ((n : ℚ) + 1) * size := by
        push_cast at h
        linarith
      obtain ⟨q, hq, hq0, hq1⟩ := ih (p - size) (by linarith) h'
      refine ⟨q, ?_, hq0, hq1⟩
      simp only [wrapDown, hp, if_true]
      exact hq
    · exact ⟨p, by simp [wrapDown, not_le.1 hp], hp0, not_le.1 hp⟩

lemma wrapFuel_enough {size : Int} (hsize : 0 < size) (p : ℚ) :
    |p| ≤ (wrapFuel size p : ℚ) * (size : ℚ) := by
  have hs : (0 : ℚ) < (size : ℚ) := by exact_mod_cast hsize
  have hx : 0 ≤ |p| / (size : ℚ) := div_nonneg (abs_nonneg p) hs.le
  have hc : (0 : Int) ≤ ⌈|p| / (size : ℚ)⌉ := Int.ceil_nonneg hx
  have hF : (wrapFuel size p : ℚ) = ((⌈|p| / (size : ℚ)⌉ : Int) : ℚ) + 1 := by
    unfold wrapFuel
    rw [if_pos hsize]
    push_cast
    congr 1
    have : ((⌈|p| / (size : ℚ)⌉.toNat : Int) : ℚ) = ((⌈|p| / (size : ℚ)⌉ : Int) : ℚ) := by
      rw [Int.toNat_of_nonneg hc]
    exact_mod_cast this
  have h1 : |p| / (size : ℚ) ≤ ((⌈|p| / (size : ℚ)⌉ : Int) : ℚ) := Int.le_ceil _
  have h2 : |p| ≤ ((⌈|p| / (size : ℚ)⌉ : Int) : ℚ) * (size : ℚ) := by
    have := mul_le_mul_of_nonneg_right h1 hs.le
    rwa [div_mul_cancel₀ _ hs.ne'] at this
  rw [hF]
  nlinarith

lemma wrapReadPos_some (size : Int) (hsize : 0 < size) (p : ℚ) :
    ∃ q, wrapReadPos size p = some q ∧ 0 ≤ q ∧ q < (size : ℚ) := by
  have hs : (0 : ℚ) < (size : ℚ) := by exact_mod_cast hsize
  have hF := wrapFuel_enough hsize p
  have hp1 : -|p| ≤ p := neg_abs_le p
  have hp2 : p ≤ |p| := le_abs_self p
  obtain ⟨q1, hq1, hq10, hq1neg, hq1pos⟩ :=
    wrapUp_some (wrapFuel size p) (size : ℚ) p (by linarith)
  have hlt : q1 < ((wrapFuel size p : ℚ) + 1) * (size : ℚ) := by
    by_cases hp : p < 0
    · have := hq1neg hp
      have : 0 ≤ (wrapFuel size p : ℚ) * (size : ℚ) := by
        have := abs_nonneg p
        linarith
      linarith [hq1neg hp]
    · rw [hq1pos (not_lt.1 hp)]
      linarith
  obtain ⟨q, hq, hq0, hqs⟩ := wrapDown_some (wrapFuel size p) (size : ℚ) q1 hq10 hlt
  exact ⟨q, by simp [wrapReadPos, hq1, hq], hq0, hqs⟩

/-! ## The per-sample step of the scheduler -/

namespace Grain

variable {σ : Type}

lemma delayProcess_some (sm : SmoothedValueOps σ) (fl : FloatLib) (g : Grain σ)
    (output : AudioBuffer) (source : DelayLine) (time sampleIndex envelope activity : Int)
    (hsize : 0 < source.maxDelaySize) :
    ∃ r, g.delayProcess sm fl output source time sampleIndex envelope activity = some r := by
  unfold delayProcess
  by_cases hc : time - g.onset < 0 ∨ time - g.onset ≥ g.length
  · simp only [hc, if_true]
    exact ⟨_, rfl⟩
  · obtain ⟨q, hq, -⟩ := wrapReadPos_some source.getDelaySize hsize
      ((g.delayOffset : ℚ) + ((time - g.onset : Int) : ℚ) * g.rate)
    simp only [hc, if_false, hq, Option.map_some']
    exact ⟨_, rfl⟩

end Grain

namespace GrainVoice

variable {σ α : Type}

lemma renderGrainAt_some (sm : SmoothedValueOps σ) (fl : FloatLib)
    (mode envelope activity csi i : Int) (line : DelayLine) (source : AudioBuffer) (g : Nat)
    (st : RenderState σ) (hsize : 0 < line.maxDelaySize) :
    ∃ st', renderGrainAt sm fl mode envelope activity csi i line source g st = some st' := by
  unfold renderGrainAt
  by_cases hm : mode = 0
  · obtain ⟨r, hr⟩ := Grain.delayProcess_some sm fl
      ((st.grains.get? g).getD (Grain.mkDefault sm)) st.output line csi i envelope activity hsize
    simp only [hm, if_true, hr, Option.some_bind]
    by_cases hw : csi - ((st.grains.get? g).getD (Grain.mkDefault sm)).getOnset ≥ 0 ∧
        csi - ((st.grains.get? g).getD (Grain.mkDefault sm)).getOnset
          < ((st.grains.get? g).getD (Grain.mkDefault sm)).getLength
    · obtain ⟨q, hq, -⟩ := wrapReadPos_some line.getDelaySize hsize
        (((st.grains.get? g).getD (Grain.mkDefault sm)).getDelayOffset
          + ((csi - ((st.grains.get? g).getD (Grain.mkDefault sm)).getOnset : Int) : ℚ)
            * ((st.grains.get? g).getD (Grain.mkDefault sm)).getRate)
      simp only [hw, and_self, if_true, hq, Option.map_some']
      exact ⟨_, rfl⟩
    · simp only [hw, if_false, Option.map_some']
      exact ⟨_, rfl⟩
  · simp only [hm, if_false, Option.map_some']
    exact ⟨_, rfl⟩

lemma renderGrains_some (sm : SmoothedValueOps σ) (fl : FloatLib)
    (mode envelope activity csi i : Int) (line : DelayLine) (source : AudioBuffer)
    (hsize : 0 < line.maxDelaySize) (count : Nat) (st : RenderState σ) :
    ∃ st', renderGrains sm fl mode envelope activity csi i line source count st = some st' := by
  induction count generalizing st with
  | zero => exact ⟨st, rfl⟩
  | succ n ih =>
    obtain ⟨st1, h1⟩ :=
      renderGrainAt_some sm fl mode envelope activity csi i line source n st hsize
    obtain ⟨st2, h2⟩ := ih st1
    exact ⟨st2, by simp [renderGrains, h1, h2]⟩

lemma delayLine_setFeedback_size (d : DelayLine) (f : ℚ) : (d.setFeedback f).maxDelaySize = d.maxDelaySize := by
  unfold DelayLine.setFeedback
  split <;> rfl

lemma perSample_spec (sm : SmoothedValueOps σ) (adsr : ADSROps α) (fl : FloatLib) (p : Params)
    (source : AudioBuffer) (v : GrainVoice σ α) (output : AudioBuffer) (i : Int)
    (hsize : 0 < v.delayLine.maxDelaySize) :
    ∃ w out, perSample sm adsr fl p source v output i = some (w, out) ∧ StepsTo adsr v w := by
  unfold perSample
  by_cases hs : v.currentSampleIndex.tmod v.density = 0
  · simp only [hs, if_true]
    have hsz : 0 < ((spawnGrain sm adsr p
        { v with envelope := (adsr.getNextSample v.envelope).2
                 smoothSparse := (sm.getNextValue (sm.setTargetValue v.smoothSparse p.sparse)).2 }
        i (adsr.getNextSample v.envelope).1 (truncToInt p.mode)
        (sm.getNextValue (sm.setTargetValue v.smoothSparse p.sparse)).1).delayLine.process
          (source.getSample 0 ((spawnGrain sm adsr p
            { v with envelope := (adsr.getNextSample v.envelope).2
                     smoothSparse :=
                       (sm.getNextValue (sm.setTargetValue v.smoothSparse p.sparse)).2 }
            i (adsr.getNextSample v.envelope).1 (truncToInt p.mode)
            (sm.getNextValue (sm.setTargetValue v.smoothSparse p.sparse)).1).currentSampleIndex.tmod
              source.numSamples))).2.maxDelaySize := hsize
    obtain ⟨st, hst⟩ := renderGrains_some sm fl (truncToInt p.mode) (truncToInt p.envelope)
      (truncToInt p.activity * (spawnGrain sm adsr p
        { v with envelope := (adsr.getNextSample v.envelope).2
                 smoothSparse := (sm.getNextValue (sm.setTargetValue v.smoothSparse p.sparse)).2 }
        i (adsr.getNextSample v.envelope).1 (truncToInt p.mode)
        (sm.getNextValue (sm.setTargetValue v.smoothSparse p.sparse)).1).activeVoiceOn)
      _ i _ source hsz _ ⟨_, output, 0⟩
    rw [hst]
    refine ⟨_, _, rfl, ?_⟩
    refine ⟨rfl, rfl, rfl, rfl, rfl, rfl, ?_, ?_, ?_⟩
    · exact delayLine_setFeedback_size _ _
    · simp [spawnGrain, hs]
    · intro ha
      simp [spawnGrain, ha]
  · simp only [hs, if_false]
    have hsz : 0 < (v.delayLine.process
        (source.getSample 0 (v.currentSampleIndex.tmod source.numSamples))).2.maxDelaySize := hsize
    obtain ⟨st, hst⟩ := renderGrains_some sm fl (truncToInt p.mode) (truncToInt p.envelope)
      (truncToInt p.activity * v.activeVoiceOn) v.currentSampleIndex i _ source hsz
      v.grains.length ⟨v.grains, output, 0⟩
    rw [hst]
    refine ⟨_, _, rfl, ?_⟩
    refine ⟨rfl, rfl, rfl, rfl, rfl, rfl, ?_, ?_, ?_⟩
    · exact delayLine_setFeedback_size _ _
    · simp [hs]
    · intro _
      rfl

end GrainVoice

/-! ## The spawn schedule over blocks -/

lemma spawnTimes_add (D : Int) (c : Int) (n m : Nat) :
    spawnTimes D c (n + m) = spawnTimes D c n ++ spawnTimes D (c + n) m := by
  induction n generalizing c with
  | zero => simp [spawnTimes]
  | succ n ih =>
    have e : n + 1 + m = (n + m) + 1 := by omega
    rw [e]
    simp only [spawnTimes, ih (c + 1), List.append_assoc]
    congr 3
    push_cast
    ring

lemma ceilDiv_succ_of_dvd {D M : Nat} (hD : 1 ≤ D) (h : D ∣ M) :
    (M + D - 1) / D = M / D ∧ (M + 1 + D - 1) / D = M / D + 1 := by
  obtain ⟨q, rfl⟩ := h
  have hDpos : 0 < D := hD
  constructor
  · have e : D * q + D - 1 = (D - 1) + D * q := by omega
    rw [e, Nat.add_mul_div_left _ _ hDpos, Nat.div_eq_of_lt (by omega), Nat.mul_div_cancel_left _ hDpos]
    omega
  · have e : D * q + 1 + D - 1 = D * (q + 1) := by
      rw [Nat.mul_add]; omega
    rw [e, Nat.mul_div_cancel_left _ hDpos, Nat.mul_div_cancel_left _ hDpos]

lemma ceilDiv_succ_of_not_dvd {D M : Nat} (hD : 1 ≤ D) (h : ¬ D ∣ M) :
    (M + 1 + D - 1) / D = (M + D - 1) / D := by
  have hDpos : 0 < D := hD
  have hr : 0 < M % D := Nat.pos_of_ne_zero (fun h0 => h (Nat.dvd_of_mod_eq_zero h0))
  have hlt : M % D < D := Nat.mod_lt _ hDpos
  have hM := Nat.div_add_mod M D
  have e1 : M + 1 + D - 1 = (M % D + D) + D * (M / D) := by omega
  have e2 : M + D - 1 = (M % D + D - 1) + D * (M / D) := by omega
  rw [e1, e2, Nat.add_mul_div_left _ _ hDpos, Nat.add_mul_div_left _ _ hDpos]
  congr 1
  have a1 : (M % D + D) / D = 1 := by
    rw [Nat.add_div_right _ hDpos, Nat.div_eq_of_lt hlt]
  have a2 : (M % D + D - 1) / D = 1 := by
    have : M % D + D - 1 = (M % D - 1) + D := by omega
    rw [this, Nat.add_div_right _ hDpos, Nat.div_eq_of_lt (by omega)]
  rw [a1, a2]

lemma tmod_natCast_eq_zero_iff (M D : Nat) : ((M : Int).tmod (D : Int) = 0) ↔ D ∣ M := by
  rw [Int.tmod_eq_emod (Int.natCast_nonneg M) (Int.natCast_nonneg D)]
  constructor
  · intro h
    exact Int.natCast_dvd_natCast.1 (Int.dvd_of_emod_eq_zero h)
  · intro h
    exact Int.emod_eq_zero_of_dvd (Int.natCast_dvd_natCast.2 h)

lemma spawnTimes_zero_eq (D : Nat) (hD : 1 ≤ D) (M : Nat) :
    spawnTimes (D : Int) 0 M
      = (List.range ((M + D - 1) / D)).map (fun k => ((k * D : Nat) : Int)) := by
  induction M with
  | zero =>
    have : (0 + D - 1) / D = 0 := by
      rw [Nat.zero_add]
      exact Nat.div_eq_of_lt (by omega)
    rw [this]
    rfl
  | succ M ih =>
    rw [spawnTimes_add, ih]
    have hstep : spawnTimes (D : Int) ((0 : Int) + (M : Int)) 1
        = if D ∣ M then [(M : Int)] else [] := by
      simp only [spawnTimes, zero_add, List.append_nil, tmod_natCast_eq_zero_iff]
    rw [hstep]
    by_cases hd : D ∣ M
    · obtain ⟨h1, h2⟩ := ceilDiv_succ_of_dvd hD hd
      rw [if_pos hd, h2, h1, List.range_succ, List.map_append]
      congr 1
      simp only [List.map_cons, List.map_nil]
      rw [Nat.div_mul_cancel hd]
    · rw [if_neg hd, ceilDiv_succ_of_not_dvd hD hd, List.append_nil]

namespace GrainVoice

variable {σ α : Type}

lemma envelopeAfter_shift (adsr : ADSROps α) (e : α) (k : Nat) :
    envelopeAfter adsr (adsr.getNextSample e).2 k = envelopeAfter adsr e (k + 1) := by
  induction k with
  | zero => rfl
  | succ k ih =>
    show (adsr.getNextSample (envelopeAfter adsr (adsr.getNextSample e).2 k)).2 = _
    rw [ih]
    rfl

lemma computeDensity_congr (v w : GrainVoice σ α) (p : Params)
    (hb : w.currentBpm = v.currentBpm) (hr : w.sampleRate = v.sampleRate) :
    w.computeDensity p = v.computeDensity p := by
  unfold computeDensity msToSamples
  rw [hb, hr]

lemma sampleLoop_spec (sm : SmoothedValueOps σ) (adsr : ADSROps α) (fl : FloatLib) (p : Params)
    (source : AudioBuffer) (count : Nat) (i : Int) (v : GrainVoice σ α) (out : AudioBuffer)
    (hsize : 0 < v.delayLine.maxDelaySize)
    (hOn : ∀ k, k < count → adsr.isActive (envelopeAfter adsr v.envelope (k + 1)) = true) :
    ∃ w out', sampleLoop sm adsr fl p source count i (v, out) = some (w, out') ∧
      RunsTo adsr v.density count v w := by
  induction count generalizing i v out with
  | zero =>
    exact ⟨v, out, rfl, ⟨by simp, rfl, rfl, rfl, rfl, rfl, rfl, by simp [spawnTimes], rfl⟩⟩
  | succ n ih =>
    obtain ⟨w1, out1, h1, s1⟩ := perSample_spec sm adsr fl p source v out i hsize
    have hOn1 : ∀ k, k < n → adsr.isActive (envelopeAfter adsr w1.envelope (k + 1)) = true := by
      intro k hk
      rw [s1.envelope, envelopeAfter_shift]
      exact hOn (k + 1) (by omega)
    obtain ⟨w, out', h2, s2⟩ := ih (i + 1) w1 out1 (by rw [s1.size]; exact hsize) hOn1
    refine ⟨w, out', ?_, ?_⟩
    · simp only [sampleLoop, h1, Option.some_bind]
      exact h2
    · have hd : w1.density = v.density := s1.density
      rw [hd] at s2
      refine ⟨?_, ?_, ?_, ?_, ?_, ?_, ?_, ?_, ?_⟩
      · rw [s2.counter, s1.counter]; push_cast; ring
      · rw [s2.density]
      · rw [s2.envelope, s1.envelope, envelopeAfter_shift]
      · rw [s2.source, s1.source]
      · rw [s2.bpm, s1.bpm]
      · rw [s2.rate, s1.rate]
      · rw [s2.size, s1.size]
      · rw [s2.log, s1.log, s1.counter, List.append_assoc]
        rfl
      · rw [s2.note, s1.note (hOn 0 (by omega))]

end GrainVoice

namespace GrainVoice

variable {σ α : Type}

lemma envelopeAfter_add (adsr : ADSROps α) (e : α) (n m : Nat) :
    envelopeAfter adsr (envelopeAfter adsr e n) m = envelopeAfter adsr e (n + m) := by
  induction m with
  | zero => rfl
  | succ m ih =>
    show (adsr.getNextSample (envelopeAfter adsr (envelopeAfter adsr e n) m)).2 = _
    rw [ih]
    rfl

lemma RunsTo.chain {adsr : ADSROps α} {D : Int} {n m : Nat} {u v w : GrainVoice σ α}
    (h1 : RunsTo adsr D n u v) (h2 : RunsTo adsr D m v w) : RunsTo adsr D (n + m) u w := by
  refine ⟨?_, h2.density, ?_, ?_, ?_, ?_, ?_, ?_, ?_⟩
  · rw [h2.counter, h1.counter]; push_cast; ring
  · rw [h2.envelope, h1.envelope, envelopeAfter_add]
  · rw [h2.source, h1.source]
  · rw [h2.bpm, h1.bpm]
  · rw [h2.rate, h1.rate]
  · rw [h2.size, h1.size]
  · rw [h2.log, h1.log, h1.counter, List.append_assoc, spawnTimes_add]
  · rw [h2.note, h1.note]

lemma renderNextBlock_spec (sm : SmoothedValueOps σ) (adsr : ADSROps α) (fl : FloatLib)
    (p : Params) (v : GrainVoice σ α) (outputBuffer source : AudioBuffer)
    (startSample numSamples : Int)
    (hnote : v.noteOn = true) (hsrc : v.sampleBuffer = some source)
    (hsize : 0 < v.delayLine.maxDelaySize)
    (hOn : ∀ k, k < numSamples.toNat →
      adsr.isActive (envelopeAfter adsr v.envelope (k + 1)) = true) :
    ∃ w out, renderNextBlock sm adsr fl p v outputBuffer startSample numSamples = some (w, out) ∧
      RunsTo adsr (v.computeDensity p) numSamples.toNat v w := by
  unfold renderNextBlock
  split
  · rename_i hnone
    rw [hsrc] at hnone
    exact absurd hnone (by simp)
  rename_i source' hsome
  have hs' : source' = source := by
    rw [hsrc] at hsome
    exact (Option.some.inj hsome).symm
  subst hs'
  rw [if_neg (by rw [hnote]; simp)]
  obtain ⟨w, out, h, s⟩ := sampleLoop_spec sm adsr fl p source' numSamples.toNat startSample
    { v with
      dryReadHeads := (if source'.numSamples > 0 then
          dryPass source' v.playbackRate v.dryReadHeadsSize outputBuffer.numChannels
            outputBuffer.numSamples
            (v.dryReadHeads, AudioBuffer.cleared outputBuffer.numChannels outputBuffer.numSamples)
        else
          (v.dryReadHeads,
            AudioBuffer.cleared outputBuffer.numChannels outputBuffer.numSamples)).1
      density := v.computeDensity p }
    outputBuffer hsize hOn
  dsimp only
  rw [h]
  refine ⟨_, _, rfl, ?_⟩
  exact ⟨s.counter, s.density, s.envelope, s.source, s.bpm, s.rate, s.size, s.log, s.note⟩

end GrainVoice

lemma heldVoice_density : heldVoice.computeDensity fixedDensityParams = ((100 : Nat) : Int) := by
  have h : heldVoice.computeDensity fixedDensityParams = heldVoice.msToSamples 100 := by
    unfold GrainVoice.computeDensity
    rw [if_neg (by norm_num [fixedDensityParams])]
    rfl
  rw [h, GrainVoice.msToSamples_hundred heldVoice rfl]
  rfl

/-- C17, evaluated on the code: for an odd length the test `t < length / 2` uses the
truncated half, so the sample at `t = (length - 1) / 2` is computed by the falling branch:
`triEnvelope` returns 4/3 for length 3 at `t = 1`, 6/5 for length 5 at `t = 2` and 2 for
length 1 at `t = 0`, all above 1. -/
theorem Grain.triEnvelope_exceeds_one_odd_length :
    (⟨0, 3, 1, 1, 0, 48000, 0, 0, 1, 1⟩ : Grain ℚ).triEnvelope 1 = 4 / 3 ∧
    (⟨0, 5, 1, 1, 0, 48000, 0, 0, 1, 1⟩ : Grain ℚ).triEnvelope 2 = 6 / 5 ∧
    (⟨0, 1, 1, 1, 0, 48000, 0, 0, 1, 1⟩ : Grain ℚ).triEnvelope 0 = 2 ∧
    ¬ ((⟨0, 3, 1, 1, 0, 48000, 0, 0, 1, 1⟩ : Grain ℚ).triEnvelope 1 ≤ 1) := by
  refine ⟨?_, ?_, ?_, ?_⟩ <;> norm_num [Grain.triEnvelope, Int.tdiv]

lemma Grain.phase_range {σ : Type} (g : Grain σ) (t : Int) (ht : 0 ≤ t ∧ t < g.length) :
    0 ≤ (t : ℚ) / (g.length : ℚ) ∧ (t : ℚ) / (g.length : ℚ) < 1 := by
  have hL : (0 : ℚ) < (g.length : ℚ) := by exact_mod_cast (by omega : 0 < g.length)
  have h0 : (0 : ℚ) ≤ (t : ℚ) := by exact_mod_cast ht.1
  have h1 : (t : ℚ) < (g.length : ℚ) := by exact_mod_cast ht.2
  exact ⟨div_nonneg h0 hL.le, (div_lt_one hL).2 h1⟩

/-- C18: for a length `L ≥ 1` and `0 ≤ t < L`, `hannEnvelope t` (for a cosine with values
in `[-1, 1]`), `expEnvelope t` and `trapezoidEnvelope t` lie in `[0, 1]`. -/
theorem Grain.smooth_envelopes_bounded {σ : Type} (fl : FloatLib) (g : Grain σ) (t : Int)
    (hcos : ∀ x, -1 ≤ fl.cos x ∧ fl.cos x ≤ 1)
    (hL : 1 ≤ g.length) (ht : 0 ≤ t ∧ t < g.length) :
    (0 ≤ g.hannEnvelope fl t ∧ g.hannEnvelope fl t ≤ 1) ∧
    (0 ≤ g.expEnvelope t ∧ g.expEnvelope t ≤ 1) ∧
    (0 ≤ g.trapezoidEnvelope t ∧ g.trapezoidEnvelope t ≤ 1) := by
  have hguard : ¬ (t < 0 ∨ t ≥ g.length) := by omega
  obtain ⟨hp0, hp1⟩ := g.phase_range t ht
  have hLq : (1 : ℚ) ≤ (g.length : ℚ) := by exact_mod_cast hL
  refine ⟨?_, ?_, ?_⟩
  · unfold Grain.hannEnvelope
    rw [if_neg hguard]
    obtain ⟨hc0, hc1⟩ := hcos (2 * fl.pi * ((t : ℚ) / (g.length : ℚ)))
    constructor <;> dsimp only <;> linarith
  · unfold Grain.expEnvelope
    rw [if_neg hguard]
    dsimp only
    split
    · rename_i hlt
      have h2 : (t : ℚ) / (g.length : ℚ) * 2 ≤ 1 := by linarith
      have h3 : 0 ≤ (t : ℚ) / (g.length : ℚ) * 2 := by linarith
      exact ⟨pow_nonneg h3 3, pow_le_one₀ h3 h2⟩
    · rename_i hge
      have h2 : (1 - (t : ℚ) / (g.length : ℚ)) * 2 ≤ 1 := by linarith
      have h3 : 0 ≤ (1 - (t : ℚ) / (g.length : ℚ)) * 2 := by linarith
      exact ⟨pow_nonneg h3 3, pow_le_one₀ h3 h2⟩
  · unfold Grain.trapezoidEnvelope
    rw [if_neg hguard]
    dsimp only
    split
    · rename_i hlt
      constructor
      · exact div_nonneg hp0 (by norm_num)
      · rw [div_le_one (by norm_num)]
        linarith
    · split
      · rename_i hgt
        constructor
        · exact div_nonneg (by linarith) (by norm_num)
        · rw [div_le_one (by norm_num)]
          linarith
      · norm_num

/-- Witness of C18: a grain of length 4 at `t = 1`, where the exponential envelope is 1/8
and the trapezoid is 1. -/
theorem Grain.smooth_envelopes_bounded_witness :
    ((1 : Int) ≤ 4 ∧ ((0 : Int) ≤ 1 ∧ (1 : Int) < 4)) ∧
    (⟨0, 4, 1, 1, 0, 48000, 0, 0, 1, 1⟩ : Grain ℚ).expEnvelope 1 ≤ 1 ∧
    (⟨0, 4, 1, 1, 0, 48000, 0, 0, 1, 1⟩ : Grain ℚ).expEnvelope 1 = 1 / 8 ∧
    (⟨0, 4, 1, 1, 0, 48000, 0, 0, 1, 1⟩ : Grain ℚ).trapezoidEnvelope 1 = 1 :=
  ⟨by decide,
    (Grain.smooth_envelopes_bounded exactSqrtLib (⟨0, 4, 1, 1, 0, 48000, 0, 0, 1, 1⟩ : Grain ℚ) 1
      (fun _ => ⟨by norm_num [exactSqrtLib], by norm_num [exactSqrtLib]⟩)
      (by decide) (by decide)).2.1.2,
    by norm_num [Grain.expEnvelope], by norm_num [Grain.trapezoidEnvelope]⟩

/-- C19, evaluated on the code: for a grain of length 1 `triEnvelope 0` is 2, not 0 (the
test `t < length / 2` is `0 < 0`, so `t = 0` is computed by the falling branch); the other
three envelopes are 0 at `t = 0`, and all four are 0 at `t = length` and at `t = -1`. -/
theorem Grain.triEnvelope_start_not_zero_length_one :
    (⟨0, 1, 1, 1, 0, 48000, 0, 0, 1, 1⟩ : Grain ℚ).triEnvelope 0 = 2 ∧
    (⟨0, 1, 1, 1, 0, 48000, 0, 0, 1, 1⟩ : Grain ℚ).expEnvelope 0 = 0 ∧
    (⟨0, 1, 1, 1, 0, 48000, 0, 0, 1, 1⟩ : Grain ℚ).trapezoidEnvelope 0 = 0 ∧
    (⟨0, 1, 1, 1, 0, 48000, 0, 0, 1, 1⟩ : Grain ℚ).hannEnvelope exactSqrtLib 0 = 0 ∧
    (⟨0, 1, 1, 1, 0, 48000, 0, 0, 1, 1⟩ : Grain ℚ).triEnvelope 1 = 0 ∧
    (⟨0, 1, 1, 1, 0, 48000, 0, 0, 1, 1⟩ : Grain ℚ).triEnvelope (-1) = 0 := by
  refine ⟨?_, ?_, ?_, ?_, ?_, ?_⟩ <;>
    norm_num [Grain.triEnvelope, Grain.expEnvelope, Grain.trapezoidEnvelope,
      Grain.hannEnvelope, exactSqrtLib, Int.tdiv]

lemma one_le_truncToInt_iff (x : ℚ) : 1 ≤ truncToInt x ↔ 1 ≤ x := by
  unfold truncToInt
  by_cases hx : 0 ≤ x
  · rw [if_pos hx, Int.le_floor]
    simp
  · rw [if_neg hx]
    push_neg at hx
    constructor
    · intro h
      have h1 : ⌈x⌉ ≤ 0 := Int.ceil_le.2 (by simpa using hx.le)
      omega
    · intro h
      linarith

lemma scale_bounds {q x lo hi c : ℚ} (hc : 0 ≤ c) (h : x * lo ≤ q ∧ q ≤ x * hi) :
    (x * c) * lo ≤ q * c ∧ q * c ≤ (x * c) * hi := by
  have h1 := mul_le_mul_of_nonneg_right h.1 hc
  have h2 := mul_le_mul_of_nonneg_right h.2 hc
  constructor <;> linarith

lemma div_bounds {q x lo hi c : ℚ} (hc : 0 < c) (h : x * lo ≤ q ∧ q ≤ x * hi) :
    (x / c) * lo ≤ q / c ∧ q / c ≤ (x / c) * hi := by
  have h := scale_bounds (c := 1 / c) (by positivity) h
  have e1 : x * (1 / c) = x / c := by ring
  have e2 : q * (1 / c) = q / c := by ring
  rw [e1, e2] at h
  exact h

lemma roundFloat_step {q x lo hi c : ℚ} (h : x * lo ≤ q ∧ q ≤ x * hi) (hc : c ≤ x)
    (hlo : 0 ≤ lo) (hn : 1 / 2 ^ 20 ≤ c * lo) :
    x * (lo * (1 - 1 / 16777216)) ≤ roundFloat q ∧
    roundFloat q ≤ x * (hi * (1 + 1 / 16777216)) := by
  have hq : 1 / 2 ^ 126 ≤ q :=
    le_trans tiny_float_le (le_trans hn (le_trans (mul_le_mul_of_nonneg_right hc hlo) h.1))
  have hb := roundFloat_bounds q hq
  have h1 := mul_le_mul_of_nonneg_right h.1 (by norm_num : (0 : ℚ) ≤ 1 - 1 / 16777216)
  have h2 := mul_le_mul_of_nonneg_right h.2 (by norm_num : (0 : ℚ) ≤ 1 + 1 / 16777216)
  constructor <;> linarith [hb.1, hb.2]

lemma roundDouble_step {q x lo hi c : ℚ} (h : x * lo ≤ q ∧ q ≤ x * hi) (hc : c ≤ x)
    (hlo : 0 ≤ lo) (hn : 1 / 2 ^ 20 ≤ c * lo) :
    x * (lo * (1 - 1 / 9007199254740992)) ≤ roundDouble q ∧
    roundDouble q ≤ x * (hi * (1 + 1 / 9007199254740992)) := by
  have hq : 1 / 2 ^ 1022 ≤ q :=
    le_trans tiny_double_le (le_trans hn (le_trans (mul_le_mul_of_nonneg_right hc hlo) h.1))
  have hb := roundDouble_bounds q hq
  have h1 := mul_le_mul_of_nonneg_right h.1 (by norm_num : (0 : ℚ) ≤ 1 - 1 / 9007199254740992)
  have h2 := mul_le_mul_of_nonneg_right h.2 (by norm_num : (0 : ℚ) ≤ 1 + 1 / 9007199254740992)
  constructor <;> linarith [hb.1, hb.2]

lemma truncToInt_bounds {y : ℚ} (hy : 0 ≤ y) :
    0 ≤ truncToInt y ∧ ((truncToInt y : Int) : ℚ) ≤ y ∧ y < ((truncToInt y : Int) : ℚ) + 1 := by
  rw [truncToInt_of_nonneg hy]
  exact ⟨Int.floor_nonneg.2 hy, Int.floor_le y, Int.lt_floor_add_one y⟩

namespace GrainVoice

variable {σ α : Type}

lemma computeDensity_free (v : GrainVoice σ α) (p : Params) (hq : ¬ p.quantise > 1 / 2) :
    v.computeDensity p = v.msToSamples p.density := by
  unfold computeDensity
  rw [if_neg hq]

lemma computeDensity_quantised (v : GrainVoice σ α) (p : Params) (hq : p.quantise > 1 / 2) :
    v.computeDensity p
      = v.msToSamples (roundDouble (roundDouble (roundDouble (60 / v.currentBpm) * 1000)
          / ((quantiseDivisor (truncToInt p.quantiseDivision) : Int) : ℚ))) := by
  unfold computeDensity quantiseDivisor
  rw [if_pos hq]

/-- The value that `msToSamples` truncates, for an argument between `x * lo` and `x * hi`:
the two roundings to single precision and the rounding to double precision each add a
relative error of at most half a unit in the last place. -/
lemma msToSamples_chain (v : GrainVoice σ α) (ms x lo hi c : ℚ)
    (h : x * lo ≤ ms ∧ ms ≤ x * hi) (hc : c ≤ x) (hc0 : 0 < c) (hlo : 0 ≤ lo)
    (hsr : 1 ≤ v.sampleRate)
    (hn : 1 / 2 ^ 20
      ≤ c / 1000 * (lo * (1 - 1 / 16777216) * (1 - 1 / 16777216))) :
    x / 1000 * v.sampleRate
        * (lo * (1 - 1 / 16777216) * (1 - 1 / 16777216) * (1 - 1 / 9007199254740992))
      ≤ roundDouble (roundFloat (roundFloat ms / 1000) * v.sampleRate) ∧
    roundDouble (roundFloat (roundFloat ms / 1000) * v.sampleRate)
      ≤ x / 1000 * v.sampleRate
        * (hi * (1 + 1 / 16777216) * (1 + 1 / 16777216) * (1 + 1 / 9007199254740992)) := by
  have hsr0 : (0 : ℚ) ≤ v.sampleRate := by linarith
  have hk : (0 : ℚ) ≤ lo * (1 - 1 / 16777216) * (1 - 1 / 16777216) := by
    have : (0 : ℚ) ≤ (1 - 1 / 16777216) * (1 - 1 / 16777216) := by norm_num
    nlinarith
  have hn1 : 1 / 2 ^ 20 ≤ c * lo := by
    have h1 : c / 1000 * (lo * (1 - 1 / 16777216) * (1 - 1 / 16777216)) ≤ c * lo := by
      have : (0 : ℚ) ≤ c * lo := mul_nonneg hc0.le hlo
      nlinarith
    linarith
  have s1 := roundFloat_step h hc hlo hn1
  have s2 := div_bounds (c := 1000) (by norm_num) s1
  have hn2 : 1 / 2 ^ 20 ≤ c / 1000 * (lo * (1 - 1 / 16777216)) := by
    have h1 : c / 1000 * (lo * (1 - 1 / 16777216) * (1 - 1 / 16777216))
        ≤ c / 1000 * (lo * (1 - 1 / 16777216)) := by
      have : (0 : ℚ) ≤ c / 1000 * (lo * (1 - 1 / 16777216)) := by
        have : (0 : ℚ) ≤ lo * (1 - 1 / 16777216) := by nlinarith
        positivity
      nlinarith
    linarith
  have s3 := roundFloat_step s2 (div_le_div_of_nonneg_right hc (by norm_num))
    (by nlinarith) hn2
  have s4 := scale_bounds hsr0 s3
  have hc4 : c / 1000 ≤ x / 1000 * v.sampleRate := by
    have h1 : c / 1000 ≤ x / 1000 := div_le_div_of_nonneg_right hc (by norm_num)
    have h2 : (0 : ℚ) ≤ x / 1000 := le_trans (by positivity) h1
    nlinarith
  exact roundDouble_step s4 hc4 hk (by linarith)

/-- The value that `msToSamples` truncates, for an argument of at least 1 ms and a sample
rate of at least 1 Hz: it lies within the relative distance `1 / 8000000` of
`ms * sampleRate / 1000`. -/
lemma msToSamples_value_bounds (v : GrainVoice σ α) (ms : ℚ) (hms : 1 ≤ ms)
    (hsr : 1 ≤ v.sampleRate) :
    ms * v.sampleRate / 1000 * (1 - 1 / 8000000)
      ≤ roundDouble (roundFloat (roundFloat ms / 1000) * v.sampleRate) ∧
    roundDouble (roundFloat (roundFloat ms / 1000) * v.sampleRate)
      ≤ ms * v.sampleRate / 1000 * (1 + 1 / 8000000) := by
  have h := msToSamples_chain v ms ms 1 1 1 ⟨by linarith, by linarith⟩ hms (by norm_num)
    (by norm_num) hsr (by norm_num)
  have hx : (0 : ℚ) ≤ ms * v.sampleRate / 1000 := by positivity
  have e : ms / 1000 * v.sampleRate = ms * v.sampleRate / 1000 := by ring
  rw [e] at h
  have k1 : (1 - 1 / 8000000 : ℚ)
      ≤ 1 * (1 - 1 / 16777216) * (1 - 1 / 16777216) * (1 - 1 / 9007199254740992) := by norm_num
  have k2 : (1 * (1 + 1 / 16777216) * (1 + 1 / 16777216) * (1 + 1 / 9007199254740992) : ℚ)
      ≤ 1 + 1 / 8000000 := by norm_num
  exact ⟨le_trans (mul_le_mul_of_nonneg_left k1 hx) h.1,
    le_trans h.2 (mul_le_mul_of_nonneg_left k2 hx)⟩


/-- The value that the quantise branch passes through `msToSamples`, for a tempo between 1
and 1000 BPM, a divisor between 1 and 4 and a sample rate of at least 1 Hz: it lies
within the relative distance `1 / 8000000` of `((60000 / BPM) / div) * sampleRate / 1000`. -/
lemma quantised_value_bounds (v : GrainVoice σ α) (d : ℚ) (hb1 : 1 ≤ v.currentBpm)
    (hb2 : v.currentBpm ≤ 1000) (hd1 : 1 ≤ d) (hd2 : d ≤ 4) (hsr : 1 ≤ v.sampleRate) :
    ((60000 / v.currentBpm) / d) * v.sampleRate / 1000 * (1 - 1 / 8000000)
      ≤ roundDouble (roundFloat (roundFloat
          (roundDouble (roundDouble (roundDouble (60 / v.currentBpm) * 1000) / d)) / 1000)
          * v.sampleRate) ∧
    roundDouble (roundFloat (roundFloat
          (roundDouble (roundDouble (roundDouble (60 / v.currentBpm) * 1000) / d)) / 1000)
          * v.sampleRate)
      ≤ ((60000 / v.currentBpm) / d) * v.sampleRate / 1000 * (1 + 1 / 8000000) := by
  have hb0 : (0 : ℚ) < v.currentBpm := by linarith
  have hd0 : (0 : ℚ) < d := by linarith
  have hsr0 : (0 : ℚ) ≤ v.sampleRate := by linarith
  have c1 : (3 / 50 : ℚ) ≤ 60 / v.currentBpm := by
    rw [le_div_iff₀ hb0]
    linarith
  have h0 : 60 / v.currentBpm * 1 ≤ 60 / v.currentBpm ∧
      60 / v.currentBpm ≤ 60 / v.currentBpm * 1 := ⟨by linarith, by linarith⟩
  have s1 := roundDouble_step h0 c1 (by norm_num) (by norm_num)
  have s2 := scale_bounds (c := 1000) (by norm_num) s1
  have c2 : (60 : ℚ) ≤ 60 / v.currentBpm * 1000 := by linarith
  have s3 := roundDouble_step s2 c2 (by norm_num) (by norm_num)
  have s4 := div_bounds hd0 s3
  have c3 : (15 : ℚ) ≤ 60 / v.currentBpm * 1000 / d := by
    rw [le_div_iff₀ hd0]
    linarith
  have s5 := roundDouble_step s4 c3 (by norm_num) (by norm_num)
  have h := msToSamples_chain v _ _ _ _ 15 s5 c3 (by norm_num) (by norm_num) hsr (by norm_num)
  have e : 60 / v.currentBpm * 1000 / d / 1000 * v.sampleRate
      = ((60000 / v.currentBpm) / d) * v.sampleRate / 1000 := by ring
  rw [e] at h
  have hx : (0 : ℚ) ≤ ((60000 / v.currentBpm) / d) * v.sampleRate / 1000 := by positivity
  have k1 : (1 - 1 / 8000000 : ℚ)
      ≤ 1 * (1 - 1 / 9007199254740992) * (1 - 1 / 9007199254740992)
          * (1 - 1 / 9007199254740992) * (1 - 1 / 16777216) * (1 - 1 / 16777216)
          * (1 - 1 / 9007199254740992) := by norm_num
  have k2 : (1 * (1 + 1 / 9007199254740992) * (1 + 1 / 9007199254740992)
          * (1 + 1 / 9007199254740992) * (1 + 1 / 16777216) * (1 + 1 / 16777216)
          * (1 + 1 / 9007199254740992) : ℚ) ≤ 1 + 1 / 8000000 := by norm_num
  exact ⟨le_trans (mul_le_mul_of_nonneg_left k1 hx) h.1,
    le_trans h.2 (mul_le_mul_of_nonneg_left k2 hx)⟩

/-- The truncation of a value within the relative distance `1 / 8000000` of `X`. -/
lemma truncated_interval {y X : ℚ} (hX : 0 ≤ X)
    (h : X * (1 - 1 / 8000000) ≤ y ∧ y ≤ X * (1 + 1 / 8000000)) :
    0 ≤ truncToInt y ∧ X * (1 - 1 / 8000000) - 1 < ((truncToInt y : Int) : ℚ) ∧
    ((truncToInt y : Int) : ℚ) ≤ X * (1 + 1 / 8000000) ∧
    (1001 / 1000 ≤ X → 1 ≤ truncToInt y) ∧ (X ≤ 999 / 1000 → truncToInt y = 0) ∧
    (X ≤ 1000000000 → truncToInt y < 2 ^ 31) := by
  have hy : 0 ≤ y := le_trans (mul_nonneg hX (by norm_num)) h.1
  obtain ⟨t0, t1, t2⟩ := truncToInt_bounds hy
  refine ⟨t0, by linarith, by linarith, fun hx => ?_, fun hx => ?_, fun hx => ?_⟩
  · have : (0 : ℚ) < ((truncToInt y : Int) : ℚ) := by linarith
    have : 0 < truncToInt y := by exact_mod_cast this
    omega
  · have : ((truncToInt y : Int) : ℚ) < 1 := by linarith
    have : truncToInt y < 1 := by exact_mod_cast this
    omega
  · have : ((truncToInt y : Int) : ℚ) < ((2 ^ 31 : Int) : ℚ) := by
      push_cast
      linarith
    exact_mod_cast this

lemma quantiseDivisor_cases (k : Int) :
    quantiseDivisor k = 1 ∨ quantiseDivisor k = 2 ∨ quantiseDivisor k = 4 := by
  unfold quantiseDivisor
  split_ifs <;> simp

lemma quantiseDivisor_range (k : Int) :
    (1 : ℚ) ≤ ((quantiseDivisor k : Int) : ℚ) ∧ ((quantiseDivisor k : Int) : ℚ) ≤ 4 := by
  rcases quantiseDivisor_cases k with h | h | h <;> rw [h] <;> norm_num

lemma quantiseDivisor_eq (k div : Int)
    (hdiv : (k = 0 → div = 1) ∧ (k = 1 → div = 2) ∧ (k = 2 → div = 4) ∧
      (k ≠ 0 → k ≠ 1 → k ≠ 2 → div = 2)) : quantiseDivisor k = div := by
  unfold quantiseDivisor
  by_cases h0 : k = 0
  · rw [if_pos h0, hdiv.1 h0]
  · by_cases h1 : k = 1
    · rw [if_neg h0, if_pos h1, hdiv.2.1 h1]
    · by_cases h2 : k = 2
      · rw [if_neg h0, if_neg h1, if_pos h2, hdiv.2.2.1 h2]
      · rw [if_neg h0, if_neg h1, if_neg h2, hdiv.2.2.2 h0 h1 h2]

/-- Evaluation of `msToSamples` at 2 ms and 100 Hz: `2 / 1000` rounds to `8589935 / 2 ^ 32` in single
precision, the product with 100 is about 0.2 and truncates to 0. -/
lemma msToSamples_two_at_hundred (v : GrainVoice σ α) (hs : v.sampleRate = 100) :
    v.msToSamples 2 = 0 := by
  have f1 : roundFloat ((2 : ℚ)) = 2 := by
    unfold roundFloat
    exact roundBinary_eval_exact 24 (-126) (2) 1 (-22) 8388608
      (by norm_num [abs_of_pos]) (by norm_num [abs_of_pos]) (by decide) (by norm_num)
  have f2 : roundFloat ((2 : ℚ) / 1000) = 8589935 / 4294967296 := by
    rw [show ((2 : ℚ) / 1000 : ℚ) = 1 / 500 by norm_num]
    unfold roundFloat
    rw [roundBinary_eval 24 (-126) (1 / 500) (-9) (-32) (by norm_num [abs_of_pos])
      (by norm_num [abs_of_pos]) (by decide),
      roundHalfEven_of_gt_half (n := 8589934) (by norm_num) (by norm_num)]
    norm_num
  have d4 : roundDouble ((8589935 / 4294967296 : ℚ) * 100) = 214748375 / 1073741824 := by
    rw [show ((8589935 / 4294967296 : ℚ) * 100 : ℚ) = 214748375 / 1073741824 by norm_num]
    unfold roundDouble
    exact roundBinary_eval_exact 53 (-1022) (214748375 / 1073741824) (-3) (-55) 7205759746048000
      (by norm_num [abs_of_pos]) (by norm_num [abs_of_pos]) (by decide) (by norm_num)
  unfold msToSamples
  rw [hs, f1, f2, d4]
  exact truncToInt_of_floor (by decide) (by norm_num) (by norm_num)

/-- Evaluation of the quantise branch at 120 BPM, sixteenth note and 4 Hz: every intermediate
value is representable, the product is `1 / 2` and truncates to 0. -/
lemma computeDensity_sixteenth_at_four (v : GrainVoice σ α) (p : Params) (hq : p.quantise > 1 / 2)
    (hk : truncToInt p.quantiseDivision = 2) (hb : v.currentBpm = 120)
    (hs : v.sampleRate = 4) : v.computeDensity p = 0 := by
  have hd : ((quantiseDivisor 2 : Int) : ℚ) = 4 := by norm_num [quantiseDivisor]
  have d1 : roundDouble ((60 : ℚ) / 120) = 1 / 2 := by
    rw [show ((60 : ℚ) / 120 : ℚ) = 1 / 2 by norm_num]
    unfold roundDouble
    exact roundBinary_eval_exact 53 (-1022) (1 / 2) (-1) (-53) 4503599627370496
      (by norm_num [abs_of_pos]) (by norm_num [abs_of_pos]) (by decide) (by norm_num)
  have d2 : roundDouble ((1 / 2 : ℚ) * 1000) = 500 := by
    rw [show ((1 / 2 : ℚ) * 1000 : ℚ) = 500 by norm_num]
    unfold roundDouble
    exact roundBinary_eval_exact 53 (-1022) (500) 8 (-44) 8796093022208000
      (by norm_num [abs_of_pos]) (by norm_num [abs_of_pos]) (by decide) (by norm_num)
  have d3 : roundDouble ((500 : ℚ) / 4) = 125 := by
    rw [show ((500 : ℚ) / 4 : ℚ) = 125 by norm_num]
    unfold roundDouble
    exact roundBinary_eval_exact 53 (-1022) (125) 6 (-46) 8796093022208000
      (by norm_num [abs_of_pos]) (by norm_num [abs_of_pos]) (by decide) (by norm_num)
  have f1 : roundFloat ((125 : ℚ)) = 125 := by
    unfold roundFloat
    exact roundBinary_eval_exact 24 (-126) (125) 6 (-17) 16384000
      (by norm_num [abs_of_pos]) (by norm_num [abs_of_pos]) (by decide) (by norm_num)
  have f2 : roundFloat ((125 : ℚ) / 1000) = 1 / 8 := by
    rw [show ((125 : ℚ) / 1000 : ℚ) = 1 / 8 by norm_num]
    unfold roundFloat
    exact roundBinary_eval_exact 24 (-126) (1 / 8) (-3) (-26) 8388608
      (by norm_num [abs_of_pos]) (by norm_num [abs_of_pos]) (by decide) (by norm_num)
  have d4 : roundDouble ((1 / 8 : ℚ) * 4) = 1 / 2 := by
    rw [show ((1 / 8 : ℚ) * 4 : ℚ) = 1 / 2 by norm_num]
    unfold roundDouble
    exact roundBinary_eval_exact 53 (-1022) (1 / 2) (-1) (-53) 4503599627370496
      (by norm_num [abs_of_pos]) (by norm_num [abs_of_pos]) (by decide) (by norm_num)
  rw [computeDensity_quantised v p hq, hk, hb, hd]
  unfold msToSamples
  rw [hs, d1, d2, d3, f1, f2, d4]
  exact truncToInt_of_floor (by decide) (by norm_num) (by norm_num)

/-- Evaluation of the quantise branch at 125 BPM, quarter note and 44100 Hz: `480 / 1000`
rounds down to `16106127 / 2 ^ 25` in single precision, the product with 44100 is about
21167.9995 and truncates to 21167. -/
lemma computeDensity_quarter_at_125 (v : GrainVoice σ α) (p : Params) (hq : p.quantise > 1 / 2)
    (hk : truncToInt p.quantiseDivision = 0) (hb : v.currentBpm = 125)
    (hs : v.sampleRate = 44100) : v.computeDensity p = 21167 := by
  have hd : ((quantiseDivisor 0 : Int) : ℚ) = 1 := by norm_num [quantiseDivisor]
  have d1 : roundDouble ((60 : ℚ) / 125) = 1080863910568919 / 2251799813685248 := by
    rw [show ((60 : ℚ) / 125 : ℚ) = 12 / 25 by norm_num]
    unfold roundDouble
    rw [roundBinary_eval 53 (-1022) (12 / 25) (-2) (-54) (by norm_num [abs_of_pos])
      (by norm_num [abs_of_pos]) (by decide),
      roundHalfEven_of_lt_half (n := 8646911284551352) (by norm_num) (by norm_num)]
    norm_num
  have d2 : roundDouble ((1080863910568919 / 2251799813685248 : ℚ) * 1000) = 480 := by
    rw [show ((1080863910568919 / 2251799813685248 : ℚ) * 1000 : ℚ) = 135107988821114875 / 281474976710656 by norm_num]
    unfold roundDouble
    rw [roundBinary_eval 53 (-1022) (135107988821114875 / 281474976710656) 8 (-44) (by norm_num [abs_of_pos])
      (by norm_num [abs_of_pos]) (by decide),
      roundHalfEven_of_gt_half (n := 8444249301319679) (by norm_num) (by norm_num)]
    norm_num
  have d3 : roundDouble ((480 : ℚ) / 1) = 480 := by
    rw [show ((480 : ℚ) / 1 : ℚ) = 480 by norm_num]
    unfold roundDouble
    exact roundBinary_eval_exact 53 (-1022) (480) 8 (-44) 8444249301319680
      (by norm_num [abs_of_pos]) (by norm_num [abs_of_pos]) (by decide) (by norm_num)
  have f1 : roundFloat ((480 : ℚ)) = 480 := by
    unfold roundFloat
    exact roundBinary_eval_exact 24 (-126) (480) 8 (-15) 15728640
      (by norm_num [abs_of_pos]) (by norm_num [abs_of_pos]) (by decide) (by norm_num)
  have f2 : roundFloat ((480 : ℚ) / 1000) = 16106127 / 33554432 := by
    rw [show ((480 : ℚ) / 1000 : ℚ) = 12 / 25 by norm_num]
    unfold roundFloat
    rw [roundBinary_eval 24 (-126) (12 / 25) (-2) (-25) (by norm_num [abs_of_pos])
      (by norm_num [abs_of_pos]) (by decide),
      roundHalfEven_of_lt_half (n := 16106127) (by norm_num) (by norm_num)]
    norm_num
  have d4 : roundDouble ((16106127 / 33554432 : ℚ) * 44100) = 177570050175 / 8388608 := by
    rw [show ((16106127 / 33554432 : ℚ) * 44100 : ℚ) = 177570050175 / 8388608 by norm_num]
    unfold roundDouble
    exact roundBinary_eval_exact 53 (-1022) (177570050175 / 8388608) 14 (-38) 5818615404134400
      (by norm_num [abs_of_pos]) (by norm_num [abs_of_pos]) (by decide) (by norm_num)
  rw [computeDensity_quantised v p hq, hk, hb, hd]
  unfold msToSamples
  rw [hs, d1, d2, d3, f1, f2, d4]
  exact truncToInt_of_floor (by decide) (by norm_num) (by norm_num)

/-- Evaluation of the quantise branch at 120 BPM, eighth note and 44100 Hz: every
intermediate value is representable and the result is 11025. -/
lemma computeDensity_eighth_at_120 (v : GrainVoice σ α) (p : Params) (hq : p.quantise > 1 / 2)
    (hk : truncToInt p.quantiseDivision = 1) (hb : v.currentBpm = 120)
    (hs : v.sampleRate = 44100) : v.computeDensity p = 11025 := by
  have hd : ((quantiseDivisor 1 : Int) : ℚ) = 2 := by norm_num [quantiseDivisor]
  have d1 : roundDouble ((60 : ℚ) / 120) = 1 / 2 := by
    rw [show ((60 : ℚ) / 120 : ℚ) = 1 / 2 by norm_num]
    unfold roundDouble
    exact roundBinary_eval_exact 53 (-1022) (1 / 2) (-1) (-53) 4503599627370496
      (by norm_num [abs_of_pos]) (by norm_num [abs_of_pos]) (by decide) (by norm_num)
  have d2 : roundDouble ((1 / 2 : ℚ) * 1000) = 500 := by
    rw [show ((1 / 2 : ℚ) * 1000 : ℚ) = 500 by norm_num]
    unfold roundDouble
    exact roundBinary_eval_exact 53 (-1022) (500) 8 (-44) 8796093022208000
      (by norm_num [abs_of_pos]) (by norm_num [abs_of_pos]) (by decide) (by norm_num)
  have d3 : roundDouble ((500 : ℚ) / 2) = 250 := by
    rw [show ((500 : ℚ) / 2 : ℚ) = 250 by norm_num]
    unfold roundDouble
    exact roundBinary_eval_exact 53 (-1022) (250) 7 (-45) 8796093022208000
      (by norm_num [abs_of_pos]) (by norm_num [abs_of_pos]) (by decide) (by norm_num)
  have f1 : roundFloat ((250 : ℚ)) = 250 := by
    unfold roundFloat
    exact roundBinary_eval_exact 24 (-126) (250) 7 (-16) 16384000
      (by norm_num [abs_of_pos]) (by norm_num [abs_of_pos]) (by decide) (by norm_num)
  have f2 : roundFloat ((250 : ℚ) / 1000) = 1 / 4 := by
    rw [show ((250 : ℚ) / 1000 : ℚ) = 1 / 4 by norm_num]
    unfold roundFloat
    exact roundBinary_eval_exact 24 (-126) (1 / 4) (-2) (-25) 8388608
      (by norm_num [abs_of_pos]) (by norm_num [abs_of_pos]) (by decide) (by norm_num)
  have d4 : roundDouble ((1 / 4 : ℚ) * 44100) = 11025 := by
    rw [show ((1 / 4 : ℚ) * 44100 : ℚ) = 11025 by norm_num]
    unfold roundDouble
    exact roundBinary_eval_exact 53 (-1022) (11025) 13 (-39) 6061057848115200
      (by norm_num [abs_of_pos]) (by norm_num [abs_of_pos]) (by decide) (by norm_num)
  rw [computeDensity_quantised v p hq, hk, hb, hd]
  unfold msToSamples
  rw [hs, d1, d2, d3, f1, f2, d4]
  exact truncToInt_of_floor (by decide) (by norm_num) (by norm_num)

end GrainVoice

/-- C12, evaluated on the code: the spawn interval is not clamped.  At a sample rate of
100 Hz the smallest Density value, 2 ms, gives `msToSamples 2 = 0` (the product is about
0.2); with quantise on, 120 BPM and the sixteenth note at a sample rate of 4 Hz give
`int (0.125 * 4) = 0`. -/
theorem GrainVoice.density_zero_at_low_rate :
    (0 : ℚ) < ({ heldVoice with sampleRate := 100 } : GrainVoice ℚ Unit).sampleRate ∧
    ({ heldVoice with sampleRate := 100 } : GrainVoice ℚ Unit).computeDensity
      { fixedDensityParams with density := 2 } = 0 ∧
    ¬ (1 ≤ ({ heldVoice with sampleRate := 100 } : GrainVoice ℚ Unit).computeDensity
      { fixedDensityParams with density := 2 }) ∧
    ({ heldVoice with sampleRate := 4 } : GrainVoice ℚ Unit).computeDensity
      { fixedDensityParams with quantise := 1, quantiseDivision := 2 } = 0 := by
  have h1 : ({ heldVoice with sampleRate := 100 } : GrainVoice ℚ Unit).computeDensity
      { fixedDensityParams with density := 2 } = 0 := by
    rw [GrainVoice.computeDensity_free _ _ (by norm_num [fixedDensityParams])]
    exact GrainVoice.msToSamples_two_at_hundred _ rfl
  refine ⟨by norm_num [heldVoice], h1, by rw [h1]; decide, ?_⟩
  exact GrainVoice.computeDensity_sixteenth_at_four _ _ (by norm_num) (truncToInt_intCast 2)
    rfl rfl

/-- C12 as amended: the spawn interval is `msToSamples` of the Density value (quantise
off) or of `(60000 / BPM) / div` (quantise on), computed in floating point and not
clamped.  For a sample rate between 1 Hz and 1 MHz, and a Density value between 1 ms and
1000 s or a tempo between 1 and 1000 BPM, it lies in the range of `int`, it is at least
1 sample when the number of milliseconds times the sample rate is at least 1001, and it is
0 when that product is at most 999; so it is at least 1 sample for every Density value of
at least 2 ms at a sample rate of at least 1000 Hz. -/
theorem GrainVoice.density_positive_threshold {σ α : Type} (v : GrainVoice σ α) (p : Params)
    (hsr1 : 1 ≤ v.sampleRate) (hsr2 : v.sampleRate ≤ 1000000) :
    (¬ p.quantise > 1 / 2 → 1 ≤ p.density → p.density ≤ 1000000 →
      (0 ≤ v.computeDensity p ∧ v.computeDensity p < 2 ^ 31) ∧
      (1001 ≤ p.density * v.sampleRate → 1 ≤ v.computeDensity p) ∧
      (p.density * v.sampleRate ≤ 999 → v.computeDensity p = 0)) ∧
    (p.quantise > 1 / 2 → 1 ≤ v.currentBpm → v.currentBpm ≤ 1000 →
      (0 ≤ v.computeDensity p ∧ v.computeDensity p < 2 ^ 31) ∧
      (1001 ≤ 60000 / v.currentBpm
          / ((quantiseDivisor (truncToInt p.quantiseDivision) : Int) : ℚ) * v.sampleRate →
        1 ≤ v.computeDensity p) ∧
      (60000 / v.currentBpm
          / ((quantiseDivisor (truncToInt p.quantiseDivision) : Int) : ℚ) * v.sampleRate ≤ 999 →
        v.computeDensity p = 0)) ∧
    (¬ p.quantise > 1 / 2 → 2 ≤ p.density → p.density ≤ 1000000 → 1000 ≤ v.sampleRate →
      1 ≤ v.computeDensity p) := by
  have hfree : ∀ (_ : ¬ p.quantise > 1 / 2) (_ : 1 ≤ p.density) (_ : p.density ≤ 1000000),
      (0 ≤ v.computeDensity p ∧ v.computeDensity p < 2 ^ 31) ∧
      (1001 ≤ p.density * v.sampleRate → 1 ≤ v.computeDensity p) ∧
      (p.density * v.sampleRate ≤ 999 → v.computeDensity p = 0) := by
    intro hq hd1 hd2
    have hX : (0 : ℚ) ≤ p.density * v.sampleRate / 1000 := by positivity
    have hXle : p.density * v.sampleRate / 1000 ≤ 1000000000 := by
      have : p.density * v.sampleRate ≤ 1000000 * 1000000 :=
        mul_le_mul hd2 hsr2 (by linarith) (by norm_num)
      linarith
    have t := GrainVoice.truncated_interval hX
      (GrainVoice.msToSamples_value_bounds v p.density hd1 hsr1)
    rw [GrainVoice.computeDensity_free v p hq]
    exact ⟨⟨t.1, t.2.2.2.2.2 hXle⟩, fun h => t.2.2.2.1 (by linarith),
      fun h => t.2.2.2.2.1 (by linarith)⟩
  refine ⟨hfree, fun hq hb1 hb2 => ?_, fun hq hd1 hd2 hs => ?_⟩
  · obtain ⟨r1, r2⟩ := GrainVoice.quantiseDivisor_range (truncToInt p.quantiseDivision)
    have hb0 : (0 : ℚ) < v.currentBpm := by linarith
    have hX : (0 : ℚ) ≤ 60000 / v.currentBpm
        / ((quantiseDivisor (truncToInt p.quantiseDivision) : Int) : ℚ) * v.sampleRate / 1000 := by
      positivity
    have hms : 60000 / v.currentBpm
        / ((quantiseDivisor (truncToInt p.quantiseDivision) : Int) : ℚ) ≤ 60000 := by
      rw [div_le_iff₀ (by linarith), div_le_iff₀ hb0]
      nlinarith
    have hms0 : (0 : ℚ) ≤ 60000 / v.currentBpm
        / ((quantiseDivisor (truncToInt p.quantiseDivision) : Int) : ℚ) := by positivity
    have hXle : 60000 / v.currentBpm
        / ((quantiseDivisor (truncToInt p.quantiseDivision) : Int) : ℚ) * v.sampleRate / 1000
        ≤ 1000000000 := by
      have : 60000 / v.currentBpm
          / ((quantiseDivisor (truncToInt p.quantiseDivision) : Int) : ℚ) * v.sampleRate
          ≤ 60000 * 1000000 := mul_le_mul hms hsr2 (by linarith) (by norm_num)
      linarith
    have t := GrainVoice.truncated_interval hX
      (GrainVoice.quantised_value_bounds v _ hb1 hb2 r1 r2 hsr1)
    rw [GrainVoice.computeDensity_quantised v p hq]
    exact ⟨⟨t.1, t.2.2.2.2.2 hXle⟩, fun h => t.2.2.2.1 (by linarith),
      fun h => t.2.2.2.2.1 (by linarith)⟩
  · refine (hfree hq (by linarith) hd2).2.1 ?_
    nlinarith

/-- Witness of C12 as amended: Density 100 ms at 1000 Hz, quantise off. -/
theorem GrainVoice.density_positive_threshold_witness :
    ((1 : ℚ) ≤ heldVoice.sampleRate ∧ heldVoice.sampleRate ≤ 1000000) ∧
    ¬ fixedDensityParams.quantise > 1 / 2 ∧
    (2 : ℚ) ≤ fixedDensityParams.density ∧ fixedDensityParams.density ≤ 1000000 ∧
    (1000 : ℚ) ≤ heldVoice.sampleRate ∧
    1 ≤ heldVoice.computeDensity fixedDensityParams :=
  ⟨⟨by norm_num [heldVoice], by norm_num [heldVoice]⟩, by norm_num [fixedDensityParams],
    by norm_num [fixedDensityParams], by norm_num [fixedDensityParams],
    by norm_num [heldVoice],
    (GrainVoice.density_positive_threshold heldVoice fixedDensityParams
      (by norm_num [heldVoice]) (by norm_num [heldVoice])).2.2
      (by norm_num [fixedDensityParams]) (by norm_num [fixedDensityParams])
      (by norm_num [fixedDensityParams]) (by norm_num [heldVoice])⟩

/-- C13, evaluated on the code: at 125 BPM, quarter note and 44100 Hz the spawn interval
is 21167 samples, because `480 / 1000` is rounded down to single precision before the
multiplication; the truncation of the exact value `(((60000 / 125) / 1) / 1000) * 44100`
is 21168, and the exact value is a whole sample above the interval, not less. -/
theorem GrainVoice.quantised_density_below_exact :
    ({ heldVoice with sampleRate := 44100, currentBpm := 125 } : GrainVoice ℚ Unit).computeDensity
      { fixedDensityParams with quantise := 1, quantiseDivision := 0 } = 21167 ∧
    truncToInt ((((60000 / ({ heldVoice with sampleRate := 44100, currentBpm := 125 }
        : GrainVoice ℚ Unit).currentBpm) / ((1 : Int) : ℚ)) / 1000)
      * ({ heldVoice with sampleRate := 44100, currentBpm := 125 }
        : GrainVoice ℚ Unit).sampleRate) = 21168 ∧
    ¬ (((60000 / ({ heldVoice with sampleRate := 44100, currentBpm := 125 }
        : GrainVoice ℚ Unit).currentBpm) / ((1 : Int) : ℚ))
      * ({ heldVoice with sampleRate := 44100, currentBpm := 125 }
        : GrainVoice ℚ Unit).sampleRate / 1000
      < ((({ heldVoice with sampleRate := 44100, currentBpm := 125 }
        : GrainVoice ℚ Unit).computeDensity
          { fixedDensityParams with quantise := 1, quantiseDivision := 0 } : Int) : ℚ) + 1) := by
  have h1 : ({ heldVoice with sampleRate := 44100, currentBpm := 125 }
      : GrainVoice ℚ Unit).computeDensity
      { fixedDensityParams with quantise := 1, quantiseDivision := 0 } = 21167 :=
    GrainVoice.computeDensity_quarter_at_125 _ _ (by norm_num) (truncToInt_intCast 0) rfl rfl
  refine ⟨h1, ?_, ?_⟩
  · have e : ((((60000 : ℚ) / (125 : ℚ)) / ((1 : Int) : ℚ)) / 1000) * 44100
        = ((21168 : Int) : ℚ) := by norm_num
    simp only [heldVoice]
    rw [e, truncToInt_intCast]
  · rw [h1]
    simp only [heldVoice]
    norm_num

/-- C13 as amended: with quantise on, a tempo between 1 and 1000 BPM and a sample rate
between 1 Hz and 1 MHz, the spawn interval is `msToSamples` of the double-precision value
of `((60 / BPM) * 1000) / div`, with `div` 1, 2, 4 for the subdivision index 0, 1, 2 and 2
for any other index.  With `X = ((60000 / BPM) / div) * sr / 1000` the exact value, the
interval is above `X * (1 - 1 / 8000000) - 1` and at most `X * (1 + 1 / 8000000)`; it lies
in the range of `int`, and for `X` up to 8000000 it is less than 2 samples below `X` and
at most 1 sample above. -/
theorem GrainVoice.quantised_density_bounds {σ α : Type} (v : GrainVoice σ α) (p : Params)
    (k div : Int)
    (hq : p.quantise > 1 / 2) (hbpm1 : 1 ≤ v.currentBpm) (hbpm2 : v.currentBpm ≤ 1000)
    (hsr1 : 1 ≤ v.sampleRate) (hsr2 : v.sampleRate ≤ 1000000)
    (hk : truncToInt p.quantiseDivision = k)
    (hdiv : (k = 0 → div = 1) ∧ (k = 1 → div = 2) ∧ (k = 2 → div = 4) ∧
      (k ≠ 0 → k ≠ 1 → k ≠ 2 → div = 2)) :
    v.computeDensity p
      = v.msToSamples
          (roundDouble (roundDouble (roundDouble (60 / v.currentBpm) * 1000) / (div : ℚ))) ∧
    ((60000 / v.currentBpm) / (div : ℚ)) * v.sampleRate / 1000 * (1 - 1 / 8000000) - 1
      < ((v.computeDensity p : Int) : ℚ) ∧
    ((v.computeDensity p : Int) : ℚ)
      ≤ ((60000 / v.currentBpm) / (div : ℚ)) * v.sampleRate / 1000 * (1 + 1 / 8000000) ∧
    (0 ≤ v.computeDensity p ∧ v.computeDensity p < 2 ^ 31) ∧
    (((60000 / v.currentBpm) / (div : ℚ)) * v.sampleRate / 1000 ≤ 8000000 →
      ((60000 / v.currentBpm) / (div : ℚ)) * v.sampleRate / 1000 - 2
        < ((v.computeDensity p : Int) : ℚ) ∧
      ((v.computeDensity p : Int) : ℚ)
        ≤ ((60000 / v.currentBpm) / (div : ℚ)) * v.sampleRate / 1000 + 1) := by
  have hd : quantiseDivisor k = div := GrainVoice.quantiseDivisor_eq k div hdiv
  obtain ⟨r1, r2⟩ := GrainVoice.quantiseDivisor_range k
  rw [hd] at r1 r2
  have hval : v.computeDensity p
      = v.msToSamples
          (roundDouble (roundDouble (roundDouble (60 / v.currentBpm) * 1000) / (div : ℚ))) := by
    rw [GrainVoice.computeDensity_quantised v p hq, hk, hd]
  have hb0 : (0 : ℚ) < v.currentBpm := by linarith
  have hX : (0 : ℚ) ≤ ((60000 / v.currentBpm) / (div : ℚ)) * v.sampleRate / 1000 := by
    positivity
  have hms : (60000 / v.currentBpm) / (div : ℚ) ≤ 60000 := by
    rw [div_le_iff₀ (by linarith), div_le_iff₀ hb0]
    nlinarith
  have hms0 : (0 : ℚ) ≤ (60000 / v.currentBpm) / (div : ℚ) := by positivity
  have hXle : ((60000 / v.currentBpm) / (div : ℚ)) * v.sampleRate / 1000 ≤ 1000000000 := by
    have : ((60000 / v.currentBpm) / (div : ℚ)) * v.sampleRate ≤ 60000 * 1000000 :=
      mul_le_mul hms hsr2 (by linarith) (by norm_num)
    linarith
  have t := GrainVoice.truncated_interval hX
    (GrainVoice.quantised_value_bounds v (div : ℚ) hbpm1 hbpm2 r1 r2 hsr1)
  refine ⟨hval, ?_, ?_, ?_, ?_⟩
  · rw [hval]
    exact t.2.1
  · rw [hval]
    exact t.2.2.1
  · rw [hval]
    exact ⟨t.1, t.2.2.2.2.2 hXle⟩
  · intro h8
    rw [hval]
    have a := t.2.1
    have b := t.2.2.1
    constructor
    · unfold GrainVoice.msToSamples
      linarith
    · unfold GrainVoice.msToSamples
      linarith

/-- Witness of C13 as amended: 120 BPM, eighth note (index 1) and 44100 Hz give 11025
samples, the exact value. -/
theorem GrainVoice.quantised_density_bounds_witness :
    ((1 : ℚ) > 1 / 2 ∧ (1 : ℚ) ≤ 120 ∧ (120 : ℚ) ≤ 1000 ∧ (1 : ℚ) ≤ 44100 ∧
      (44100 : ℚ) ≤ 1000000) ∧
    ({ heldVoice with sampleRate := 44100 } : GrainVoice ℚ Unit).computeDensity
      { fixedDensityParams with quantise := 1, quantiseDivision := 1 } = 11025 ∧
    ((60000 / (120 : ℚ)) / ((2 : Int) : ℚ)) * 44100 / 1000 = 11025 ∧
    (0 ≤ ({ heldVoice with sampleRate := 44100 } : GrainVoice ℚ Unit).computeDensity
        { fixedDensityParams with quantise := 1, quantiseDivision := 1 } ∧
      ({ heldVoice with sampleRate := 44100 } : GrainVoice ℚ Unit).computeDensity
        { fixedDensityParams with quantise := 1, quantiseDivision := 1 } < 2 ^ 31) :=
  ⟨⟨by norm_num, by norm_num, by norm_num, by norm_num, by norm_num⟩,
    GrainVoice.computeDensity_eighth_at_120 _ _ (by norm_num) (truncToInt_intCast 1) rfl rfl,
    by norm_num,
    (GrainVoice.quantised_density_bounds
      ({ heldVoice with sampleRate := 44100 } : GrainVoice ℚ Unit)
      { fixedDensityParams with quantise := 1, quantiseDivision := 1 } 1 2
      (by norm_num) (by norm_num [heldVoice]) (by norm_num [heldVoice]) (by norm_num)
      (by norm_num) (truncToInt_intCast 1) (by decide)).2.2.2.1⟩

/-! ## Onsets of the spawned grains -/

namespace GrainVoice

variable {σ α : Type}

lemma perSample_onsets (sm : SmoothedValueOps σ) (adsr : ADSROps α) (fl : FloatLib)
    (p : Params) (source : AudioBuffer) (v : GrainVoice σ α) (output : AudioBuffer) (i : Int)
    (hsize : 0 < v.delayLine.maxDelaySize) :
    ∃ w out, perSample sm adsr fl p source v output i = some (w, out) ∧ StepsTo adsr v w ∧
      w.spawnOnsets = v.spawnOnsets
        ++ (if v.currentSampleIndex.tmod v.density = 0 then [i + v.currentSampleIndex] else []) := by
  obtain ⟨w, out, h, s⟩ := perSample_spec sm adsr fl p source v output i hsize
  refine ⟨w, out, h, s, ?_⟩
  unfold perSample at h
  by_cases hs : v.currentSampleIndex.tmod v.density = 0
  · simp only [hs, if_true] at h
    simp only [hs, if_true]
    rw [Option.map_eq_some'] at h
    obtain ⟨st, -, hw⟩ := h
    have hw1 := (Prod.mk.inj hw).1
    rw [← hw1]
    simp [spawnOnsets, spawnGrain, Grain.construct]
    split <;> rfl
  · simp only [hs, if_false] at h
    simp only [hs, if_false, List.append_nil]
    rw [Option.map_eq_some'] at h
    obtain ⟨st, -, hw⟩ := h
    have hw1 := (Prod.mk.inj hw).1
    rw [← hw1]
    rfl

end GrainVoice

namespace GrainVoice

variable {σ α : Type}

lemma spawnTimes_map_succ (D : Int) (c i : Int) (n : Nat) :
    (spawnTimes D c (n + 1)).map (fun t => t + t + (i - c))
      = (if c.tmod D = 0 then [i + c] else [])
        ++ (spawnTimes D (c + 1) n).map (fun t => t + t + ((i + 1) - (c + 1))) := by
  have e : (fun t : Int => t + t + ((i + 1) - (c + 1))) = (fun t : Int => t + t + (i - c)) := by
    funext t
    ring
  rw [e]
  simp only [spawnTimes, List.map_append]
  congr 1
  split
  · simp only [List.map_cons, List.map_nil]
    congr 1
    ring
  · rfl

lemma sampleLoop_onsets (sm : SmoothedValueOps σ) (adsr : ADSROps α) (fl : FloatLib)
    (p : Params) (source : AudioBuffer) (count : Nat) (i : Int) (v : GrainVoice σ α)
    (out : AudioBuffer) (hsize : 0 < v.delayLine.maxDelaySize) :
    ∃ w out', sampleLoop sm adsr fl p source count i (v, out) = some (w, out') ∧
      w.spawnOnsets = v.spawnOnsets
        ++ (spawnTimes v.density v.currentSampleIndex count).map
            (fun t => t + t + (i - v.currentSampleIndex)) := by
  induction count generalizing i v out with
  | zero => exact ⟨v, out, rfl, by simp [spawnTimes]⟩
  | succ n ih =>
    obtain ⟨w1, out1, h1, s1, o1⟩ := perSample_onsets sm adsr fl p source v out i hsize
    obtain ⟨w, out', h2, o2⟩ := ih (i + 1) w1 out1 (by rw [s1.size]; exact hsize)
    refine ⟨w, out', ?_, ?_⟩
    · simp only [sampleLoop, h1, Option.some_bind]
      exact h2
    · rw [o2, o1, s1.density, s1.counter, List.append_assoc, spawnTimes_map_succ]

lemma renderNextBlock_onsets (sm : SmoothedValueOps σ) (adsr : ADSROps α) (fl : FloatLib)
    (p : Params) (v : GrainVoice σ α) (outputBuffer source : AudioBuffer)
    (startSample numSamples : Int)
    (hnote : v.noteOn = true) (hsrc : v.sampleBuffer = some source)
    (hsize : 0 < v.delayLine.maxDelaySize) :
    ∃ w out, renderNextBlock sm adsr fl p v outputBuffer startSample numSamples = some (w, out) ∧
      w.spawnOnsets = v.spawnOnsets
        ++ (spawnTimes (v.computeDensity p) v.currentSampleIndex numSamples.toNat).map
            (fun t => t + t + (startSample - v.currentSampleIndex)) := by
  unfold renderNextBlock
  split
  · rename_i hnone
    rw [hsrc] at hnone
    exact absurd hnone (by simp)
  rename_i source' hsome
  rw [if_neg (by rw [hnote]; simp)]
  obtain ⟨w, out, h, o⟩ := sampleLoop_onsets sm adsr fl p source' numSamples.toNat startSample
    { v with
      dryReadHeads := (if source'.numSamples > 0 then
          dryPass source' v.playbackRate v.dryReadHeadsSize outputBuffer.numChannels
            outputBuffer.numSamples
            (v.dryReadHeads, AudioBuffer.cleared outputBuffer.numChannels outputBuffer.numSamples)
        else
          (v.dryReadHeads,
            AudioBuffer.cleared outputBuffer.numChannels outputBuffer.numSamples)).1
      density := v.computeDensity p }
    outputBuffer hsize
  dsimp only
  rw [h]
  exact ⟨_, _, rfl, o⟩

end GrainVoice

/-- C11, evaluated on the code: with a spawn interval of 100 samples, one block of 1000
samples starting at `startSample` 0 on a voice whose counter is 0 spawns its grains at the
counter values 0, 100, ..., 900 and gives them the onsets 0, 200, ..., 1800: the onset is
`i + currentSampleIndex`, the loop index added to the counter, not the counter. -/
theorem GrainVoice.spawn_onsets_are_doubled :
    (GrainVoice.renderNextBlock settledRamp heldEnvelope exactSqrtLib fixedDensityParams
        heldVoice (AudioBuffer.cleared 2 1000) 0 1000).map
      (fun r => (r.1.spawnLog.map Prod.fst, r.1.spawnOnsets))
      = some ([0, 100, 200, 300, 400, 500, 600, 700, 800, 900],
          [0, 200, 400, 600, 800, 1000, 1200, 1400, 1600, 1800]) := by
  obtain ⟨w, out, h, o⟩ := GrainVoice.renderNextBlock_onsets settledRamp heldEnvelope
    exactSqrtLib fixedDensityParams heldVoice (AudioBuffer.cleared 2 1000)
    ⟨1, 4, fun _ _ => 1⟩ 0 1000 rfl rfl (by decide)
  obtain ⟨w', out', h', s⟩ := GrainVoice.renderNextBlock_spec settledRamp heldEnvelope
    exactSqrtLib fixedDensityParams heldVoice (AudioBuffer.cleared 2 1000)
    ⟨1, 4, fun _ _ => 1⟩ 0 1000 rfl rfl (by decide) (fun _ _ => rfl)
  rw [h] at h'
  have hw : w' = w := (Prod.mk.inj (Option.some.inj h')).1.symm
  subst hw
  have hlog := s.log
  have ht : spawnTimes (heldVoice.computeDensity fixedDensityParams) heldVoice.currentSampleIndex
      (1000 : Int).toNat = [0, 100, 200, 300, 400, 500, 600, 700, 800, 900] := by
    rw [heldVoice_density]
    have e : heldVoice.currentSampleIndex = 0 := rfl
    have e1 : (1000 : Int).toNat = 1000 := rfl
    rw [e, e1, spawnTimes_zero_eq 100 (by decide) 1000]
    decide
  rw [ht] at hlog o
  rw [h]
  simp only [Option.map_some', hlog, o]
  rfl

/-- C16, evaluated on the code: on a voice whose note is on and whose source buffer has 0
samples, `renderNextBlock` does not return early: rendering one sample takes the remainder
`currentSampleIndex % 0` for the delay input, calls `grains.add` once and advances the
sample counter from 0 to 1.  With a null source pointer the call returns the voice and the
output buffer unchanged. -/
theorem GrainVoice.empty_source_still_renders :
    (({ heldVoice with sampleBuffer := some ⟨1, 0, fun _ _ => 0⟩ } :
        GrainVoice ℚ Unit).sampleBuffer.map (fun b => b.numSamples)) = some 0 ∧
    (GrainVoice.renderNextBlock settledRamp heldEnvelope exactSqrtLib fixedDensityParams
        ({ heldVoice with sampleBuffer := some ⟨1, 0, fun _ _ => 0⟩ } : GrainVoice ℚ Unit)
        (AudioBuffer.cleared 2 1) 0 1).map
      (fun r => (r.1.currentSampleIndex, r.1.spawnLog.map Prod.fst))
      = some (1, [0]) ∧
    GrainVoice.renderNextBlock settledRamp heldEnvelope exactSqrtLib fixedDensityParams
        ({ heldVoice with sampleBuffer := none } : GrainVoice ℚ Unit)
        (AudioBuffer.cleared 2 1) 0 1
      = some (({ heldVoice with sampleBuffer := none } : GrainVoice ℚ Unit),
          AudioBuffer.cleared 2 1) := by
  refine ⟨rfl, ?_, rfl⟩
  obtain ⟨w, out, h, s⟩ := GrainVoice.renderNextBlock_spec settledRamp heldEnvelope
    exactSqrtLib fixedDensityParams
    ({ heldVoice with sampleBuffer := some ⟨1, 0, fun _ _ => 0⟩ } : GrainVoice ℚ Unit)
    (AudioBuffer.cleared 2 1) ⟨1, 0, fun _ _ => 0⟩ 0 1 rfl rfl (by decide) (fun _ _ => rfl)
  have hd : ({ heldVoice with sampleBuffer := some ⟨1, 0, fun _ _ => 0⟩ } :
      GrainVoice ℚ Unit).computeDensity fixedDensityParams = ((100 : Nat) : Int) := by
    rw [← heldVoice_density]
    exact GrainVoice.computeDensity_congr heldVoice _ fixedDensityParams rfl rfl
  have hlog := s.log
  rw [hd] at hlog
  have ht : spawnTimes ((100 : Nat) : Int)
      ({ heldVoice with sampleBuffer := some ⟨1, 0, fun _ _ => 0⟩ } :
        GrainVoice ℚ Unit).currentSampleIndex (1 : Int).toNat = [0] := by
    decide
  rw [ht] at hlog
  rw [h]
  simp only [Option.map_some', s.counter, hlog]
  rfl

/-! ## The final mix -/

lemma rampAfter_add {σ : Type} (sm : SmoothedValueOps σ) (s : σ) (a b : Nat) :
    rampAfter sm (rampAfter sm s a) b = rampAfter sm s (a + b) := by
  induction b with
  | zero => rfl
  | succ b ih =>
    show (sm.getNextValue (rampAfter sm (rampAfter sm s a) b)).2 = _
    rw [ih]
    rfl

lemma rampValue_add {σ : Type} (sm : SmoothedValueOps σ) (s : σ) (a b : Nat) :
    rampValue sm (rampAfter sm s a) b = rampValue sm s (a + b) := by
  unfold rampValue
  rw [rampAfter_add]

lemma jlimitF_of_range (lo hi v : ℚ) (h : lo ≤ v ∧ v ≤ hi) : jlimitF lo hi v = v := by
  unfold jlimitF
  rw [if_neg (by linarith [h.1]), if_neg (by linarith [h.2])]

namespace GrainVoice

variable {σ α : Type}

lemma mixPass_eq (sm : SmoothedValueOps σ) (dry : AudioBuffer) (start n : Int)
    (st : σ × AudioBuffer) :
    mixPass sm dry start n st
      = (List.range st.2.numChannels.toNat).foldl
          (fun st (ch : Nat) => mixRow sm dry start n.toNat ch st) st := rfl

lemma mixRow_spec (sm : SmoothedValueOps σ) (dry : AudioBuffer) (start : Int) (c : Nat)
    (n : Nat) (s : σ) (buf : AudioBuffer) :
    (mixRow sm dry start n c (s, buf)).1 = rampAfter sm s n ∧
    (mixRow sm dry start n c (s, buf)).2.numChannels = buf.numChannels ∧
    ∀ c' i, (mixRow sm dry start n c (s, buf)).2.data c' i
      = if c' = (c : Int) ∧ start ≤ i ∧ i < start + (n : Int) then
          mixedValue (dry.data c' i) (buf.data c' i) (rampValue sm s (i - start).toNat)
        else buf.data c' i := by
  induction n with
  | zero =>
    refine ⟨rfl, rfl, fun c' i => ?_⟩
    have : ¬ (c' = (c : Int) ∧ start ≤ i ∧ i < start + ((0 : Nat) : Int)) := by
      push_cast
      omega
    rw [if_neg this]
    rfl
  | succ n ih =>
    obtain ⟨ih1, ih2, ih3⟩ := ih
    have hstep : mixRow sm dry start (n + 1) c (s, buf)
        = mixSample sm dry (c : Int) (mixRow sm dry start n c (s, buf)) (start + (n : Int)) := by
      unfold mixRow
      rw [List.range_succ, List.foldl_append]
      rfl
    rw [hstep]
    refine ⟨?_, ?_, fun c' i => ?_⟩
    · show (sm.getNextValue (mixRow sm dry start n c (s, buf)).1).2 = _
      rw [ih1]
      rfl
    · show (mixRow sm dry start n c (s, buf)).2.numChannels = _
      exact ih2
    · show (if c' = (c : Int) ∧ i = start + (n : Int) then
          jlimitF (-1) 1 (dry.getSample (c : Int) (start + (n : Int))
              * (1 - (sm.getNextValue (mixRow sm dry start n c (s, buf)).1).1)
            + (mixRow sm dry start n c (s, buf)).2.getSample (c : Int) (start + (n : Int))
              * (sm.getNextValue (mixRow sm dry start n c (s, buf)).1).1)
        else (mixRow sm dry start n c (s, buf)).2.data c' i) = _
      rw [ih1]
      by_cases hw : c' = (c : Int) ∧ i = start + (n : Int)
      · obtain ⟨hc, hi⟩ := hw
        subst hc hi
        have hold : ¬ (((c : Int) = (c : Int)) ∧ start ≤ start + (n : Int)
            ∧ start + (n : Int) < start + (n : Int)) := by omega
        have hnew : ((c : Int) = (c : Int)) ∧ start ≤ start + (n : Int)
            ∧ start + (n : Int) < start + ((n + 1 : Nat) : Int) := by
          push_cast
          omega
        have hk : (start + (n : Int) - start).toNat = n := by
          have : start + (n : Int) - start = (n : Int) := by ring
          rw [this]
          exact Int.toNat_natCast n
        rw [if_pos ⟨rfl, rfl⟩, if_pos hnew, hk]
        show jlimitF (-1) 1 _ = mixedValue _ _ _
        unfold mixedValue AudioBuffer.getSample
        rw [ih3, if_neg hold]
        rfl
      · rw [if_neg hw, ih3]
        by_cases hin : c' = (c : Int) ∧ start ≤ i ∧ i < start + (n : Int)
        · have hin' : c' = (c : Int) ∧ start ≤ i ∧ i < start + ((n + 1 : Nat) : Int) := by
            push_cast
            omega
          rw [if_pos hin, if_pos hin']
        · have hin' : ¬ (c' = (c : Int) ∧ start ≤ i ∧ i < start + ((n + 1 : Nat) : Int)) := by
            push_cast
            intro hh
            apply hw
            refine ⟨hh.1, ?_⟩
            by_contra hne
            apply hin
            exact ⟨hh.1, hh.2.1, by omega⟩
          rw [if_neg hin, if_neg hin']

end GrainVoice

namespace GrainVoice

variable {σ α : Type}

lemma mixChannels_spec (sm : SmoothedValueOps σ) (dry : AudioBuffer) (start : Int) (n : Nat)
    (C : Nat) (s : σ) (buf : AudioBuffer) :
    ((List.range C).foldl (fun st (ch : Nat) => mixRow sm dry start n ch st) (s, buf)).1
      = rampAfter sm s (C * n) ∧
    ((List.range C).foldl (fun st (ch : Nat) => mixRow sm dry start n ch st)
      (s, buf)).2.numChannels = buf.numChannels ∧
    ∀ c' i, ((List.range C).foldl (fun st (ch : Nat) => mixRow sm dry start n ch st)
        (s, buf)).2.data c' i
      = if 0 ≤ c' ∧ c' < (C : Int) ∧ start ≤ i ∧ i < start + (n : Int) then
          mixedValue (dry.data c' i) (buf.data c' i)
            (rampValue sm s (c'.toNat * n + (i - start).toNat))
        else buf.data c' i := by
  induction C with
  | zero =>
    refine ⟨by simp [rampAfter], rfl, fun c' i => ?_⟩
    have : ¬ (0 ≤ c' ∧ c' < ((0 : Nat) : Int) ∧ start ≤ i ∧ i < start + (n : Int)) := by
      push_cast
      omega
    rw [if_neg this]
    rfl
  | succ C ih =>
    obtain ⟨ih1, ih2, ih3⟩ := ih
    rw [List.range_succ, List.foldl_append]
    simp only [List.foldl_cons, List.foldl_nil]
    obtain ⟨r1, r2, r3⟩ := mixRow_spec sm dry start C n
      ((List.range C).foldl (fun st (ch : Nat) => mixRow sm dry start n ch st) (s, buf)).1
      ((List.range C).foldl (fun st (ch : Nat) => mixRow sm dry start n ch st) (s, buf)).2
    refine ⟨?_, ?_, fun c' i => ?_⟩
    · rw [r1, ih1, rampAfter_add]
      congr 1
      ring
    · rw [r2, ih2]
    · rw [r3, ih1]
      by_cases hw : c' = (C : Int) ∧ start ≤ i ∧ i < start + (n : Int)
      · obtain ⟨hc, hi⟩ := hw
        subst hc
        have hold : ¬ (0 ≤ (C : Int) ∧ (C : Int) < (C : Int) ∧ start ≤ i
            ∧ i < start + (n : Int)) := by omega
        have hnew : 0 ≤ (C : Int) ∧ (C : Int) < ((C + 1 : Nat) : Int) ∧ start ≤ i
            ∧ i < start + (n : Int) := by
          push_cast
          omega
        rw [if_pos ⟨rfl, hi⟩, if_pos hnew, ih3, if_neg hold, rampValue_add, Int.toNat_natCast]
      · rw [if_neg hw, ih3]
        by_cases hin : 0 ≤ c' ∧ c' < (C : Int) ∧ start ≤ i ∧ i < start + (n : Int)
        · have hin' : 0 ≤ c' ∧ c' < ((C + 1 : Nat) : Int) ∧ start ≤ i
              ∧ i < start + (n : Int) := by
            push_cast
            omega
          rw [if_pos hin, if_pos hin']
        · have hin' : ¬ (0 ≤ c' ∧ c' < ((C + 1 : Nat) : Int) ∧ start ≤ i
              ∧ i < start + (n : Int)) := by
            push_cast
            intro hh
            by_cases hcC : c' = (C : Int)
            · exact hw ⟨hcC, hh.2.2.1, hh.2.2.2⟩
            · exact hin ⟨hh.1, by omega, hh.2.2.1, hh.2.2.2⟩
          rw [if_neg hin, if_neg hin']

lemma mixPass_data (sm : SmoothedValueOps σ) (dry wet : AudioBuffer) (start n : Int) (s : σ)
    (c i : Int) (hc : 0 ≤ c ∧ c < wet.numChannels) (hi : start ≤ i ∧ i < start + n) :
    (mixPass sm dry start n (s, wet)).2.data c i
      = mixedValue (dry.data c i) (wet.data c i)
          (rampValue sm s (c.toNat * n.toNat + (i - start).toNat)) := by
  rw [mixPass_eq]
  have h := (mixChannels_spec sm dry start n.toNat wet.numChannels.toNat s wet).2.2 c i
  have hn : ((n.toNat : Nat) : Int) = n := Int.toNat_of_nonneg (by omega)
  have hC : ((wet.numChannels.toNat : Nat) : Int) = wet.numChannels :=
    Int.toNat_of_nonneg (by omega)
  have hcond : 0 ≤ c ∧ c < ((wet.numChannels.toNat : Nat) : Int) ∧ start ≤ i
      ∧ i < start + ((n.toNat : Nat) : Int) := by
    rw [hn, hC]
    exact ⟨hc.1, hc.2, hi.1, hi.2⟩
  rw [if_pos hcond] at h
  exact h

end GrainVoice

/-! ## The output buffer keeps its channels through the per-sample loop -/

lemma foldl_numChannels {β γ : Type} (f : β × AudioBuffer → γ → β × AudioBuffer)
    (hf : ∀ st c, (f st c).2.numChannels = st.2.numChannels) (l : List γ)
    (st : β × AudioBuffer) : (l.foldl f st).2.numChannels = st.2.numChannels := by
  induction l generalizing st with
  | nil => rfl
  | cons x xs ih =>
    show (xs.foldl f (f st x)).2.numChannels = _
    rw [ih, hf]

namespace Grain

variable {σ : Type}

lemma renderChannel_numChannels (sm : SmoothedValueOps σ) (fl : FloatLib) (g : Grain σ)
    (sample : ℚ) (t sampleIndex envelope activity : Int) (st : σ × AudioBuffer) :
    (g.renderChannel sm fl sample t sampleIndex envelope activity st).2.numChannels
      = st.2.numChannels := by
  unfold renderChannel
  split <;> rfl

lemma sampleProcess_numChannels (sm : SmoothedValueOps σ) (fl : FloatLib) (g : Grain σ)
    (output source : AudioBuffer) (time sampleIndex envelope activity : Int) :
    (g.sampleProcess sm fl output source time sampleIndex envelope activity).2.numChannels
      = output.numChannels := by
  unfold sampleProcess
  by_cases hc : time - g.onset < 0 ∨ time - g.onset ≥ g.length
  · simp only [hc, if_true]
  · simp only [hc, if_false]
    exact foldl_numChannels _ (fun st c => renderChannel_numChannels sm fl g _ _ _ _ _ st) _ _

lemma delayProcess_numChannels (sm : SmoothedValueOps σ) (fl : FloatLib) (g : Grain σ)
    (output : AudioBuffer) (source : DelayLine) (time sampleIndex envelope activity : Int)
    (r : Grain σ × AudioBuffer)
    (h : g.delayProcess sm fl output source time sampleIndex envelope activity = some r) :
    r.2.numChannels = output.numChannels := by
  unfold delayProcess at h
  by_cases hc : time - g.onset < 0 ∨ time - g.onset ≥ g.length
  · simp only [hc, if_true] at h
    rw [← Option.some.inj h]
  · simp only [hc, if_false] at h
    rw [Option.map_eq_some'] at h
    obtain ⟨q, -, hr⟩ := h
    rw [← hr]
    exact foldl_numChannels _ (fun st c => renderChannel_numChannels sm fl g _ _ _ _ _ st) _ _

end Grain

namespace GrainVoice

variable {σ α : Type}

lemma renderGrainAt_numChannels (sm : SmoothedValueOps σ) (fl : FloatLib)
    (mode envelope activity csi i : Int) (line : DelayLine) (source : AudioBuffer) (g : Nat)
    (st st' : RenderState σ)
    (h : renderGrainAt sm fl mode envelope activity csi i line source g st = some st') :
    st'.output.numChannels = st.output.numChannels := by
  unfold renderGrainAt at h
  rw [Option.map_eq_some'] at h
  obtain ⟨r, hr, hst⟩ := h
  rw [← hst]
  show r.1.numChannels = _
  by_cases hm : mode = 0
  · simp only [hm, if_true] at hr
    rw [Option.bind_eq_some] at hr
    obtain ⟨d, hd, hr2⟩ := hr
    have hdn := Grain.delayProcess_numChannels sm fl _ _ _ _ _ _ _ d hd
    by_cases hw : csi - ((st.grains.get? g).getD (Grain.mkDefault sm)).getOnset ≥ 0 ∧
        csi - ((st.grains.get? g).getD (Grain.mkDefault sm)).getOnset
          < ((st.grains.get? g).getD (Grain.mkDefault sm)).getLength
    · simp only [hw, and_self, if_true] at hr2
      rw [Option.map_eq_some'] at hr2
      obtain ⟨q, -, hq⟩ := hr2
      rw [← hq]
      exact hdn
    · simp only [hw, if_false] at hr2
      rw [← Option.some.inj hr2]
      exact hdn
  · simp only [hm, if_false] at hr
    rw [← Option.some.inj hr]
    exact Grain.sampleProcess_numChannels sm fl _ _ _ _ _ _ _

lemma renderGrains_numChannels (sm : SmoothedValueOps σ) (fl : FloatLib)
    (mode envelope activity csi i : Int) (line : DelayLine) (source : AudioBuffer)
    (count : Nat) (st st' : RenderState σ)
    (h : renderGrains sm fl mode envelope activity csi i line source count st = some st') :
    st'.output.numChannels = st.output.numChannels := by
  induction count generalizing st with
  | zero =>
    rw [← Option.some.inj h]
  | succ n ih =>
    simp only [renderGrains] at h
    rw [Option.bind_eq_some] at h
    obtain ⟨st1, h1, h2⟩ := h
    rw [ih st1 h2, renderGrainAt_numChannels sm fl _ _ _ _ _ _ _ _ _ _ h1]

lemma perSample_numChannels (sm : SmoothedValueOps σ) (adsr : ADSROps α) (fl : FloatLib)
    (p : Params) (source : AudioBuffer) (v w : GrainVoice σ α) (output out : AudioBuffer)
    (i : Int) (h : perSample sm adsr fl p source v output i = some (w, out)) :
    out.numChannels = output.numChannels := by
  unfold perSample at h
  dsimp only at h
  rw [Option.map_eq_some'] at h
  obtain ⟨st, hst, hw⟩ := h
  rw [← (Prod.mk.inj hw).2]
  exact renderGrains_numChannels sm fl _ _ _ _ _ _ _ _ _ _ hst

lemma sampleLoop_numChannels (sm : SmoothedValueOps σ) (adsr : ADSROps α) (fl : FloatLib)
    (p : Params) (source : AudioBuffer) (count : Nat) (i : Int) (v w : GrainVoice σ α)
    (output out : AudioBuffer)
    (h : sampleLoop sm adsr fl p source count i (v, output) = some (w, out)) :
    out.numChannels = output.numChannels := by
  induction count generalizing i v output with
  | zero =>
    rw [← (Prod.mk.inj (Option.some.inj h)).2]
  | succ n ih =>
    simp only [sampleLoop] at h
    rw [Option.bind_eq_some] at h
    obtain ⟨r, h1, h2⟩ := h
    rw [ih (i + 1) r.1 r.2 h2, perSample_numChannels sm adsr fl p source v r.1 output r.2 i h1]

end GrainVoice

/-- C15, evaluated on the code: right after the constructor (ramp of `⌊0.1 * 44100⌋ = 4410`
steps, value 0) the Mix parameter is set to 1; the first sample of the final mix for a dry
sample 0 and a wet sample 1/2 is `0 * (1 - 1/4410) + 1/2 * (1/4410) = 1/8820`, not the wet
sample 1/2: the weight is the next value of the ramp, not the parameter. -/
theorem GrainVoice.mix_first_sample_is_ramped :
    rampValue linearRamp
      (linearRamp.setTargetValue
        (linearRamp.setCurrentAndTargetValue (linearRamp.reset linearRamp.fresh 44100 (1 / 10)) 0)
        1) 0 = 1 / 4410 ∧
    (GrainVoice.mixPass linearRamp (AudioBuffer.cleared 1 1) 0 1
      (linearRamp.setTargetValue
        (linearRamp.setCurrentAndTargetValue (linearRamp.reset linearRamp.fresh 44100 (1 / 10)) 0)
        1, ⟨1, 1, fun _ _ => 1 / 2⟩)).2.data 0 0 = 1 / 8820 ∧
    ¬ ((GrainVoice.mixPass linearRamp (AudioBuffer.cleared 1 1) 0 1
      (linearRamp.setTargetValue
        (linearRamp.setCurrentAndTargetValue (linearRamp.reset linearRamp.fresh 44100 (1 / 10)) 0)
        1, ⟨1, 1, fun _ _ => 1 / 2⟩)).2.data 0 0
      = (⟨1, 1, fun _ _ => 1 / 2⟩ : AudioBuffer).data 0 0) := by
  have hfloor : ⌊(1 / 10 : ℚ) * 44100⌋ = 4410 := by
    norm_num [Int.floor_eq_iff]
  have hs : linearRamp.setTargetValue
      (linearRamp.setCurrentAndTargetValue (linearRamp.reset linearRamp.fresh 44100 (1 / 10)) 0) 1
      = ⟨0, 1, 1 / 4410, 4410, 4410⟩ := by
    simp only [linearRamp, hfloor]
    norm_num
  have hv : rampValue linearRamp (⟨0, 1, 1 / 4410, 4410, 4410⟩ : LinearRamp) 0 = 1 / 4410 := by
    simp [rampValue, rampAfter, linearRamp]
  have hd : (GrainVoice.mixPass linearRamp (AudioBuffer.cleared 1 1) 0 1
      ((⟨0, 1, 1 / 4410, 4410, 4410⟩ : LinearRamp), ⟨1, 1, fun _ _ => 1 / 2⟩)).2.data 0 0
      = 1 / 8820 := by
    rw [GrainVoice.mixPass_data linearRamp _ _ 0 1 _ 0 0 (by decide) (by decide)]
    have e : (0 : Int).toNat * (1 : Int).toNat + ((0 : Int) - 0).toNat = 0 := by decide
    rw [e, hv]
    norm_num [mixedValue, jlimitF, AudioBuffer.cleared]
  rw [hs]
  refine ⟨hv, hd, ?_⟩
  rw [hd]
  norm_num

/-- C15 as amended: in the final mix every output sample at a channel of the buffer and an
index in `[startSample, startSample + numSamples)` is `dry * (1 - w) + wet * w` clamped to
`[-1, 1]`, where `w` is the value the `smoothedMix` ramp returns for that sample after
`setTargetValue (Mix)`; when the ramp has settled on the Mix value `m` (every
`getNextValue` returns `m`) the sample is `dry * (1 - m) + wet * m` clamped, which is the
dry sample for `m = 0` and the wet sample for `m = 1` when they lie in `[-1, 1]`. -/
theorem GrainVoice.mix_blend {σ : Type} (sm : SmoothedValueOps σ) (dry wet : AudioBuffer)
    (s0 : σ) (m : ℚ) (startSample numSamples ch i : Int)
    (hch : 0 ≤ ch ∧ ch < wet.numChannels)
    (hi : startSample ≤ i ∧ i < startSample + numSamples) :
    (GrainVoice.mixPass sm dry startSample numSamples (sm.setTargetValue s0 m, wet)).2.data ch i
      = jlimitF (-1) 1
          (dry.data ch i * (1 - rampValue sm (sm.setTargetValue s0 m)
              (ch.toNat * numSamples.toNat + (i - startSample).toNat))
            + wet.data ch i * rampValue sm (sm.setTargetValue s0 m)
              (ch.toNat * numSamples.toNat + (i - startSample).toNat)) ∧
    ((∀ j, rampValue sm (sm.setTargetValue s0 m) j = m) →
      (GrainVoice.mixPass sm dry startSample numSamples (sm.setTargetValue s0 m, wet)).2.data ch i
        = jlimitF (-1) 1 (dry.data ch i * (1 - m) + wet.data ch i * m) ∧
      (m = 0 → -1 ≤ dry.data ch i ∧ dry.data ch i ≤ 1 →
        (GrainVoice.mixPass sm dry startSample numSamples
          (sm.setTargetValue s0 m, wet)).2.data ch i = dry.data ch i) ∧
      (m = 1 → -1 ≤ wet.data ch i ∧ wet.data ch i ≤ 1 →
        (GrainVoice.mixPass sm dry startSample numSamples
          (sm.setTargetValue s0 m, wet)).2.data ch i = wet.data ch i)) := by
  have h := GrainVoice.mixPass_data sm dry wet startSample numSamples (sm.setTargetValue s0 m)
    ch i hch hi
  refine ⟨h, fun hset => ?_⟩
  rw [h, hset]
  refine ⟨rfl, fun hm hr => ?_, fun hm hr => ?_⟩
  · subst hm
    unfold mixedValue
    rw [jlimitF_of_range _ _ _ (by constructor <;> linarith [hr.1, hr.2])]
    ring
  · subst hm
    unfold mixedValue
    rw [jlimitF_of_range _ _ _ (by constructor <;> linarith [hr.1, hr.2])]
    ring

lemma settledRamp_rampValue (s : ℚ) (j : Nat) : rampValue settledRamp s j = s := by
  have h : ∀ k, rampAfter settledRamp s k = s := by
    intro k
    induction k with
    | zero => rfl
    | succ k ih =>
      show (settledRamp.getNextValue (rampAfter settledRamp s k)).2 = s
      rw [ih]
      rfl
  unfold rampValue
  rw [h]
  rfl

/-- Witness of C15 as amended: a settled ramp with Mix 1, dry sample 0 and wet sample 1/2:
the output sample is the wet sample. -/
theorem GrainVoice.mix_blend_witness :
    ((0 : Int) ≤ 0 ∧ (0 : Int) < 1) ∧ ((0 : Int) ≤ 0 ∧ (0 : Int) < 0 + 1) ∧
    (GrainVoice.mixPass settledRamp (AudioBuffer.cleared 1 1) 0 1
      (settledRamp.setTargetValue 0 1, ⟨1, 1, fun _ _ => 1 / 2⟩)).2.data 0 0 = 1 / 2 :=
  ⟨by decide, by decide,
    ((GrainVoice.mix_blend settledRamp (AudioBuffer.cleared 1 1) ⟨1, 1, fun _ _ => 1 / 2⟩ 0 1
      0 1 0 0 (by decide) (by decide)).2 (fun j => settledRamp_rampValue 1 j)).2.2 rfl
      (by norm_num)⟩

/-! ## Claims on the configuration of the delay line -/

/-- C21: `setFeedback g` makes the feedback gain `g` when `0 < g ≤ 1` and leaves it as it
was for every other `g`; in both cases the buffer, the heads and the capacity are
unchanged. -/
theorem DelayLine.setFeedback_accepts_unit_range (d : DelayLine) (g : ℚ) :
    (0 < g ∧ g ≤ 1 → (d.setFeedback g).feedbackAmt = g) ∧
    (¬ (0 < g ∧ g ≤ 1) → (d.setFeedback g).feedbackAmt = d.feedbackAmt) ∧
    ((d.setFeedback g).feedbackAmt ≠ d.feedbackAmt → 0 < g ∧ g ≤ 1) ∧
    (d.setFeedback g).delayBuffer = d.delayBuffer ∧
    (d.setFeedback g).writeHeadPosition = d.writeHeadPosition ∧
    (d.setFeedback g).readHeadPosition = d.readHeadPosition ∧
    (d.setFeedback g).maxDelaySize = d.maxDelaySize ∧
    (d.setFeedback g).delayTimeSamples = d.delayTimeSamples := by
  by_cases h : 0 < g ∧ g ≤ 1
  · have e : d.setFeedback g = { d with feedbackAmt := g } := by
      unfold DelayLine.setFeedback
      rw [if_pos h]
    rw [e]
    exact ⟨fun _ => rfl, fun hn => absurd h hn, fun _ => h, rfl, rfl, rfl, rfl, rfl⟩
  · have e : d.setFeedback g = d := by
      unfold DelayLine.setFeedback
      rw [if_neg h]
    rw [e]
    exact ⟨fun hp => absurd hp h, fun _ => rfl, fun hne => absurd rfl hne, rfl, rfl, rfl, rfl, rfl⟩

/-- Witness of C21: gain 1/2 is accepted, gains 0, -1 and 3/2 leave the gain 1/4. -/
theorem DelayLine.setFeedback_accepts_unit_range_witness :
    ((0 : ℚ) < 1 / 2 ∧ (1 / 2 : ℚ) ≤ 1) ∧
    ((⟨fun _ => 0, 4, 0, 0, 0, 1 / 4⟩ : DelayLine).setFeedback (1 / 2)).feedbackAmt = 1 / 2 ∧
    ((⟨fun _ => 0, 4, 0, 0, 0, 1 / 4⟩ : DelayLine).setFeedback 0).feedbackAmt = 1 / 4 ∧
    ((⟨fun _ => 0, 4, 0, 0, 0, 1 / 4⟩ : DelayLine).setFeedback (-1)).feedbackAmt = 1 / 4 ∧
    ((⟨fun _ => 0, 4, 0, 0, 0, 1 / 4⟩ : DelayLine).setFeedback (3 / 2)).feedbackAmt = 1 / 4 :=
  ⟨by norm_num,
    (DelayLine.setFeedback_accepts_unit_range ⟨fun _ => 0, 4, 0, 0, 0, 1 / 4⟩ (1 / 2)).1
      (by norm_num),
    (DelayLine.setFeedback_accepts_unit_range ⟨fun _ => 0, 4, 0, 0, 0, 1 / 4⟩ 0).2.1
      (by norm_num),
    (DelayLine.setFeedback_accepts_unit_range ⟨fun _ => 0, 4, 0, 0, 0, 1 / 4⟩ (-1)).2.1
      (by norm_num),
    (DelayLine.setFeedback_accepts_unit_range ⟨fun _ => 0, 4, 0, 0, 0, 1 / 4⟩ (3 / 2)).2.1
      (by norm_num)⟩

/-- C22, evaluated on the code: on a line of capacity 4 whose heads two calls of `process`
have moved to 2, `setMaxSize 8` makes the capacity 8 and leaves the write head and the read
head at 2; they are not reset to 0. -/
theorem DelayLine.setMaxSize_keeps_advanced_heads :
    (((⟨fun _ => 0, 4, 0, 0, 0, 0⟩ : DelayLine).process 1).2.process 1).2.writeHeadPosition = 2 ∧
    (((⟨fun _ => 0, 4, 0, 0, 0, 0⟩ : DelayLine).process 1).2.process 1).2.readHeadPosition = 2 ∧
    ((((⟨fun _ => 0, 4, 0, 0, 0, 0⟩ : DelayLine).process 1).2.process 1).2.setMaxSize 8).map
      (fun d => (d.maxDelaySize, d.writeHeadPosition, d.readHeadPosition)) = some (8, 2, 2) := by
  have hw : (((⟨fun _ => 0, 4, 0, 0, 0, 0⟩ : DelayLine).process 1).2.process 1).2.writeHeadPosition
      = 2 := by decide
  have hr : (((⟨fun _ => 0, 4, 0, 0, 0, 0⟩ : DelayLine).process 1).2.process 1).2.readHeadPosition
      = 2 := by
    have h1 : ((⟨fun _ => 0, 4, 0, 0, 0, 0⟩ : DelayLine).process 1).2.readHeadPosition = 1 := by
      rw [DelayLine.process_readHead _ _ (by decide) (by norm_num)]
      show floorMod ((0 : ℚ) + 1) ((4 : Int) : ℚ) = 1
      rw [floorMod_of_lt (by norm_num) (by norm_num)]
      norm_num
    rw [DelayLine.process_readHead _ _ (by decide) (by rw [h1]; norm_num), h1]
    show floorMod ((1 : ℚ) + 1) ((4 : Int) : ℚ) = 2
    rw [floorMod_of_lt (by norm_num) (by norm_num)]
    norm_num
  refine ⟨hw, hr, ?_⟩
  unfold DelayLine.setMaxSize
  rw [if_neg (by decide)]
  simp only [Option.map_some', hw, hr]

/-- C22 as amended: `setMaxSize size` with `size ≥ 0` returns; the capacity, which is the
length of the buffer, is `size`; the cells below the previous length keep their content and
the new cells are 0; the write head, the read head and the feedback gain are left as they
were (0 when the line has not been used). -/
theorem DelayLine.setMaxSize_resizes (d : DelayLine) (size : Int) (hsize : 0 ≤ size) :
    ∃ d', d.setMaxSize size = some d' ∧
      d'.maxDelaySize = size ∧
      (∀ i, i < d.maxDelaySize → d'.delayBuffer i = d.delayBuffer i) ∧
      (∀ i, d.maxDelaySize ≤ i → i < size → d'.delayBuffer i = 0) ∧
      d'.writeHeadPosition = d.writeHeadPosition ∧
      d'.readHeadPosition = d.readHeadPosition ∧
      d'.feedbackAmt = d.feedbackAmt ∧
      (d.writeHeadPosition = 0 → d.readHeadPosition = 0 →
        d'.writeHeadPosition = 0 ∧ d'.readHeadPosition = 0) := by
  unfold DelayLine.setMaxSize
  rw [if_neg (by omega)]
  refine ⟨_, rfl, rfl, fun i hi => ?_, fun i h1 h2 => ?_, rfl, rfl, rfl, fun hw hr => ⟨hw, hr⟩⟩
  · show (if d.maxDelaySize ≤ i ∧ i < size then (0 : ℚ) else d.delayBuffer i) = _
    rw [if_neg (by omega)]
  · show (if d.maxDelaySize ≤ i ∧ i < size then (0 : ℚ) else d.delayBuffer i) = _
    rw [if_pos ⟨h1, h2⟩]

/-- Witness of C22 as amended: an unused line of length 0 sized to 4. -/
theorem DelayLine.setMaxSize_resizes_witness :
    (0 : Int) ≤ 4 ∧
    ∃ d', (⟨fun _ => 7, 0, 0, 0, 0, 0⟩ : DelayLine).setMaxSize 4 = some d' ∧
      d'.maxDelaySize = 4 ∧ d'.delayBuffer 3 = 0 ∧ d'.writeHeadPosition = 0 :=
  ⟨by decide,
    match DelayLine.setMaxSize_resizes ⟨fun _ => 7, 0, 0, 0, 0, 0⟩ 4 (by decide) with
    | ⟨d', h, hm, _, hz, hw, _⟩ => ⟨d', h, hm, hz 3 (by decide) (by decide), hw⟩⟩

/-- C23, evaluated on the code: `setMaxSize 0` makes the capacity 0, not at least 1, and
the write head after a following `process` is `(0 + 1) % 0`; `setMaxSize (-1)` does not
return (the `resize` throws). -/
theorem DelayLine.setMaxSize_zero_not_clamped :
    ((⟨fun _ => 0, 4, 0, 0, 0, 0⟩ : DelayLine).setMaxSize 0).map (fun d => d.maxDelaySize)
      = some 0 ∧
    ¬ (((⟨fun _ => 0, 4, 0, 0, 0, 0⟩ : DelayLine).setMaxSize 0).map (fun d => d.maxDelaySize)
      = some 1) ∧
    (⟨fun _ => 0, 4, 0, 0, 0, 0⟩ : DelayLine).setMaxSize (-1) = none := by
  refine ⟨?_, ?_, ?_⟩ <;> simp [DelayLine.setMaxSize]

/-- C23 as amended: `setMaxSize` does not clamp: it returns exactly when `size ≥ 0`, and
then the capacity is `size`; so the capacity is at least 1 exactly when `size ≥ 1`, and
for such a size a following `process` leaves the write head in `[0, size)` and
`getSampleAtIndex` reads a cell in `[0, size)` for every index `i ≥ 0`. -/
theorem DelayLine.setMaxSize_capacity (d : DelayLine) (size : Int) :
    (size < 0 → d.setMaxSize size = none) ∧
    (0 ≤ size → (d.setMaxSize size).map (fun d' => d'.maxDelaySize) = some size) ∧
    (∀ d', d.setMaxSize size = some d' → (1 ≤ d'.maxDelaySize ↔ 1 ≤ size)) ∧
    (∀ d', d.setMaxSize size = some d' → 1 ≤ size → 0 ≤ d.writeHeadPosition →
      ∀ x, 0 ≤ (d'.process x).2.writeHeadPosition ∧ (d'.process x).2.writeHeadPosition < size) ∧
    (∀ d', d.setMaxSize size = some d' → 1 ≤ size →
      ∀ i : Int, 0 ≤ i → d'.inBounds (i.tmod d'.maxDelaySize)) := by
  have hsome : ∀ d', d.setMaxSize size = some d' →
      d'.maxDelaySize = size ∧ d'.writeHeadPosition = d.writeHeadPosition := by
    intro d' h
    unfold DelayLine.setMaxSize at h
    by_cases hs : size < 0
    · rw [if_pos hs] at h
      exact absurd h (by simp)
    · rw [if_neg hs] at h
      rw [← Option.some.inj h]
      exact ⟨rfl, rfl⟩
  refine ⟨fun hs => ?_, fun hs => ?_, fun d' h => ?_, fun d' h hs hw x => ?_,
    fun d' h hs i hi => ?_⟩
  · unfold DelayLine.setMaxSize
    rw [if_pos hs]
  · unfold DelayLine.setMaxSize
    rw [if_neg (by omega)]
    rfl
  · rw [(hsome d' h).1]
  · obtain ⟨hm, hwd⟩ := hsome d' h
    rw [DelayLine.process_writeHead d' x (by rw [hm]; omega) (by rw [hwd]; exact hw), hm]
    exact ⟨Int.emod_nonneg _ (by omega), Int.emod_lt_of_pos _ (by omega)⟩
  · obtain ⟨hm, -⟩ := hsome d' h
    unfold DelayLine.inBounds
    rw [hm, Int.tmod_eq_emod hi (by omega)]
    exact ⟨Int.emod_nonneg _ (by omega), Int.emod_lt_of_pos _ (by omega)⟩

/-- Witness of C23 as amended: size 4 gives capacity 4, size -1 does not return. -/
theorem DelayLine.setMaxSize_capacity_witness :
    ((-1 : Int) < 0 ∧ (0 : Int) ≤ 4) ∧
    (⟨fun _ => 0, 0, 0, 0, 0, 0⟩ : DelayLine).setMaxSize (-1) = none ∧
    ((⟨fun _ => 0, 0, 0, 0, 0, 0⟩ : DelayLine).setMaxSize 4).map (fun d' => d'.maxDelaySize)
      = some 4 :=
  ⟨by decide,
    (DelayLine.setMaxSize_capacity ⟨fun _ => 0, 0, 0, 0, 0, 0⟩ (-1)).1 (by decide),
    (DelayLine.setMaxSize_capacity ⟨fun _ => 0, 0, 0, 0, 0, 0⟩ 4).2.1 (by decide)⟩

/-- C24, evaluated on the code: with capacity 4 and cell `i` holding `i`,
`getSampleAtIndex (-1)` reads cell `-1 % 4 = -1` (the C++ remainder keeps the sign), a cell
before the buffer, and not cell 3, the residue of -1 in `[0, 4)`; so it differs from
`getSampleAtIndex 3`.  For the index 5 it reads cell 1. -/
theorem DelayLine.getSampleAtIndex_negative_index :
    (⟨fun i => (i : ℚ), 4, 0, 0, 0, 0⟩ : DelayLine).getSampleAtIndex (-1) = -1 ∧
    (⟨fun i => (i : ℚ), 4, 0, 0, 0, 0⟩ : DelayLine).getSampleAtIndex ((-1) % 4) = 3 ∧
    ¬ (⟨fun i => (i : ℚ), 4, 0, 0, 0, 0⟩ : DelayLine).inBounds ((-1 : Int).tmod 4) ∧
    (⟨fun i => (i : ℚ), 4, 0, 0, 0, 0⟩ : DelayLine).getSampleAtIndex 5 = 1 := by
  have e1 : (-1 : Int).tmod 4 = -1 := by decide
  have e2 : (((-1 : Int) % 4 : Int)).tmod 4 = 3 := by decide
  have e3 : (5 : Int).tmod 4 = 1 := by decide
  refine ⟨?_, ?_, ?_, ?_⟩
  · show (((-1 : Int).tmod 4 : Int) : ℚ) = -1
    rw [e1]
    norm_num
  · show (((((-1 : Int) % 4 : Int)).tmod 4 : Int) : ℚ) = 3
    rw [e2]
    norm_num
  · unfold DelayLine.inBounds
    decide
  · show (((5 : Int).tmod 4 : Int) : ℚ) = 1
    rw [e3]
    norm_num

/-! ## Claims on the pan and on the read positions of a grain -/

namespace Grain

variable {σ : Type}

lemma sampleProcess_pan (sm : SmoothedValueOps σ) (fl : FloatLib) (g : Grain σ)
    (output source : AudioBuffer) (time sampleIndex envelope activity : Int) :
    (g.sampleProcess sm fl output source time sampleIndex envelope activity).1.pan = g.pan := by
  unfold sampleProcess
  by_cases hc : time - g.onset < 0 ∨ time - g.onset ≥ g.length
  · simp only [hc, if_true]
  · simp only [hc, if_false]

lemma delayProcess_pan (sm : SmoothedValueOps σ) (fl : FloatLib) (g : Grain σ)
    (output : AudioBuffer) (source : DelayLine) (time sampleIndex envelope activity : Int)
    (r : Grain σ × AudioBuffer)
    (h : g.delayProcess sm fl output source time sampleIndex envelope activity = some r) :
    r.1.pan = g.pan := by
  unfold delayProcess at h
  by_cases hc : time - g.onset < 0 ∨ time - g.onset ≥ g.length
  · simp only [hc, if_true] at h
    rw [← Option.some.inj h]
  · simp only [hc, if_false] at h
    rw [Option.map_eq_some'] at h
    obtain ⟨q, -, hr⟩ := h
    rw [← hr]

end Grain

/-- C25: for a stereo width `w` in `[0, 1]` and a draw `u` in `[0, 1)` the pan of the
constructed grain is `(2u - 1) * w` and lies in `[-w, w]`; the two radicands
`0.5 * (1 - pan)` and `0.5 * (1 + pan)` are not negative; their real square roots lie in
`[0, 1]` and have squares that sum to 1, and so do the two gains of a `std::sqrt` that
returns these roots; `sampleProcess`, `delayProcess` and `getSmoothedLevel` leave the pan
as it is. -/
theorem Grain.equal_power_pan {σ : Type} (sm : SmoothedValueOps σ) (fl : FloatLib)
    (rng : RandomSource) (onset length : Int) (rate level position : ℚ) (delayOffset : Int)
    (sr w : ℚ) (output source : AudioBuffer) (line : DelayLine)
    (time sampleIndex envelope activity : Int)
    (hw : 0 ≤ w ∧ w ≤ 1)
    (hu : 0 ≤ rng.floatValues rng.floatCalls ∧ rng.floatValues rng.floatCalls < 1) :
    (Grain.construct sm rng onset length rate level position delayOffset sr w).1.pan
      = (2 * rng.floatValues rng.floatCalls - 1) * w ∧
    (-w ≤ (Grain.construct sm rng onset length rate level position delayOffset sr w).1.pan ∧
      (Grain.construct sm rng onset length rate level position delayOffset sr w).1.pan ≤ w) ∧
    (0 ≤ (1 / 2) * (1 - (Grain.construct sm rng onset length rate level position delayOffset
        sr w).1.pan) ∧
      0 ≤ (1 / 2) * (1 + (Grain.construct sm rng onset length rate level position delayOffset
        sr w).1.pan)) ∧
    (0 ≤ Real.sqrt (((1 / 2) * (1 - (Grain.construct sm rng onset length rate level position
        delayOffset sr w).1.pan) : ℚ) : ℝ) ∧
      Real.sqrt (((1 / 2) * (1 - (Grain.construct sm rng onset length rate level position
        delayOffset sr w).1.pan) : ℚ) : ℝ) ≤ 1 ∧
      0 ≤ Real.sqrt (((1 / 2) * (1 + (Grain.construct sm rng onset length rate level position
        delayOffset sr w).1.pan) : ℚ) : ℝ) ∧
      Real.sqrt (((1 / 2) * (1 + (Grain.construct sm rng onset length rate level position
        delayOffset sr w).1.pan) : ℚ) : ℝ) ≤ 1 ∧
      Real.sqrt (((1 / 2) * (1 - (Grain.construct sm rng onset length rate level position
          delayOffset sr w).1.pan) : ℚ) : ℝ) ^ 2
        + Real.sqrt (((1 / 2) * (1 + (Grain.construct sm rng onset length rate level position
          delayOffset sr w).1.pan) : ℚ) : ℝ) ^ 2 = 1) ∧
    (((fl.sqrt ((1 / 2) * (1 - (Grain.construct sm rng onset length rate level position
          delayOffset sr w).1.pan)) : ℚ) : ℝ)
        = Real.sqrt (((1 / 2) * (1 - (Grain.construct sm rng onset length rate level position
          delayOffset sr w).1.pan) : ℚ) : ℝ) →
      ((fl.sqrt ((1 / 2) * (1 + (Grain.construct sm rng onset length rate level position
          delayOffset sr w).1.pan)) : ℚ) : ℝ)
        = Real.sqrt (((1 / 2) * (1 + (Grain.construct sm rng onset length rate level position
          delayOffset sr w).1.pan) : ℚ) : ℝ) →
      fl.sqrt ((1 / 2) * (1 - (Grain.construct sm rng onset length rate level position
          delayOffset sr w).1.pan)) ^ 2
        + fl.sqrt ((1 / 2) * (1 + (Grain.construct sm rng onset length rate level position
          delayOffset sr w).1.pan)) ^ 2 = 1) ∧
    ((Grain.construct sm rng onset length rate level position delayOffset sr w).1.sampleProcess
        sm fl output source time sampleIndex envelope activity).1.pan
      = (Grain.construct sm rng onset length rate level position delayOffset sr w).1.pan ∧
    (∀ r, (Grain.construct sm rng onset length rate level position delayOffset sr
        w).1.delayProcess sm fl output line time sampleIndex envelope activity = some r →
      r.1.pan
        = (Grain.construct sm rng onset length rate level position delayOffset sr w).1.pan) ∧
    ((Grain.construct sm rng onset length rate level position delayOffset sr
        w).1.getSmoothedLevel sm).2.pan
      = (Grain.construct sm rng onset length rate level position delayOffset sr w).1.pan := by
  have hpan : (Grain.construct sm rng onset length rate level position delayOffset sr w).1.pan
      = (2 * rng.floatValues rng.floatCalls - 1) * w := by
    show (rng.floatValues rng.floatCalls * 2 - 1) * w = _
    ring
  generalize (Grain.construct sm rng onset length rate level position delayOffset sr w).1 = g
    at hpan ⊢
  obtain ⟨hu0, hu1⟩ := hu
  obtain ⟨hw0, hw1⟩ := hw
  have hlo : -w ≤ g.pan := by rw [hpan]; nlinarith
  have hhi : g.pan ≤ w := by rw [hpan]; nlinarith
  have ha : (0 : ℚ) ≤ (1 / 2) * (1 - g.pan) := by linarith
  have hb : (0 : ℚ) ≤ (1 / 2) * (1 + g.pan) := by linarith
  have haR : (0 : ℝ) ≤ (((1 / 2) * (1 - g.pan) : ℚ) : ℝ) := by exact_mod_cast ha
  have hbR : (0 : ℝ) ≤ (((1 / 2) * (1 + g.pan) : ℚ) : ℝ) := by exact_mod_cast hb
  have ha1 : (((1 / 2) * (1 - g.pan) : ℚ) : ℝ) ≤ 1 := by
    have : (1 / 2) * (1 - g.pan) ≤ (1 : ℚ) := by linarith
    exact_mod_cast this
  have hb1 : (((1 / 2) * (1 + g.pan) : ℚ) : ℝ) ≤ 1 := by
    have : (1 / 2) * (1 + g.pan) ≤ (1 : ℚ) := by linarith
    exact_mod_cast this
  have hsum : Real.sqrt (((1 / 2) * (1 - g.pan) : ℚ) : ℝ) ^ 2
      + Real.sqrt (((1 / 2) * (1 + g.pan) : ℚ) : ℝ) ^ 2 = 1 := by
    rw [Real.sq_sqrt haR, Real.sq_sqrt hbR]
    push_cast
    ring
  refine ⟨hpan, ⟨hlo, hhi⟩, ⟨ha, hb⟩,
    ⟨Real.sqrt_nonneg _, Real.sqrt_le_one.mpr ha1, Real.sqrt_nonneg _, Real.sqrt_le_one.mpr hb1, hsum⟩,
    fun hl hr => ?_, Grain.sampleProcess_pan sm fl g _ _ _ _ _ _,
    fun r h => Grain.delayProcess_pan sm fl g _ _ _ _ _ _ r h, rfl⟩
  rw [← hl, ← hr] at hsum
  exact_mod_cast hsum

/-- Witness of C25: width 1 and draw 16/25 give the pan 7/25. -/
theorem Grain.equal_power_pan_witness :
    ((0 : ℚ) ≤ 1 ∧ (1 : ℚ) ≤ 1) ∧ ((0 : ℚ) ≤ 16 / 25 ∧ (16 / 25 : ℚ) < 1) ∧
    (Grain.construct settledRamp ⟨32767, fun _ => 0, 0, fun _ => 16 / 25, 0⟩ 0 4 1 1 0 0 48000
      1).1.pan = 7 / 25 := by
  have h := (Grain.equal_power_pan settledRamp exactSqrtLib
    ⟨32767, fun _ => 0, 0, fun _ => 16 / 25, 0⟩ 0 4 1 1 0 0 48000 1 (AudioBuffer.cleared 1 1)
    ⟨1, 4, fun _ _ => 1⟩ ⟨fun _ => 0, 4, 0, 0, 0, 0⟩ 0 0 0 1 (by norm_num) (by norm_num)).1
  refine ⟨by norm_num, by norm_num, ?_⟩
  rw [h]
  norm_num

lemma wrapUp_congr (fuel : Nat) (size p q : ℚ) (h : wrapUp fuel size p = some q) :
    ∃ k : Int, q = p + (k : ℚ) * size := by
  induction fuel generalizing p with
  | zero =>
    by_cases hp : p < 0
    · simp [wrapUp, hp] at h
    · simp only [wrapUp, hp, if_false] at h
      exact ⟨0, by rw [← Option.some.inj h]; simp⟩
  | succ n ih =>
    by_cases hp : p < 0
    · simp only [wrapUp, hp, if_true] at h
      obtain ⟨k, hk⟩ := ih (p + size) h
      exact ⟨k + 1, by rw [hk]; push_cast; ring⟩
    · simp only [wrapUp, hp, if_false] at h
      exact ⟨0, by rw [← Option.some.inj h]; simp⟩

lemma wrapDown_congr (fuel : Nat) (size p q : ℚ) (h : wrapDown fuel size p = some q) :
    ∃ k : Int, q = p + (k : ℚ) * size := by
  induction fuel generalizing p with
  | zero =>
    by_cases hp : p ≥ size
    · simp [wrapDown, hp] at h
    · simp only [wrapDown, hp, if_false] at h
      exact ⟨0, by rw [← Option.some.inj h]; simp⟩
  | succ n ih =>
    by_cases hp : p ≥ size
    · simp only [wrapDown, hp, if_true] at h
      obtain ⟨k, hk⟩ := ih (p - size) h
      exact ⟨k - 1, by rw [hk]; push_cast; ring⟩
    · simp only [wrapDown, hp, if_false] at h
      exact ⟨0, by rw [← Option.some.inj h]; simp⟩

lemma wrapReadPos_eq_floorMod (size : Int) (hsize : 0 < size) (p : ℚ) :
    wrapReadPos size p = some (floorMod p (size : ℚ)) := by
  have hs : (0 : ℚ) < (size : ℚ) := by exact_mod_cast hsize
  obtain ⟨q, hq, hq0, hq1⟩ := wrapReadPos_some size hsize p
  have hk : ∃ k : Int, q = p + (k : ℚ) * (size : ℚ) := by
    unfold wrapReadPos at hq
    rw [Option.bind_eq_some] at hq
    obtain ⟨q1, h1, h2⟩ := hq
    obtain ⟨k1, hk1⟩ := wrapUp_congr _ _ _ _ h1
    obtain ⟨k2, hk2⟩ := wrapDown_congr _ _ _ _ h2
    exact ⟨k1 + k2, by rw [hk2, hk1]; push_cast; ring⟩
  obtain ⟨k, hk⟩ := hk
  rw [hq, ← floorMod_add_int_mul p hs k, ← hk, floorMod_of_lt hq0 hq1]

lemma floorMod_congr (x : ℚ) (n : ℚ) : ∃ k : Int, floorMod x n = x + (k : ℚ) * n :=
  ⟨-⌊x / n⌋, by unfold floorMod; push_cast; ring⟩

/-- C27: for a delay line of capacity `N > 0` the two wrap loops of `delayProcess` end
with the one position `p` of `[0, N)` that differs from `delayOffset + t * rate` by a
multiple of `N`; the cells `⌊p⌋` and `(⌊p⌋ + 1) mod N` both lie in `[0, N)`, the written
remainder agrees with the mathematical one, the sample is the linear interpolation of these
two cells with fraction `p - ⌊p⌋`, and inside the window of the grain `delayProcess`
returns with that sample rendered into every channel. -/
theorem Grain.delay_read_wraps {σ : Type} (sm : SmoothedValueOps σ) (fl : FloatLib)
    (g : Grain σ) (output : AudioBuffer) (line : DelayLine)
    (time sampleIndex envelope activity : Int) (x : ℚ) (hN : 0 < line.maxDelaySize) :
    wrapReadPos line.getDelaySize x = some (floorMod x (line.maxDelaySize : ℚ)) ∧
    (0 ≤ floorMod x (line.maxDelaySize : ℚ) ∧
      floorMod x (line.maxDelaySize : ℚ) < (line.maxDelaySize : ℚ)) ∧
    (∃ k : Int, floorMod x (line.maxDelaySize : ℚ) = x + (k : ℚ) * (line.maxDelaySize : ℚ)) ∧
    (∀ q : ℚ, 0 ≤ q → q < (line.maxDelaySize : ℚ) →
      (∃ k : Int, q = x + (k : ℚ) * (line.maxDelaySize : ℚ)) →
      q = floorMod x (line.maxDelaySize : ℚ)) ∧
    line.inBounds ⌊floorMod x (line.maxDelaySize : ℚ)⌋ ∧
    line.inBounds ((⌊floorMod x (line.maxDelaySize : ℚ)⌋ + 1).tmod line.getDelaySize) ∧
    (⌊floorMod x (line.maxDelaySize : ℚ)⌋ + 1).tmod line.getDelaySize
      = (⌊floorMod x (line.maxDelaySize : ℚ)⌋ + 1) % line.maxDelaySize ∧
    Grain.delaySample line (floorMod x (line.maxDelaySize : ℚ))
      = (1 - (floorMod x (line.maxDelaySize : ℚ)
            - (⌊floorMod x (line.maxDelaySize : ℚ)⌋ : ℚ)))
          * line.delayBuffer ⌊floorMod x (line.maxDelaySize : ℚ)⌋
        + (floorMod x (line.maxDelaySize : ℚ) - (⌊floorMod x (line.maxDelaySize : ℚ)⌋ : ℚ))
          * line.delayBuffer ((⌊floorMod x (line.maxDelaySize : ℚ)⌋ + 1) % line.maxDelaySize) ∧
    (g.onset ≤ time ∧ time < g.onset + g.length →
      g.delayProcess sm fl output line time sampleIndex envelope activity
        = some ({ g with
            smoothLevel := ((List.range output.numChannels.toNat).foldl
              (fun st (_ : Nat) =>
                g.renderChannel sm fl
                  (Grain.delaySample line
                    (floorMod ((g.delayOffset : ℚ) + ((time - g.onset : Int) : ℚ) * g.rate)
                      (line.maxDelaySize : ℚ)))
                  (time - g.onset) sampleIndex envelope activity st)
              (g.smoothLevel, output)).1 },
          ((List.range output.numChannels.toNat).foldl
            (fun st (_ : Nat) =>
              g.renderChannel sm fl
                (Grain.delaySample line
                  (floorMod ((g.delayOffset : ℚ) + ((time - g.onset : Int) : ℚ) * g.rate)
                    (line.maxDelaySize : ℚ)))
                (time - g.onset) sampleIndex envelope activity st)
            (g.smoothLevel, output)).2)) := by
  have hs : (0 : ℚ) < (line.maxDelaySize : ℚ) := by exact_mod_cast hN
  have h0 := floorMod_nonneg x hs
  have h1 := floorMod_lt x hs
  generalize hp : floorMod x (line.maxDelaySize : ℚ) = p at h0 h1 ⊢
  have hf0 : 0 ≤ ⌊p⌋ := Int.floor_nonneg.2 h0
  have hf1 : ⌊p⌋ < line.maxDelaySize := by
    have : ⌊p⌋ < ((line.maxDelaySize : Int) : ℚ) := lt_of_le_of_lt (Int.floor_le p) h1
    exact_mod_cast this
  have hup : (⌊p⌋ + 1).tmod line.getDelaySize = (⌊p⌋ + 1) % line.maxDelaySize := by
    show (⌊p⌋ + 1).tmod line.maxDelaySize = _
    exact Int.tmod_eq_emod (by omega) (by omega)
  have hup0 : 0 ≤ (⌊p⌋ + 1) % line.maxDelaySize := Int.emod_nonneg _ (by omega)
  have hup1 : (⌊p⌋ + 1) % line.maxDelaySize < line.maxDelaySize := Int.emod_lt_of_pos _ hN
  have hlow : line.getSampleAtIndex ⌊p⌋ = line.delayBuffer ⌊p⌋ := by
    unfold DelayLine.getSampleAtIndex
    rw [Int.tmod_eq_emod hf0 (by omega), Int.emod_eq_of_lt hf0 hf1]
  have hupp : line.getSampleAtIndex ((⌊p⌋ + 1) % line.maxDelaySize)
      = line.delayBuffer ((⌊p⌋ + 1) % line.maxDelaySize) := by
    unfold DelayLine.getSampleAtIndex
    rw [Int.tmod_eq_emod hup0 (by omega), Int.emod_eq_of_lt hup0 hup1]
  refine ⟨?_, ⟨h0, h1⟩, ?_, ?_, ?_, ?_, hup, ?_, fun hwin => ?_⟩
  · rw [← hp]
    exact wrapReadPos_eq_floorMod _ hN x
  · rw [← hp]
    exact floorMod_congr x _
  · rintro q hq0 hq1 ⟨k, hk⟩
    rw [← hp, ← floorMod_add_int_mul x hs k, ← hk, floorMod_of_lt hq0 hq1]
  · exact ⟨hf0, hf1⟩
  · rw [hup]
    exact ⟨hup0, hup1⟩
  · unfold Grain.delaySample
    dsimp only
    rw [hup, hlow, hupp]
  · have hc : ¬ (time - g.onset < 0 ∨ time - g.onset ≥ g.length) := by omega
    unfold Grain.delayProcess
    simp only [hc, if_false]
    rw [show line.getDelaySize = line.maxDelaySize from rfl,
      wrapReadPos_eq_floorMod _ hN]
    rfl

/-- Witness of C27: capacity 4 and the raw position -1/2: the loops end at 7/2. -/
theorem Grain.delay_read_wraps_witness :
    (0 : Int) < 4 ∧
    wrapReadPos (4 : Int) (-1 / 2) = some (floorMod (-1 / 2) ((4 : Int) : ℚ)) :=
  ⟨by decide,
    (Grain.delay_read_wraps settledRamp exactSqrtLib
      (⟨0, 4, 1, 1, 0, 48000, 0, 7 / 25, 1, 1⟩ : Grain ℚ) (AudioBuffer.cleared 1 1)
      ⟨fun _ => 0, 4, 0, 0, 0, 0⟩ 0 0 0 1 (-1 / 2) (by decide)).1⟩

/-! ## The grain made by a spawn -/

lemma truncToInt_zero : truncToInt 0 = 0 := by
  have := truncToInt_intCast 0
  simpa using this

namespace GrainVoice

variable {σ α : Type}

end GrainVoice

namespace GrainVoice

variable {σ α : Type}

lemma renderGrainAt_eq (sm : SmoothedValueOps σ) (fl : FloatLib)
    (mode envelope activity csi i : Int) (line : DelayLine) (source : AudioBuffer) (g : Nat)
    (st : RenderState σ) :
    renderGrainAt sm fl mode envelope activity csi i line source g st
      = (renderOne sm fl mode envelope activity csi i line source
          ((st.grains.get? g).getD (Grain.mkDefault sm)) (st.output, st.grainSum)).map
          (fun r =>
            { grains :=
                if ((st.grains.get? g).getD (Grain.mkDefault sm)).isDone csi
                  then st.grains.eraseIdx g else st.grains
              output := r.1
              grainSum := r.2 }) := rfl

lemma perSample_eq (sm : SmoothedValueOps σ) (adsr : ADSROps α) (fl : FloatLib) (p : Params)
    (source : AudioBuffer) (v : GrainVoice σ α) (output : AudioBuffer) (i : Int) :
    perSample sm adsr fl p source v output i
      = (renderGrains sm fl (truncToInt p.mode) (truncToInt p.envelope)
          (truncToInt p.activity * (afterSpawn sm adsr p v i).activeVoiceOn)
          (afterSpawn sm adsr p v i).currentSampleIndex i
          (lineAfterInput source (afterSpawn sm adsr p v i)) source
          (afterSpawn sm adsr p v i).grains.length
          ⟨(afterSpawn sm adsr p v i).grains, output, 0⟩).map
          (fun st =>
            ({ afterSpawn sm adsr p v i with
               grains := st.grains
               delayLine := lineAfterFeedback sm p source (afterSpawn sm adsr p v i) st.grainSum
               smoothedFeedback :=
                 (sm.getNextValue (sm.setTargetValue
                   (afterSpawn sm adsr p v i).smoothedFeedback p.feedback)).2
               currentSampleIndex := (afterSpawn sm adsr p v i).currentSampleIndex + 1 },
             st.output)) := rfl

lemma renderNextBlock_eq (sm : SmoothedValueOps σ) (adsr : ADSROps α) (fl : FloatLib)
    (p : Params) (v : GrainVoice σ α) (outputBuffer source : AudioBuffer)
    (startSample numSamples : Int)
    (hnote : v.noteOn = true) (hsrc : v.sampleBuffer = some source) :
    renderNextBlock sm adsr fl p v outputBuffer startSample numSamples
      = (sampleLoop sm adsr fl p source numSamples.toNat startSample
          ({ v with dryReadHeads := (v.dryStage source outputBuffer).1
                    density := v.computeDensity p }, outputBuffer)).map
          (fun r =>
            ({ r.1 with
               smoothedMix := (mixPass sm (v.dryStage source outputBuffer).2 startSample
                 numSamples (sm.setTargetValue r.1.smoothedMix p.mix, r.2)).1 },
             (mixPass sm (v.dryStage source outputBuffer).2 startSample numSamples
               (sm.setTargetValue r.1.smoothedMix p.mix, r.2)).2)) := by
  unfold renderNextBlock
  rw [hsrc]
  dsimp only
  rw [if_neg (by rw [hnote]; simp)]
  rfl

end GrainVoice

namespace GrainVoice

variable {σ α : Type}

lemma afterSpawn_counter (sm : SmoothedValueOps σ) (adsr : ADSROps α) (p : Params)
    (v : GrainVoice σ α) (i : Int) :
    (afterSpawn sm adsr p v i).currentSampleIndex = v.currentSampleIndex := by
  unfold afterSpawn
  dsimp only
  split <;> rfl

lemma afterSpawn_delayLine (sm : SmoothedValueOps σ) (adsr : ADSROps α) (p : Params)
    (v : GrainVoice σ α) (i : Int) :
    (afterSpawn sm adsr p v i).delayLine = v.delayLine := by
  unfold afterSpawn
  dsimp only
  split <;> rfl

lemma afterSpawn_static (sm : SmoothedValueOps σ) (adsr : ADSROps α) (p : Params)
    (v : GrainVoice σ α) (i : Int) :
    (afterSpawn sm adsr p v i).dryReadHeads = v.dryReadHeads ∧
    (afterSpawn sm adsr p v i).dryReadHeadsSize = v.dryReadHeadsSize ∧
    (afterSpawn sm adsr p v i).playbackRate = v.playbackRate ∧
    (afterSpawn sm adsr p v i).smoothedMix = v.smoothedMix ∧
    (afterSpawn sm adsr p v i).smoothedFeedback = v.smoothedFeedback ∧
    (afterSpawn sm adsr p v i).activeVoiceOn = v.activeVoiceOn ∧
    (afterSpawn sm adsr p v i).density = v.density ∧
    (afterSpawn sm adsr p v i).sampleBuffer = v.sampleBuffer := by
  unfold afterSpawn
  dsimp only
  split <;> exact ⟨rfl, rfl, rfl, rfl, rfl, rfl, rfl, rfl⟩

lemma lineAfterInput_afterSpawn (sm : SmoothedValueOps σ) (adsr : ADSROps α) (p : Params)
    (source : AudioBuffer) (v : GrainVoice σ α) (i : Int) :
    lineAfterInput source (afterSpawn sm adsr p v i) = lineAfterInput source v := by
  unfold lineAfterInput
  rw [afterSpawn_delayLine, afterSpawn_counter]

lemma lineAfterFeedback_afterSpawn (sm : SmoothedValueOps σ) (adsr : ADSROps α) (p : Params)
    (source : AudioBuffer) (v : GrainVoice σ α) (i : Int) (s : ℚ) :
    lineAfterFeedback sm p source (afterSpawn sm adsr p v i) s
      = lineAfterFeedback sm p source v s := by
  unfold lineAfterFeedback
  rw [lineAfterInput_afterSpawn, (afterSpawn_static sm adsr p v i).2.2.2.2.1]

lemma lineAfterInput_size (source : AudioBuffer) (v : GrainVoice σ α) :
    (lineAfterInput source v).maxDelaySize = v.delayLine.maxDelaySize := rfl

lemma perSample_some (sm : SmoothedValueOps σ) (adsr : ADSROps α) (fl : FloatLib) (p : Params)
    (source : AudioBuffer) (v : GrainVoice σ α) (output : AudioBuffer) (i : Int)
    (hsize : 0 < v.delayLine.maxDelaySize) :
    ∃ st, renderGrains sm fl (truncToInt p.mode) (truncToInt p.envelope)
        (truncToInt p.activity * (afterSpawn sm adsr p v i).activeVoiceOn)
        (afterSpawn sm adsr p v i).currentSampleIndex i
        (lineAfterInput source (afterSpawn sm adsr p v i)) source
        (afterSpawn sm adsr p v i).grains.length
        ⟨(afterSpawn sm adsr p v i).grains, output, 0⟩ = some st :=
  renderGrains_some sm fl _ _ _ _ i _ source
    (by rw [lineAfterInput_size, afterSpawn_delayLine]; exact hsize) _ _

end GrainVoice

/-! ## The loop over the grains -/

namespace GrainVoice

variable {σ α : Type}

lemma renderGrains_split (sm : SmoothedValueOps σ) (fl : FloatLib)
    (mode envelope activity csi i : Int) (line : DelayLine) (source : AudioBuffer)
    (pre : List (Grain σ)) :
    ∀ (post : List (Grain σ)) (out : AudioBuffer) (s : ℚ),
      renderGrains sm fl mode envelope activity csi i line source pre.length
          ⟨pre ++ post, out, s⟩
        = (renderEach sm fl mode envelope activity csi i line source pre.reverse (out, s)).map
            (fun r => ⟨pre.filter (fun g => !g.isDone csi) ++ post, r.1, r.2⟩) := by
  induction pre using List.reverseRecOn with
  | nil =>
    intro post out s
    rfl
  | append_singleton l a ih =>
    intro post out s
    have hlen : (l ++ [a]).length = l.length + 1 := by simp
    have hget : ((l ++ [a] ++ post).get? l.length).getD (Grain.mkDefault sm) = a := by
      have h : (l ++ [a] ++ post).get? l.length = some a := by
        rw [List.append_assoc, List.get?_eq_getElem?, List.getElem?_append_right (le_refl _)]
        simp
      rw [h]
      rfl
    have herase : (l ++ [a] ++ post).eraseIdx l.length = l ++ post := by
      rw [List.append_assoc, List.eraseIdx_append_of_length_le (le_refl _)]
      simp
    rw [hlen, List.reverse_append]
    show (renderGrainAt sm fl mode envelope activity csi i line source l.length
        ⟨l ++ [a] ++ post, out, s⟩).bind
        (renderGrains sm fl mode envelope activity csi i line source l.length)
      = ((renderOne sm fl mode envelope activity csi i line source a (out, s)).bind
          (renderEach sm fl mode envelope activity csi i line source l.reverse)).map _
    rw [renderGrainAt_eq]
    dsimp only
    rw [hget, herase]
    cases hr : renderOne sm fl mode envelope activity csi i line source a (out, s) with
    | none => rfl
    | some r =>
      simp only [Option.map_some', Option.some_bind]
      by_cases hd : a.isDone csi = true
      · rw [if_pos hd, ih post r.1 r.2]
        congr 1
        funext q
        simp [List.filter_append, hd]
      · rw [if_neg hd, List.append_assoc, ih ([a] ++ post) r.1 r.2]
        congr 1
        funext q
        simp [List.filter_append, hd]

lemma renderGrains_eq_renderEach (sm : SmoothedValueOps σ) (fl : FloatLib)
    (mode envelope activity csi i : Int) (line : DelayLine) (source : AudioBuffer)
    (gs : List (Grain σ)) (out : AudioBuffer) (s : ℚ) :
    renderGrains sm fl mode envelope activity csi i line source gs.length ⟨gs, out, s⟩
      = (renderEach sm fl mode envelope activity csi i line source gs.reverse (out, s)).map
          (fun r => ⟨gs.filter (fun g => !g.isDone csi), r.1, r.2⟩) := by
  have h := renderGrains_split sm fl mode envelope activity csi i line source gs [] out s
  simpa using h

end GrainVoice

/-- C34: the loop over the grains run on a collection `gs` renders every grain of `gs`
once, from the last to the first, and leaves as the collection the grains of `gs` for
which `isDone (currentSampleIndex)` does not hold, in their order; so does the per-sample
step of `renderNextBlock` with the collection it has after the spawn test, and the loop and
the step return whenever the delay capacity is above 0. -/
theorem GrainVoice.grains_retired_in_traversal {σ α : Type} (sm : SmoothedValueOps σ)
    (adsr : ADSROps α) (fl : FloatLib) (p : Params) (source : AudioBuffer)
    (v : GrainVoice σ α) (output : AudioBuffer) (i : Int)
    (mode envelope activity csi : Int) (line : DelayLine) (gs : List (Grain σ)) (s : ℚ) :
    GrainVoice.renderGrains sm fl mode envelope activity csi i line source gs.length
        ⟨gs, output, s⟩
      = (GrainVoice.renderEach sm fl mode envelope activity csi i line source gs.reverse
          (output, s)).map
          (fun r => ⟨gs.filter (fun g => !g.isDone csi), r.1, r.2⟩) ∧
    (∀ st, GrainVoice.renderGrains sm fl mode envelope activity csi i line source gs.length
        ⟨gs, output, s⟩ = some st →
      st.grains = gs.filter (fun g => !g.isDone csi) ∧ List.Sublist st.grains gs ∧
      ∀ g, g ∈ st.grains ↔ g ∈ gs ∧ g.isDone csi = false) ∧
    (0 < line.maxDelaySize →
      ∃ st, GrainVoice.renderGrains sm fl mode envelope activity csi i line source gs.length
        ⟨gs, output, s⟩ = some st) ∧
    (∀ w out, GrainVoice.perSample sm adsr fl p source v output i = some (w, out) →
      w.grains = (GrainVoice.afterSpawn sm adsr p v i).grains.filter
        (fun g => !g.isDone v.currentSampleIndex) ∧
      ∃ r, GrainVoice.renderEach sm fl (truncToInt p.mode) (truncToInt p.envelope)
          (truncToInt p.activity * v.activeVoiceOn) v.currentSampleIndex i
          (GrainVoice.lineAfterInput source v) source
          (GrainVoice.afterSpawn sm adsr p v i).grains.reverse (output, 0) = some r ∧
        out = r.1 ∧ w.delayLine = GrainVoice.lineAfterFeedback sm p source v r.2) ∧
    (0 < v.delayLine.maxDelaySize →
      ∃ w out, GrainVoice.perSample sm adsr fl p source v output i = some (w, out)) := by
  have hloop := GrainVoice.renderGrains_eq_renderEach sm fl mode envelope activity csi i line
    source gs output s
  refine ⟨hloop, fun st hst => ?_, fun hsize => ?_, fun w out h => ?_, fun hsize => ?_⟩
  · rw [hloop, Option.map_eq_some'] at hst
    obtain ⟨r, -, hr⟩ := hst
    rw [← hr]
    refine ⟨rfl, List.filter_sublist _, fun g => ?_⟩
    simp [List.mem_filter]
  · exact GrainVoice.renderGrains_some sm fl mode envelope activity csi i line source hsize _ _
  · rw [GrainVoice.perSample_eq, GrainVoice.renderGrains_eq_renderEach, Option.map_map,
      Option.map_eq_some'] at h
    obtain ⟨r, hr, hw⟩ := h
    rw [GrainVoice.afterSpawn_counter, GrainVoice.lineAfterInput_afterSpawn,
      (GrainVoice.afterSpawn_static sm adsr p v i).2.2.2.2.2.1] at hr
    have h1 := (Prod.mk.inj hw).1
    have h2 := (Prod.mk.inj hw).2
    refine ⟨?_, r, hr, ?_, ?_⟩
    · rw [← h1]
      show List.filter _ _ = _
      rw [GrainVoice.afterSpawn_counter]
    · rw [← h2]
    · rw [← h1]
      show GrainVoice.lineAfterFeedback sm p source (GrainVoice.afterSpawn sm adsr p v i) r.2 = _
      rw [GrainVoice.lineAfterFeedback_afterSpawn]
  · obtain ⟨st, hst⟩ := GrainVoice.perSample_some sm adsr fl p source v output i hsize
    rw [GrainVoice.perSample_eq, hst]
    exact ⟨_, _, rfl⟩

/-- Witness of C34: at counter 10 a collection of a grain that ended at 4 and a grain that
ends at 12 becomes the second grain alone. -/
theorem GrainVoice.grains_retired_in_traversal_witness :
    ∃ st, GrainVoice.renderGrains settledRamp exactSqrtLib 1 0 1 10 0
        ⟨fun _ => 0, 4, 0, 0, 0, 0⟩ ⟨1, 4, fun _ _ => 1⟩ 2
        ⟨[(⟨0, 4, 1, 1, 0, 48000, 0, 0, 1, 1⟩ : Grain ℚ), ⟨8, 4, 1, 1, 0, 48000, 0, 0, 1, 1⟩],
          AudioBuffer.cleared 1 1, 0⟩ = some st ∧
      st.grains = [(⟨8, 4, 1, 1, 0, 48000, 0, 0, 1, 1⟩ : Grain ℚ)] := by
  have h := GrainVoice.grains_retired_in_traversal settledRamp heldEnvelope exactSqrtLib
    fixedDensityParams ⟨1, 4, fun _ _ => 1⟩ heldVoice (AudioBuffer.cleared 1 1) 0 1 0 1 10
    ⟨fun _ => 0, 4, 0, 0, 0, 0⟩
    [(⟨0, 4, 1, 1, 0, 48000, 0, 0, 1, 1⟩ : Grain ℚ), ⟨8, 4, 1, 1, 0, 48000, 0, 0, 1, 1⟩] 0
  obtain ⟨st, hst⟩ := h.2.2.1 (by decide)
  refine ⟨st, hst, ?_⟩
  rw [(h.2.1 st hst).1]
  have h1 : (⟨0, 4, 1, 1, 0, 48000, 0, 0, 1, 1⟩ : Grain ℚ).isDone 10 = true := by
    simp [Grain.isDone, wrapInt32]
  have h2 : (⟨8, 4, 1, 1, 0, 48000, 0, 0, 1, 1⟩ : Grain ℚ).isDone 10 = false := by
    simp [Grain.isDone, wrapInt32]
  simp [List.filter, h1, h2]

/-! ## The delay line through the per-sample loop -/

namespace DelayLine

lemma setFeedback_fields (d : DelayLine) (f : ℚ) :
    (d.setFeedback f).writeHeadPosition = d.writeHeadPosition ∧
    (d.setFeedback f).readHeadPosition = d.readHeadPosition ∧
    (d.setFeedback f).delayBuffer = d.delayBuffer ∧
    (d.setFeedback f).maxDelaySize = d.maxDelaySize := by
  unfold setFeedback
  split <;> exact ⟨rfl, rfl, rfl, rfl⟩

end DelayLine

namespace GrainVoice

variable {σ α : Type}

lemma lineAfterInput_writeHead (source : AudioBuffer) (v : GrainVoice σ α)
    (hN : 0 < v.delayLine.maxDelaySize) (hw : 0 ≤ v.delayLine.writeHeadPosition) :
    (lineAfterInput source v).writeHeadPosition
      = (v.delayLine.writeHeadPosition + 1) % v.delayLine.maxDelaySize :=
  DelayLine.process_writeHead _ _ hN.le hw

lemma lineAfterFeedback_size (sm : SmoothedValueOps σ) (p : Params) (source : AudioBuffer)
    (v : GrainVoice σ α) (s : ℚ) :
    (lineAfterFeedback sm p source v s).maxDelaySize = v.delayLine.maxDelaySize := by
  show (DelayLine.setFeedback _ _).maxDelaySize = _
  rw [(DelayLine.setFeedback_fields _ _).2.2.2]
  rfl

lemma lineAfterFeedback_writeHead (sm : SmoothedValueOps σ) (p : Params)
    (source : AudioBuffer) (v : GrainVoice σ α) (s : ℚ)
    (hN : 0 < v.delayLine.maxDelaySize) (hw : 0 ≤ v.delayLine.writeHeadPosition) :
    (lineAfterFeedback sm p source v s).writeHeadPosition
      = (v.delayLine.writeHeadPosition + 2) % v.delayLine.maxDelaySize := by
  unfold lineAfterFeedback
  rw [DelayLine.process_writeHead _ _
      (by rw [(DelayLine.setFeedback_fields _ _).2.2.2, lineAfterInput_size]; exact hN.le)
      (by rw [(DelayLine.setFeedback_fields _ _).1, lineAfterInput_writeHead source v hN hw]
          exact Int.emod_nonneg _ hN.ne'),
    (DelayLine.setFeedback_fields _ _).1, (DelayLine.setFeedback_fields _ _).2.2.2,
    lineAfterInput_size, lineAfterInput_writeHead source v hN hw, Int.emod_add_emod]
  congr 1
  ring

lemma perSample_stages (sm : SmoothedValueOps σ) (adsr : ADSROps α) (fl : FloatLib)
    (p : Params) (source : AudioBuffer) (v w : GrainVoice σ α) (output out : AudioBuffer)
    (i : Int) (h : perSample sm adsr fl p source v output i = some (w, out)) :
    ∃ r, renderEach sm fl (truncToInt p.mode) (truncToInt p.envelope)
        (truncToInt p.activity * v.activeVoiceOn) v.currentSampleIndex i
        (lineAfterInput source v) source (afterSpawn sm adsr p v i).grains.reverse (output, 0)
          = some r ∧
      out = r.1 ∧
      w.delayLine = lineAfterFeedback sm p source v r.2 ∧
      w.dryReadHeads = v.dryReadHeads ∧
      w.dryReadHeadsSize = v.dryReadHeadsSize ∧
      w.playbackRate = v.playbackRate ∧
      w.smoothedMix = v.smoothedMix ∧
      w.sampleBuffer = v.sampleBuffer ∧
      w.noteOn = (afterSpawn sm adsr p v i).noteOn := by
  rw [perSample_eq, renderGrains_eq_renderEach, Option.map_map, Option.map_eq_some'] at h
  obtain ⟨r, hr, hw⟩ := h
  rw [afterSpawn_counter, lineAfterInput_afterSpawn,
    (afterSpawn_static sm adsr p v i).2.2.2.2.2.1] at hr
  have h1 := (Prod.mk.inj hw).1
  have h2 := (Prod.mk.inj hw).2
  have hs := afterSpawn_static sm adsr p v i
  refine ⟨r, hr, h2.symm, ?_, ?_, ?_, ?_, ?_, ?_, ?_⟩
  · rw [← h1]
    show lineAfterFeedback sm p source (afterSpawn sm adsr p v i) r.2 = _
    rw [lineAfterFeedback_afterSpawn]
  · rw [← h1]; exact hs.1
  · rw [← h1]; exact hs.2.1
  · rw [← h1]; exact hs.2.2.1
  · rw [← h1]; exact hs.2.2.2.1
  · rw [← h1]; exact hs.2.2.2.2.2.2.2
  · rw [← h1]

lemma perSample_total (sm : SmoothedValueOps σ) (adsr : ADSROps α) (fl : FloatLib) (p : Params)
    (source : AudioBuffer) (v : GrainVoice σ α) (output : AudioBuffer) (i : Int)
    (hsize : 0 < v.delayLine.maxDelaySize) :
    ∃ w out, perSample sm adsr fl p source v output i = some (w, out) := by
  obtain ⟨st, hst⟩ := perSample_some sm adsr fl p source v output i hsize
  rw [perSample_eq, hst]
  exact ⟨_, _, rfl⟩

lemma sampleLoop_line (sm : SmoothedValueOps σ) (adsr : ADSROps α) (fl : FloatLib)
    (p : Params) (source : AudioBuffer) (count : Nat) :
    ∀ (i : Int) (v : GrainVoice σ α) (output : AudioBuffer),
      0 < v.delayLine.maxDelaySize → 0 ≤ v.delayLine.writeHeadPosition →
      v.delayLine.writeHeadPosition < v.delayLine.maxDelaySize →
      ∃ w out, sampleLoop sm adsr fl p source count i (v, output) = some (w, out) ∧
        w.delayLine.maxDelaySize = v.delayLine.maxDelaySize ∧
        w.delayLine.writeHeadPosition
          = (v.delayLine.writeHeadPosition + 2 * (count : Int)) % v.delayLine.maxDelaySize ∧
        w.dryReadHeads = v.dryReadHeads ∧
        w.dryReadHeadsSize = v.dryReadHeadsSize ∧
        w.playbackRate = v.playbackRate ∧
        w.smoothedMix = v.smoothedMix ∧
        w.sampleBuffer = v.sampleBuffer := by
  induction count with
  | zero =>
    intro i v output hN hw hlt
    refine ⟨v, output, rfl, rfl, ?_, rfl, rfl, rfl, rfl, rfl⟩
    rw [Int.emod_eq_of_lt (by simpa using hw) (by simpa using hlt)]
    simp
  | succ n ih =>
    intro i v output hN hw _
    obtain ⟨w1, out1, h1⟩ := perSample_total sm adsr fl p source v output i hN
    obtain ⟨r, -, -, hl, hd, hds, hp, hm, hsb, -⟩ :=
      perSample_stages sm adsr fl p source v w1 output out1 i h1
    have hN1 : w1.delayLine.maxDelaySize = v.delayLine.maxDelaySize := by
      rw [hl, lineAfterFeedback_size]
    have hw1 : w1.delayLine.writeHeadPosition
        = (v.delayLine.writeHeadPosition + 2) % v.delayLine.maxDelaySize := by
      rw [hl, lineAfterFeedback_writeHead sm p source v r.2 hN hw]
    obtain ⟨w, out, h2, hN2, hw2, hd2, hds2, hp2, hm2, hsb2⟩ := ih (i + 1) w1 out1
      (by rw [hN1]; exact hN) (by rw [hw1]; exact Int.emod_nonneg _ hN.ne')
      (by rw [hw1, hN1]; exact Int.emod_lt_of_pos _ hN)
    refine ⟨w, out, ?_, ?_, ?_, ?_, ?_, ?_, ?_, ?_⟩
    · simp only [sampleLoop, h1, Option.some_bind]
      exact h2
    · rw [hN2, hN1]
    · rw [hw2, hN1, hw1, Int.emod_add_emod]
      congr 1
      push_cast
      ring
    · rw [hd2, hd]
    · rw [hds2, hds]
    · rw [hp2, hp]
    · rw [hm2, hm]
    · rw [hsb2, hsb]

end GrainVoice

/-- C36: on a delay line of capacity `N > 0` whose write head is in `[0, N)`, every
per-sample step of `renderNextBlock` returns and calls `process` twice: first with the dry
input sample, which writes the cell at the write head `w`, then, after `setFeedback`, with
`grainSum * feedbackGain`, which writes the cell `(w + 1) mod N`; the step leaves the write
head at `(w + 2) mod N`.  So a call of `renderNextBlock` on an active note with
`numSamples = M ≥ 0` returns with the write head at `(w0 + 2 * M) mod N`. -/
theorem GrainVoice.two_writes_per_sample {σ α : Type} (sm : SmoothedValueOps σ)
    (adsr : ADSROps α) (fl : FloatLib) (p : Params) (v : GrainVoice σ α)
    (outputBuffer source : AudioBuffer) (startSample numSamples : Int)
    (hnote : v.noteOn = true) (hsrc : v.sampleBuffer = some source)
    (hN : 0 < v.delayLine.maxDelaySize)
    (hw : 0 ≤ v.delayLine.writeHeadPosition ∧
      v.delayLine.writeHeadPosition < v.delayLine.maxDelaySize)
    (hM : 0 ≤ numSamples) :
    (∀ (u : GrainVoice σ α) (output : AudioBuffer) (i : Int),
      0 < u.delayLine.maxDelaySize →
      0 ≤ u.delayLine.writeHeadPosition ∧
        u.delayLine.writeHeadPosition < u.delayLine.maxDelaySize →
      ∃ w out r, GrainVoice.perSample sm adsr fl p source u output i = some (w, out) ∧
        GrainVoice.renderEach sm fl (truncToInt p.mode) (truncToInt p.envelope)
          (truncToInt p.activity * u.activeVoiceOn) u.currentSampleIndex i
          (u.delayLine.process
            (source.getSample 0 (u.currentSampleIndex.tmod source.numSamples))).2 source
          (GrainVoice.afterSpawn sm adsr p u i).grains.reverse (output, 0) = some r ∧
        w.delayLine
          = (((u.delayLine.process
                (source.getSample 0 (u.currentSampleIndex.tmod source.numSamples))).2.setFeedback
                (sm.getNextValue (sm.setTargetValue u.smoothedFeedback p.feedback)).1).process
              (r.2 * p.grainFeedback.getD 0)).2 ∧
        (u.delayLine.process
            (source.getSample 0 (u.currentSampleIndex.tmod source.numSamples))).2.delayBuffer
          = DelayLine.writeCell u.delayLine.delayBuffer u.delayLine.writeHeadPosition
              (source.getSample 0 (u.currentSampleIndex.tmod source.numSamples)
                + u.delayLine.linearInterpolation * u.delayLine.feedbackAmt) ∧
        (u.delayLine.process
            (source.getSample 0 (u.currentSampleIndex.tmod source.numSamples))).2.writeHeadPosition
          = (u.delayLine.writeHeadPosition + 1) % u.delayLine.maxDelaySize ∧
        w.delayLine.delayBuffer
          = DelayLine.writeCell
              (u.delayLine.process
                (source.getSample 0
                  (u.currentSampleIndex.tmod source.numSamples))).2.delayBuffer
              ((u.delayLine.writeHeadPosition + 1) % u.delayLine.maxDelaySize)
              (r.2 * p.grainFeedback.getD 0
                + ((u.delayLine.process
                    (source.getSample 0
                      (u.currentSampleIndex.tmod source.numSamples))).2.setFeedback
                    (sm.getNextValue
                      (sm.setTargetValue u.smoothedFeedback p.feedback)).1).linearInterpolation
                  * ((u.delayLine.process
                    (source.getSample 0
                      (u.currentSampleIndex.tmod source.numSamples))).2.setFeedback
                    (sm.getNextValue
                      (sm.setTargetValue u.smoothedFeedback p.feedback)).1).feedbackAmt) ∧
        w.delayLine.writeHeadPosition
          = (u.delayLine.writeHeadPosition + 2) % u.delayLine.maxDelaySize ∧
        w.delayLine.maxDelaySize = u.delayLine.maxDelaySize) ∧
    ∃ w out,
      GrainVoice.renderNextBlock sm adsr fl p v outputBuffer startSample numSamples
        = some (w, out) ∧
      w.delayLine.writeHeadPosition
        = (v.delayLine.writeHeadPosition + 2 * numSamples) % v.delayLine.maxDelaySize ∧
      w.delayLine.maxDelaySize = v.delayLine.maxDelaySize := by
  constructor
  · intro u output i huN huw
    obtain ⟨w, out, h⟩ := GrainVoice.perSample_total sm adsr fl p source u output i huN
    obtain ⟨r, hr, -, hl, -⟩ := GrainVoice.perSample_stages sm adsr fl p source u w output out i h
    have hW1 := GrainVoice.lineAfterInput_writeHead source u huN huw.1
    refine ⟨w, out, r, h, hr, hl, rfl, hW1, ?_, ?_, ?_⟩
    · rw [hl]
      show DelayLine.writeCell (DelayLine.setFeedback _ _).delayBuffer
        (DelayLine.setFeedback _ _).writeHeadPosition _ = _
      rw [(DelayLine.setFeedback_fields _ _).1, (DelayLine.setFeedback_fields _ _).2.2.1]
      show DelayLine.writeCell _ (GrainVoice.lineAfterInput source u).writeHeadPosition _ = _
      rw [hW1]
      rfl
    · rw [hl, GrainVoice.lineAfterFeedback_writeHead sm p source u r.2 huN huw.1]
    · rw [hl, GrainVoice.lineAfterFeedback_size]
  · obtain ⟨w, out, h, hsz, hwr, -⟩ := GrainVoice.sampleLoop_line sm adsr fl p source
      numSamples.toNat startSample
      { v with dryReadHeads := (v.dryStage source outputBuffer).1
               density := v.computeDensity p }
      outputBuffer hN hw.1 hw.2
    rw [GrainVoice.renderNextBlock_eq sm adsr fl p v outputBuffer source startSample numSamples
      hnote hsrc, h]
    refine ⟨_, _, rfl, ?_, hsz⟩
    show w.delayLine.writeHeadPosition = _
    rw [hwr, Int.toNat_of_nonneg hM]

/-- Witness of C36: the held voice (capacity 3000, write head 0) after a block of 4
samples has its write head at 8. -/
theorem GrainVoice.two_writes_per_sample_witness :
    heldVoice.noteOn = true ∧
    heldVoice.sampleBuffer = some ⟨1, 4, fun _ _ => 1⟩ ∧
    (0 : Int) < heldVoice.delayLine.maxDelaySize ∧
    (0 ≤ heldVoice.delayLine.writeHeadPosition ∧
      heldVoice.delayLine.writeHeadPosition < heldVoice.delayLine.maxDelaySize) ∧
    (0 : Int) ≤ 4 ∧
    ∃ w out,
      GrainVoice.renderNextBlock settledRamp heldEnvelope exactSqrtLib fixedDensityParams
        heldVoice (AudioBuffer.cleared 1 4) 0 4 = some (w, out) ∧
      w.delayLine.writeHeadPosition = 8 := by
  have hN : (0 : Int) < heldVoice.delayLine.maxDelaySize := by decide
  have hw : 0 ≤ heldVoice.delayLine.writeHeadPosition ∧
      heldVoice.delayLine.writeHeadPosition < heldVoice.delayLine.maxDelaySize := by decide
  obtain ⟨w, out, h, hwr, -⟩ := (GrainVoice.two_writes_per_sample settledRamp heldEnvelope
    exactSqrtLib fixedDensityParams heldVoice (AudioBuffer.cleared 1 4) ⟨1, 4, fun _ _ => 1⟩
    0 4 rfl rfl hN hw (by decide)).2
  exact ⟨rfl, rfl, hN, hw, by decide, w, out, h, by rw [hwr]; decide⟩

/-! ## The read head of the dry pass -/

lemma truncToInt_one : truncToInt 1 = 1 := by
  have := truncToInt_intCast 1
  simpa using this

lemma truncToInt_ofNat (n : ℕ) [n.AtLeastTwo] :
    truncToInt (OfNat.ofNat n : ℚ) = (OfNat.ofNat n : Int) := by
  have := truncToInt_intCast (OfNat.ofNat n : Int)
  simpa using this

namespace GrainVoice

variable {σ α : Type}

lemma drySample_head_range (source : AudioBuffer) (rate : ℚ) (ch : Int)
    (st : ℚ × AudioBuffer) (i : Nat)
    (hr : 0 < rate ∧ rate ≤ ((source.numSamples - 1 : Int) : ℚ))
    (hh : 0 ≤ st.1 ∧ st.1 < ((source.numSamples - 1 : Int) : ℚ)) :
    0 ≤ (drySample source rate ch st i).1 ∧
      (drySample source rate ch st i).1 < ((source.numSamples - 1 : Int) : ℚ) := by
  unfold drySample
  dsimp only
  split
  · constructor <;> linarith [hr.1, hr.2, hh.1, hh.2]
  · constructor <;> linarith [hr.1, hr.2, hh.1, hh.2]

end GrainVoice

/-- C33, evaluated on the code: on a mono source of 2 samples, `startNote` for the MIDI
note 72 sets the pitch ratio 2 and the read head 0; the dry pass over a buffer of 2 samples
then leaves the read head at 2, which is not below the 2 samples of the source (the single
`if` subtracts `n - 1 = 1` once from 3), and the next iteration of the pass reads the
source at the index `trunc 2 = 2`, past its last sample. -/
theorem GrainVoice.dry_read_head_passes_source_end :
    (GrainVoice.startNote heldEnvelope integerPow
        { heldVoice with sampleBuffer := some twoSampleSource } 72).map
        (fun w => (w.playbackRate, w.dryReadHeads 0, w.dryReadHeadsSize)) = some (2, 0, 1) ∧
    (GrainVoice.startNote heldEnvelope integerPow
        { heldVoice with sampleBuffer := some twoSampleSource } 72).map
        (fun w => (w.dryStage twoSampleSource (AudioBuffer.cleared 1 2)).1 0) = some 2 ∧
    (GrainVoice.dryPass twoSampleSource 2 1 1 2 (fun _ => 0, AudioBuffer.cleared 1 2)).1 0 = 2 ∧
    ¬ ((2 : ℚ) < ((twoSampleSource.numSamples : Int) : ℚ)) ∧
    truncToInt (2 : ℚ) = 2 ∧
    (GrainVoice.drySample twoSampleSource 2 0 (2, AudioBuffer.cleared 1 2) 0).2.data 0 0
      = twoSampleSource.data 0 2 := by
  have e2 : truncToInt (2 : ℚ) = 2 := truncToInt_ofNat 2
  have hpow : integerPow 2 (((72 - 60 : Int) : ℚ) / 12) = 2 := by
    have h : (((72 - 60 : Int) : ℚ) / 12) = ((1 : Int) : ℚ) := by norm_num
    unfold integerPow
    rw [h, Int.floor_intCast]
    norm_num
  have hpass : (GrainVoice.dryPass twoSampleSource 2 1 1 2
      (fun _ => 0, AudioBuffer.cleared 1 2)).1 0 = 2 := by
    simp [GrainVoice.dryPass, GrainVoice.drySample, List.range_succ, DelayLine.writeCell,
      truncToInt_zero, truncToInt_one, e2, jmin, AudioBuffer.cleared,
      AudioBuffer.setSample, AudioBuffer.getSample, twoSampleSource]
    norm_num
  refine ⟨?_, ?_, hpass, ?_, e2, ?_⟩
  · simp only [GrainVoice.startNote, Option.map_some', hpow]
    simp [twoSampleSource]
  · simp only [GrainVoice.startNote, Option.map_some', hpow, GrainVoice.dryStage]
    rw [if_pos (by decide)]
    have hheads : (fun i : Int => if 0 ≤ i ∧ i < twoSampleSource.numChannels then (0 : ℚ)
        else heldVoice.dryReadHeads i) = fun _ => 0 := by
      funext i
      simp [heldVoice]
    show some ((GrainVoice.dryPass twoSampleSource 2 twoSampleSource.numChannels 1 2
      (_, AudioBuffer.cleared 1 2)).1 0) = some 2
    rw [hheads]
    exact congrArg some hpass
  · simp [twoSampleSource]
  · simp [GrainVoice.drySample, e2, jmin, AudioBuffer.cleared,
      AudioBuffer.setSample, AudioBuffer.getSample, twoSampleSource]

/-- C35, evaluated on the code: in delay mode with the trapezoid envelope selected
(`envelope = 3`), for a grain of length 4 at `t = 1` on a delay line whose cells hold 1,
with level 1 and activity 1: `delayProcess` adds `sample * env * gain = 1 * 1 * 1` to the
output, its envelope value being `trapezoidEnvelope (1) = 1`, while the value added to
`grainSum` is `1 * triEnvelope (1) * 1 = 1/2`. -/
theorem GrainVoice.feedback_uses_triangle_envelope :
    (GrainVoice.renderGrainAt settledRamp exactSqrtLib 0 3 1 1 0 ⟨fun _ => 1, 4, 0, 0, 0, 0⟩
        ⟨1, 4, fun _ _ => 1⟩ 0
        ⟨[(⟨0, 4, 1, 1, 0, 48000, 0, 0, 1, 1⟩ : Grain ℚ)], AudioBuffer.cleared 1 1, 0⟩).map
        (fun st => (st.output.data 0 0, st.grainSum)) = some (1, 1 / 2) ∧
    (⟨0, 4, 1, 1, 0, 48000, 0, 0, 1, 1⟩ : Grain ℚ).selectEnvelope exactSqrtLib 3 1 = 1 ∧
    (⟨0, 4, 1, 1, 0, 48000, 0, 0, 1, 1⟩ : Grain ℚ).triEnvelope 1 = 1 / 2 ∧
    Grain.delaySample ⟨fun _ => 1, 4, 0, 0, 0, 0⟩ 1 = 1 := by
  have htri : (⟨0, 4, 1, 1, 0, 48000, 0, 0, 1, 1⟩ : Grain ℚ).triEnvelope 1 = 1 / 2 := by
    have h2 : (4 : Int).tdiv 2 = 2 := by decide
    unfold Grain.triEnvelope
    rw [if_neg (by decide), h2, if_pos (by decide)]
    norm_num
  have hsel : (⟨0, 4, 1, 1, 0, 48000, 0, 0, 1, 1⟩ : Grain ℚ).selectEnvelope exactSqrtLib 3 1
      = 1 := by
    unfold Grain.selectEnvelope Grain.trapezoidEnvelope
    rw [if_neg (by decide), if_neg (by decide), if_neg (by decide), if_neg (by decide)]
    norm_num
  have hsample : Grain.delaySample ⟨fun _ => 1, 4, 0, 0, 0, 0⟩ 1 = 1 := by
    simp [Grain.delaySample, DelayLine.getSampleAtIndex]
  have hwrap : wrapReadPos (4 : Int) (((0 : Int) : ℚ) + (((1 - 0 : Int) : Int) : ℚ) * 1)
      = some 1 := by
    rw [wrapReadPos_eq_floorMod 4 (by decide)]
    have h : (((0 : Int) : ℚ) + (((1 - 0 : Int) : Int) : ℚ) * 1) = 1 := by norm_num
    rw [h, floorMod_of_lt (by norm_num) (by norm_num)]
  refine ⟨?_, hsel, htri, hsample⟩
  rw [GrainVoice.renderGrainAt_eq]
  simp only [List.get?_cons_zero, Option.getD_some, GrainVoice.renderOne, if_true,
    Grain.delayProcess, Grain.getOnset, Grain.getLength, Grain.getDelayOffset, Grain.getRate,
    DelayLine.getDelaySize]
  have hc : ¬ ((1 : Int) - 0 < 0 ∨ (1 : Int) - 0 ≥ 4) := by decide
  have hw2 : (1 : Int) - 0 ≥ 0 ∧ (1 : Int) - 0 < 4 := by decide
  rw [if_neg hc, hwrap]
  simp only [Option.map_some', Option.some_bind]
  rw [if_pos hw2]
  simp only [Option.map_some', hsample, htri]
  simp [Grain.renderChannel, hsel, AudioBuffer.cleared, AudioBuffer.addSample, settledRamp,
    Grain.getSmoothedLevel, jmax, List.range_succ]
  rw [htri]
  norm_num

/-! ## The output buffer keeps its length through the per-sample loop -/

lemma foldl_numSamples {β γ : Type} (f : β × AudioBuffer → γ → β × AudioBuffer)
    (hf : ∀ st c, (f st c).2.numSamples = st.2.numSamples) (l : List γ)
    (st : β × AudioBuffer) : (l.foldl f st).2.numSamples = st.2.numSamples := by
  induction l generalizing st with
  | nil => rfl
  | cons x xs ih =>
    show (xs.foldl f (f st x)).2.numSamples = _
    rw [ih, hf]

namespace Grain

variable {σ : Type}

lemma renderChannel_numSamples (sm : SmoothedValueOps σ) (fl : FloatLib) (g : Grain σ)
    (sample : ℚ) (t sampleIndex envelope activity : Int) (st : σ × AudioBuffer) :
    (g.renderChannel sm fl sample t sampleIndex envelope activity st).2.numSamples
      = st.2.numSamples := by
  unfold renderChannel
  split <;> rfl

lemma sampleProcess_numSamples (sm : SmoothedValueOps σ) (fl : FloatLib) (g : Grain σ)
    (output source : AudioBuffer) (time sampleIndex envelope activity : Int) :
    (g.sampleProcess sm fl output source time sampleIndex envelope activity).2.numSamples
      = output.numSamples := by
  unfold sampleProcess
  by_cases hc : time - g.onset < 0 ∨ time - g.onset ≥ g.length
  · simp only [hc, if_true]
  · simp only [hc, if_false]
    exact foldl_numSamples _ (fun st c => renderChannel_numSamples sm fl g _ _ _ _ _ st) _ _

lemma delayProcess_numSamples (sm : SmoothedValueOps σ) (fl : FloatLib) (g : Grain σ)
    (output : AudioBuffer) (source : DelayLine) (time sampleIndex envelope activity : Int)
    (r : Grain σ × AudioBuffer)
    (h : g.delayProcess sm fl output source time sampleIndex envelope activity = some r) :
    r.2.numSamples = output.numSamples := by
  unfold delayProcess at h
  by_cases hc : time - g.onset < 0 ∨ time - g.onset ≥ g.length
  · simp only [hc, if_true] at h
    rw [← Option.some.inj h]
  · simp only [hc, if_false] at h
    rw [Option.map_eq_some'] at h
    obtain ⟨q, -, hr⟩ := h
    rw [← hr]
    exact foldl_numSamples _ (fun st c => renderChannel_numSamples sm fl g _ _ _ _ _ st) _ _

end Grain

namespace GrainVoice

variable {σ α : Type}

lemma renderGrainAt_numSamples (sm : SmoothedValueOps σ) (fl : FloatLib)
    (mode envelope activity csi i : Int) (line : DelayLine) (source : AudioBuffer) (g : Nat)
    (st st' : RenderState σ)
    (h : renderGrainAt sm fl mode envelope activity csi i line source g st = some st') :
    st'.output.numSamples = st.output.numSamples := by
  unfold renderGrainAt at h
  rw [Option.map_eq_some'] at h
  obtain ⟨r, hr, hst⟩ := h
  rw [← hst]
  show r.1.numSamples = _
  by_cases hm : mode = 0
  · simp only [hm, if_true] at hr
    rw [Option.bind_eq_some] at hr
    obtain ⟨d, hd, hr2⟩ := hr
    have hdn := Grain.delayProcess_numSamples sm fl _ _ _ _ _ _ _ d hd
    by_cases hw : csi - ((st.grains.get? g).getD (Grain.mkDefault sm)).getOnset ≥ 0 ∧
        csi - ((st.grains.get? g).getD (Grain.mkDefault sm)).getOnset
          < ((st.grains.get? g).getD (Grain.mkDefault sm)).getLength
    · simp only [hw, and_self, if_true] at hr2
      rw [Option.map_eq_some'] at hr2
      obtain ⟨q, -, hq⟩ := hr2
      rw [← hq]
      exact hdn
    · simp only [hw, if_false] at hr2
      rw [← Option.some.inj hr2]
      exact hdn
  · simp only [hm, if_false] at hr
    rw [← Option.some.inj hr]
    exact Grain.sampleProcess_numSamples sm fl _ _ _ _ _ _ _

lemma renderGrains_numSamples (sm : SmoothedValueOps σ) (fl : FloatLib)
    (mode envelope activity csi i : Int) (line : DelayLine) (source : AudioBuffer)
    (count : Nat) (st st' : RenderState σ)
    (h : renderGrains sm fl mode envelope activity csi i line source count st = some st') :
    st'.output.numSamples = st.output.numSamples := by
  induction count generalizing st with
  | zero =>
    rw [← Option.some.inj h]
  | succ n ih =>
    simp only [renderGrains] at h
    rw [Option.bind_eq_some] at h
    obtain ⟨st1, h1, h2⟩ := h
    rw [ih st1 h2, renderGrainAt_numSamples sm fl _ _ _ _ _ _ _ _ _ _ h1]

lemma perSample_numSamples (sm : SmoothedValueOps σ) (adsr : ADSROps α) (fl : FloatLib)
    (p : Params) (source : AudioBuffer) (v w : GrainVoice σ α) (output out : AudioBuffer)
    (i : Int) (h : perSample sm adsr fl p source v output i = some (w, out)) :
    out.numSamples = output.numSamples := by
  unfold perSample at h
  dsimp only at h
  rw [Option.map_eq_some'] at h
  obtain ⟨st, hst, hw⟩ := h
  rw [← (Prod.mk.inj hw).2]
  exact renderGrains_numSamples sm fl _ _ _ _ _ _ _ _ _ _ hst

lemma sampleLoop_numSamples (sm : SmoothedValueOps σ) (adsr : ADSROps α) (fl : FloatLib)
    (p : Params) (source : AudioBuffer) (count : Nat) (i : Int) (v w : GrainVoice σ α)
    (output out : AudioBuffer)
    (h : sampleLoop sm adsr fl p source count i (v, output) = some (w, out)) :
    out.numSamples = output.numSamples := by
  induction count generalizing i v output with
  | zero =>
    rw [← (Prod.mk.inj (Option.some.inj h)).2]
  | succ n ih =>
    simp only [sampleLoop] at h
    rw [Option.bind_eq_some] at h
    obtain ⟨r, h1, h2⟩ := h
    rw [ih (i + 1) r.1 r.2 h2, perSample_numSamples sm adsr fl p source v r.1 output r.2 i h1]

end GrainVoice

namespace GrainVoice

variable {σ α : Type}

lemma mixPass_numSamples (sm : SmoothedValueOps σ) (dry : AudioBuffer) (start n : Int)
    (st : σ × AudioBuffer) : (mixPass sm dry start n st).2.numSamples = st.2.numSamples := by
  unfold mixPass
  apply foldl_numSamples
  intro st1 ch
  apply foldl_numSamples
  intro st2 k
  rfl

lemma mixPass_numChannels (sm : SmoothedValueOps σ) (dry : AudioBuffer) (start n : Int)
    (st : σ × AudioBuffer) : (mixPass sm dry start n st).2.numChannels = st.2.numChannels := by
  unfold mixPass
  apply foldl_numChannels
  intro st1 ch
  apply foldl_numChannels
  intro st2 k
  rfl

end GrainVoice

/-! ## The stages of `renderNextBlock` -/

namespace GrainVoice

variable {σ α : Type}

lemma sampleLoop_dims (sm : SmoothedValueOps σ) (adsr : ADSROps α) (fl : FloatLib)
    (p : Params) (source : AudioBuffer) (count : Nat) (i : Int) (v w : GrainVoice σ α)
    (output out : AudioBuffer)
    (h : sampleLoop sm adsr fl p source count i (v, output) = some (w, out)) :
    out.numChannels = output.numChannels ∧ out.numSamples = output.numSamples :=
  ⟨sampleLoop_numChannels sm adsr fl p source count i v w output out h,
    sampleLoop_numSamples sm adsr fl p source count i v w output out h⟩

lemma renderNextBlock_stages (sm : SmoothedValueOps σ) (adsr : ADSROps α) (fl : FloatLib)
    (p : Params) (v : GrainVoice σ α) (outputBuffer source : AudioBuffer)
    (startSample numSamples : Int)
    (hnote : v.noteOn = true) (hsrc : v.sampleBuffer = some source)
    (hN : 0 < v.delayLine.maxDelaySize)
    (hw : 0 ≤ v.delayLine.writeHeadPosition ∧
      v.delayLine.writeHeadPosition < v.delayLine.maxDelaySize) :
    ∃ w out u wet,
      sampleLoop sm adsr fl p source numSamples.toNat startSample
        ({ v with dryReadHeads := (v.dryStage source outputBuffer).1
                  density := v.computeDensity p }, outputBuffer) = some (u, wet) ∧
      renderNextBlock sm adsr fl p v outputBuffer startSample numSamples = some (w, out) ∧
      out = (mixPass sm (v.dryStage source outputBuffer).2 startSample numSamples
        (sm.setTargetValue v.smoothedMix p.mix, wet)).2 ∧
      w.smoothedMix = (mixPass sm (v.dryStage source outputBuffer).2 startSample numSamples
        (sm.setTargetValue v.smoothedMix p.mix, wet)).1 ∧
      w.dryReadHeads = (v.dryStage source outputBuffer).1 ∧
      w.dryReadHeadsSize = v.dryReadHeadsSize ∧
      w.playbackRate = v.playbackRate ∧
      w.sampleBuffer = v.sampleBuffer ∧
      w.delayLine = u.delayLine ∧
      w.noteOn = u.noteOn ∧
      w.delayLine.maxDelaySize = v.delayLine.maxDelaySize ∧
      (0 ≤ w.delayLine.writeHeadPosition ∧
        w.delayLine.writeHeadPosition < v.delayLine.maxDelaySize) ∧
      (wet.numChannels = outputBuffer.numChannels ∧
        wet.numSamples = outputBuffer.numSamples) ∧
      (out.numChannels = outputBuffer.numChannels ∧
        out.numSamples = outputBuffer.numSamples) := by
  obtain ⟨u, wet, h, hsz, hwr, hd, hds, hp, hm, hsb⟩ := sampleLoop_line sm adsr fl p source
    numSamples.toNat startSample
    { v with dryReadHeads := (v.dryStage source outputBuffer).1
             density := v.computeDensity p }
    outputBuffer hN hw.1 hw.2
  have hdim := sampleLoop_dims sm adsr fl p source _ _ _ _ _ _ h
  have hm' : u.smoothedMix = v.smoothedMix := hm
  refine ⟨{ u with
      smoothedMix := (mixPass sm (v.dryStage source outputBuffer).2 startSample numSamples
        (sm.setTargetValue u.smoothedMix p.mix, wet)).1 },
    (mixPass sm (v.dryStage source outputBuffer).2 startSample numSamples
      (sm.setTargetValue u.smoothedMix p.mix, wet)).2,
    u, wet, h, ?_, ?_, ?_, hd, hds, hp, hsb, rfl, rfl, hsz, ?_, hdim, ?_⟩
  · rw [renderNextBlock_eq sm adsr fl p v outputBuffer source startSample numSamples hnote hsrc,
      h]
    rfl
  · show (mixPass sm _ startSample numSamples (sm.setTargetValue u.smoothedMix p.mix, wet)).2 = _
    rw [hm']
  · show (mixPass sm _ startSample numSamples (sm.setTargetValue u.smoothedMix p.mix, wet)).1 = _
    rw [hm']
  · show 0 ≤ u.delayLine.writeHeadPosition ∧ u.delayLine.writeHeadPosition < _
    rw [hwr]
    exact ⟨Int.emod_nonneg _ hN.ne', Int.emod_lt_of_pos _ hN⟩
  · show (mixPass sm _ startSample numSamples (sm.setTargetValue u.smoothedMix p.mix, wet)).2.numChannels = _ ∧
      (mixPass sm _ startSample numSamples (sm.setTargetValue u.smoothedMix p.mix, wet)).2.numSamples = _
    rw [mixPass_numChannels, mixPass_numSamples]
    exact hdim

end GrainVoice

/-! ## The dry path under a split of the block -/

lemma rampSource_firstPass :
    (GrainVoice.dryPass rampSource 1 1 1 2 (fun _ => 0, AudioBuffer.cleared 1 2)).1 0 = 2 ∧
    (GrainVoice.dryPass rampSource 1 1 1 2 (fun _ => 0, AudioBuffer.cleared 1 2)).2.data 0 1
      = 1 / 4 := by
  have e2 : truncToInt (2 : ℚ) = 2 := truncToInt_ofNat 2
  constructor
  · simp [GrainVoice.dryPass, GrainVoice.drySample, List.range_succ, DelayLine.writeCell,
      truncToInt_zero, truncToInt_one, e2, jmin, AudioBuffer.cleared,
      AudioBuffer.setSample, AudioBuffer.getSample, rampSource]
    norm_num
  · simp [GrainVoice.dryPass, GrainVoice.drySample, List.range_succ, DelayLine.writeCell,
      truncToInt_zero, truncToInt_one, e2, jmin, AudioBuffer.cleared,
      AudioBuffer.setSample, AudioBuffer.getSample, rampSource]

lemma rampSource_secondPass (heads : Int → ℚ) (h : heads 0 = 2) :
    (GrainVoice.dryPass rampSource 1 1 1 2 (heads, AudioBuffer.cleared 1 2)).1 0 = 1 ∧
    (GrainVoice.dryPass rampSource 1 1 1 2 (heads, AudioBuffer.cleared 1 2)).2.data 0 1
      = 0 := by
  have e2 : truncToInt (2 : ℚ) = 2 := truncToInt_ofNat 2
  constructor
  · simp [GrainVoice.dryPass, GrainVoice.drySample, List.range_succ, DelayLine.writeCell,
      truncToInt_zero, truncToInt_one, e2, jmin, AudioBuffer.cleared, h,
      AudioBuffer.setSample, AudioBuffer.getSample, rampSource]
    norm_num [truncToInt_zero]
  · simp [GrainVoice.dryPass, GrainVoice.drySample, List.range_succ, DelayLine.writeCell,
      truncToInt_zero, truncToInt_one, e2, jmin, AudioBuffer.cleared, h,
      AudioBuffer.setSample, AudioBuffer.getSample, rampSource]
    norm_num [truncToInt_zero]

lemma mixedValue_dry_only {dry : ℚ} (wet : ℚ) (h : -1 ≤ dry ∧ dry ≤ 1) :
    mixedValue dry wet 0 = dry := by
  unfold mixedValue
  rw [jlimitF_of_range _ _ _ (by constructor <;> linarith [h.1, h.2])]
  ring

/-- C37, evaluated on the code: on a mono source of 4 samples whose cell `i` holds `i / 4`,
with pitch ratio 1, a Mix of 0 and an output buffer of 2 samples, one call of
`renderNextBlock` for the samples 0 and 1 leaves the dry read head at 2 and mixes the dry
sample 1/4 into index 1; two calls, for sample 0 and then for sample 1, leave the read head
at 1 and mix the dry sample 0 into index 1: every call runs the dry pass over the whole
buffer, whatever `startSample` and `numSamples` are. -/
theorem GrainVoice.dry_path_depends_on_block_split :
    (GrainVoice.renderNextBlock settledRamp heldEnvelope exactSqrtLib dryParams rampVoice
        (AudioBuffer.cleared 1 2) 0 2).map
        (fun r => (r.1.dryReadHeads 0, r.2.data 0 1)) = some (2, 1 / 4) ∧
    ((GrainVoice.renderNextBlock settledRamp heldEnvelope exactSqrtLib dryParams rampVoice
        (AudioBuffer.cleared 1 2) 0 1).bind
        (fun r => GrainVoice.renderNextBlock settledRamp heldEnvelope exactSqrtLib dryParams
          r.1 r.2 1 1)).map
        (fun r => (r.1.dryReadHeads 0, r.2.data 0 1)) = some (1, 0) := by
  have hN : (0 : Int) < rampVoice.delayLine.maxDelaySize := by decide
  have hw : 0 ≤ rampVoice.delayLine.writeHeadPosition ∧
      rampVoice.delayLine.writeHeadPosition < rampVoice.delayLine.maxDelaySize := by decide
  have hstage : rampVoice.dryStage rampSource (AudioBuffer.cleared 1 2)
      = GrainVoice.dryPass rampSource 1 1 1 2 (fun _ => 0, AudioBuffer.cleared 1 2) := by
    unfold GrainVoice.dryStage
    rw [if_pos (by decide)]
    rfl
  have hset : ∀ s : ℚ, ∀ j, rampValue settledRamp (settledRamp.setTargetValue s dryParams.mix) j
      = 0 := fun s j => settledRamp_rampValue _ j
  constructor
  · obtain ⟨w, out, u, wet, -, hr, hout, -, hdry, -, -, -, -, -, -, -, hdim, -⟩ :=
      GrainVoice.renderNextBlock_stages settledRamp heldEnvelope exactSqrtLib dryParams
        rampVoice (AudioBuffer.cleared 1 2) rampSource 0 2 rfl rfl hN hw
    rw [hr, Option.map_some']
    have h1 : w.dryReadHeads 0 = 2 := by
      rw [hdry, hstage]
      exact rampSource_firstPass.1
    have h2 : out.data 0 1 = 1 / 4 := by
      rw [hout, GrainVoice.mixPass_data settledRamp _ wet 0 2 _ 0 1
        (by rw [hdim.1]; decide) (by decide), hset, hstage, rampSource_firstPass.2]
      exact mixedValue_dry_only _ (by norm_num)
    rw [h1, h2]
  · obtain ⟨w1, out1, u1, wet1, -, hr1, -, -, hdry1, hds1, hp1, hsb1, -, hno1, hsz1, hwr1, -,
        hdim1⟩ :=
      GrainVoice.renderNextBlock_stages settledRamp heldEnvelope exactSqrtLib dryParams
        rampVoice (AudioBuffer.cleared 1 2) rampSource 0 1 rfl rfl hN hw
    obtain ⟨w1', out1', hr1', hrun⟩ := GrainVoice.renderNextBlock_spec settledRamp heldEnvelope
      exactSqrtLib dryParams rampVoice (AudioBuffer.cleared 1 2) rampSource 0 1 rfl rfl hN
      (fun _ _ => rfl)
    have hw1eq : w1' = w1 := by
      rw [hr1] at hr1'
      exact (Prod.mk.inj (Option.some.inj hr1')).1.symm
    have hnote1 : w1.noteOn = true := by
      rw [← hw1eq, hrun.note]
      rfl
    have hN1 : (0 : Int) < w1.delayLine.maxDelaySize := by rw [hsz1]; exact hN
    obtain ⟨w2, out2, u2, wet2, -, hr2, hout2, -, hdry2, -, -, -, -, -, -, -, hdim2, -⟩ :=
      GrainVoice.renderNextBlock_stages settledRamp heldEnvelope exactSqrtLib dryParams
        w1 out1 rampSource 1 1 hnote1 (by rw [hsb1]; rfl) hN1 (by rw [hsz1]; exact hwr1)
    have hstage2 : w1.dryStage rampSource out1
        = GrainVoice.dryPass rampSource 1 1 1 2
            ((GrainVoice.dryPass rampSource 1 1 1 2 (fun _ => 0, AudioBuffer.cleared 1 2)).1,
              AudioBuffer.cleared 1 2) := by
      unfold GrainVoice.dryStage
      rw [if_pos (by decide), hp1, hds1, hdim1.1, hdim1.2, hdry1, hstage]
      rfl
    have hsecond := rampSource_secondPass
      (GrainVoice.dryPass rampSource 1 1 1 2 (fun _ => 0, AudioBuffer.cleared 1 2)).1
      rampSource_firstPass.1
    rw [hr1, Option.some_bind, hr2, Option.map_some']
    have h1 : w2.dryReadHeads 0 = 1 := by
      rw [hdry2, hstage2]
      exact hsecond.1
    have h2 : out2.data 0 1 = 0 := by
      rw [hout2, GrainVoice.mixPass_data settledRamp _ wet2 1 1 _ 0 1
        (by rw [hdim2.1, hdim1.1]; decide) (by decide), hset, hstage2, hsecond.2]
      exact mixedValue_dry_only _ (by norm_num)
    rw [h1, h2]

/-! ## Prior content of the output buffer through the per-sample loop -/

namespace AudioBuffer

end AudioBuffer

namespace Grain

variable {σ : Type}

end Grain

namespace GrainVoice

variable {σ α : Type}

end GrainVoice

/-! ## Prior content of the output buffer in the final mix -/

namespace GrainVoice

variable {σ α : Type}

end GrainVoice

namespace GrainVoice

variable {σ α : Type}

lemma afterSpawn_grains (sm : SmoothedValueOps σ) (adsr : ADSROps α) (p : Params)
    (v : GrainVoice σ α) (i : Int) :
    (v.currentSampleIndex.tmod v.density = 0 →
      ∃ g : Grain σ, (afterSpawn sm adsr p v i).grains = v.grains ++ [g] ∧
        (afterSpawn sm adsr p v i).spawnLog = v.spawnLog ++ [(v.currentSampleIndex, g)] ∧
        g.onset = i + v.currentSampleIndex ∧ 1 ≤ g.length ∧
        (∃ x : ℚ, g.length = max 1 (v.msToSamples p.length
          + truncToInt ((v.msToSamples p.length : ℚ) * p.jitter * x))) ∧
        (afterSpawn sm adsr p v i).noteOn
          = (if adsr.isActive (adsr.getNextSample v.envelope).2 then v.noteOn else false)) ∧
    (¬ v.currentSampleIndex.tmod v.density = 0 →
      (afterSpawn sm adsr p v i).grains = v.grains ∧
      (afterSpawn sm adsr p v i).spawnLog = v.spawnLog ∧
      (afterSpawn sm adsr p v i).noteOn = v.noteOn) := by
  constructor
  · intro hs
    have e : afterSpawn sm adsr p v i
        = spawnGrain sm adsr p
            { v with envelope := (adsr.getNextSample v.envelope).2
                     smoothSparse :=
                       (sm.getNextValue (sm.setTargetValue v.smoothSparse p.sparse)).2 }
            i (adsr.getNextSample v.envelope).1 (truncToInt p.mode)
            (sm.getNextValue (sm.setTargetValue v.smoothSparse p.sparse)).1 := by
      unfold afterSpawn
      dsimp only
      rw [if_pos hs]
    rw [e]
    by_cases hmode : truncToInt p.mode = 0
    · refine ⟨_, rfl, rfl, ?_, ?_, ?_, rfl⟩
      · rw [if_pos hmode]
        rfl
      · rw [if_pos hmode]
        exact le_max_left _ _
      · rw [if_pos hmode]
        exact ⟨_, rfl⟩
    · refine ⟨_, rfl, rfl, ?_, ?_, ?_, rfl⟩
      · rw [if_neg hmode]
        rfl
      · rw [if_neg hmode]
        exact le_max_left _ _
      · rw [if_neg hmode]
        exact ⟨_, rfl⟩
  · intro hs
    have e : afterSpawn sm adsr p v i
        = { v with envelope := (adsr.getNextSample v.envelope).2
                   smoothSparse :=
                     (sm.getNextValue (sm.setTargetValue v.smoothSparse p.sparse)).2 } := by
      unfold afterSpawn
      dsimp only
      rw [if_neg hs]
    rw [e]
    exact ⟨rfl, rfl, rfl⟩

lemma perSample_collection (sm : SmoothedValueOps σ) (adsr : ADSROps α) (fl : FloatLib)
    (p : Params) (source : AudioBuffer) (v w : GrainVoice σ α) (output out : AudioBuffer)
    (i : Int) (h : perSample sm adsr fl p source v output i = some (w, out)) :
    w.grains = (afterSpawn sm adsr p v i).grains.filter
        (fun g => !g.isDone v.currentSampleIndex) ∧
    w.spawnLog = (afterSpawn sm adsr p v i).spawnLog ∧
    w.noteOn = (afterSpawn sm adsr p v i).noteOn := by
  rw [perSample_eq, renderGrains_eq_renderEach, Option.map_map, Option.map_eq_some'] at h
  obtain ⟨r, -, hw⟩ := h
  have h1 := (Prod.mk.inj hw).1
  rw [← h1]
  refine ⟨?_, rfl, rfl⟩
  show List.filter _ _ = _
  rw [afterSpawn_counter]

lemma renderNextBlock_noteOff (sm : SmoothedValueOps σ) (adsr : ADSROps α) (fl : FloatLib)
    (p : Params) (v : GrainVoice σ α) (outputBuffer : AudioBuffer)
    (startSample numSamples : Int) (hnote : v.noteOn = false) :
    renderNextBlock sm adsr fl p v outputBuffer startSample numSamples
      = some (v, outputBuffer) := by
  unfold renderNextBlock
  split
  · rfl
  · rw [if_pos hnote]

end GrainVoice

/-- C31, evaluated on the code: `stopNote` on the held voice puts the envelope into its
release (the next sample is 3/4 and the envelope is still active); the per-sample step
that follows, at counter 0 with the spawn interval 500, adds a grain: one call of
`grains.add` at counter 0 is logged and the collection has one grain after the step. -/
theorem GrainVoice.release_step_spawns :
    (GrainVoice.stopNote fadingEnvelope sustainedVoice).envelope = (1, true) ∧
    (fadingEnvelope.getNextSample (GrainVoice.stopNote fadingEnvelope sustainedVoice).envelope).1
      = 3 / 4 ∧
    fadingEnvelope.isActive
      (fadingEnvelope.getNextSample
        (GrainVoice.stopNote fadingEnvelope sustainedVoice).envelope).2 = true ∧
    sustainedVoice.grains = [] ∧
    (GrainVoice.perSample settledRamp fadingEnvelope exactSqrtLib fixedDensityParams
        ⟨1, 4, fun _ _ => 1⟩ (GrainVoice.stopNote fadingEnvelope sustainedVoice)
        (AudioBuffer.cleared 1 1) 0).map
        (fun r => (r.1.spawnLog.map Prod.fst, r.1.grains.length)) = some ([0], 1) := by
  have hnext : (fadingEnvelope.getNextSample
      (GrainVoice.stopNote fadingEnvelope sustainedVoice).envelope).1 = 3 / 4 := by
    simp [fadingEnvelope, GrainVoice.stopNote, sustainedVoice]
    norm_num
  have hact : fadingEnvelope.isActive (fadingEnvelope.getNextSample
      (GrainVoice.stopNote fadingEnvelope sustainedVoice).envelope).2 = true := by
    simp [fadingEnvelope, GrainVoice.stopNote, sustainedVoice]
    norm_num
  refine ⟨rfl, hnext, hact, rfl, ?_⟩
  obtain ⟨w, out, h⟩ := GrainVoice.perSample_total settledRamp fadingEnvelope exactSqrtLib
    fixedDensityParams ⟨1, 4, fun _ _ => 1⟩ (GrainVoice.stopNote fadingEnvelope sustainedVoice)
    (AudioBuffer.cleared 1 1) 0 (by decide)
  obtain ⟨hg, hl, -⟩ := GrainVoice.perSample_collection _ _ _ _ _ _ _ _ _ _ h
  obtain ⟨g, hgs, hlog, hon, -, ⟨x, hlen⟩, -⟩ :=
    (GrainVoice.afterSpawn_grains settledRamp fadingEnvelope fixedDensityParams
      (GrainVoice.stopNote fadingEnvelope sustainedVoice) 0).1 (by decide)
  have hbase : (GrainVoice.stopNote fadingEnvelope sustainedVoice).msToSamples
      fixedDensityParams.length = 50 :=
    GrainVoice.msToSamples_fifty _ rfl
  have hj : fixedDensityParams.jitter = 0 := rfl
  rw [hbase, hj, mul_zero, zero_mul, truncToInt_zero] at hlen
  have hlen' : g.length = 50 := by rw [hlen]; decide
  have hon' : g.onset = 0 := by rw [hon]; rfl
  have hdone : g.isDone (GrainVoice.stopNote fadingEnvelope sustainedVoice).currentSampleIndex
      = false := by
    unfold Grain.isDone
    rw [hon', hlen']
    decide
  rw [h, Option.map_some']
  show some (w.spawnLog.map Prod.fst, w.grains.length) = _
  have hdone0 : g.isDone 0 = false := hdone
  rw [hl, hlog, hg, hgs]
  simp [List.filter, hdone0, GrainVoice.stopNote, sustainedVoice]

/-- C31 as amended: `stopNote` changes the envelope (by `noteOff`) and `activeVoiceOn`
only, and the per-sample step that follows spawns as before the release: on a delay line
of capacity above 0 the step returns; when the sample counter is a multiple of the spawn
interval it adds one grain to the collection, and it clears `noteOn` there when the
envelope is no longer active; at every other counter it adds no grain; the collection
after the step is the one after the spawn test without the grains for which `isDone`
holds.  Once `noteOn` is cleared `renderNextBlock` returns at once, leaving the voice and
the buffer as they are. -/
theorem GrainVoice.release_keeps_spawning {σ α : Type} (sm : SmoothedValueOps σ)
    (adsr : ADSROps α) (fl : FloatLib) (p : Params) (source : AudioBuffer)
    (v : GrainVoice σ α) (output : AudioBuffer) (i : Int)
    (hN : 0 < v.delayLine.maxDelaySize) :
    ((GrainVoice.stopNote adsr v).envelope = adsr.noteOff v.envelope ∧
      (GrainVoice.stopNote adsr v).activeVoiceOn = v.activeVoiceOn - 1 ∧
      (GrainVoice.stopNote adsr v).noteOn = v.noteOn ∧
      (GrainVoice.stopNote adsr v).currentSampleIndex = v.currentSampleIndex ∧
      (GrainVoice.stopNote adsr v).density = v.density ∧
      (GrainVoice.stopNote adsr v).grains = v.grains ∧
      (GrainVoice.stopNote adsr v).spawnLog = v.spawnLog) ∧
    (∃ w out,
      GrainVoice.perSample sm adsr fl p source (GrainVoice.stopNote adsr v) output i
        = some (w, out) ∧
      w.grains = (GrainVoice.afterSpawn sm adsr p (GrainVoice.stopNote adsr v) i).grains.filter
        (fun g => !g.isDone v.currentSampleIndex) ∧
      (v.currentSampleIndex.tmod v.density = 0 →
        ∃ g : Grain σ,
          (GrainVoice.afterSpawn sm adsr p (GrainVoice.stopNote adsr v) i).grains
            = v.grains ++ [g] ∧
          w.spawnLog = v.spawnLog ++ [(v.currentSampleIndex, g)] ∧
          g.onset = i + v.currentSampleIndex ∧ 1 ≤ g.length ∧
          w.noteOn
            = (if adsr.isActive (adsr.getNextSample (adsr.noteOff v.envelope)).2
                then v.noteOn else false)) ∧
      (¬ v.currentSampleIndex.tmod v.density = 0 →
        (GrainVoice.afterSpawn sm adsr p (GrainVoice.stopNote adsr v) i).grains = v.grains ∧
        w.spawnLog = v.spawnLog ∧ w.noteOn = v.noteOn)) ∧
    (∀ (u : GrainVoice σ α) (out : AudioBuffer) (startSample numSamples : Int),
      u.noteOn = false →
      GrainVoice.renderNextBlock sm adsr fl p u out startSample numSamples = some (u, out)) := by
  refine ⟨⟨rfl, rfl, rfl, rfl, rfl, rfl, rfl⟩, ?_,
    fun u out s n hu => GrainVoice.renderNextBlock_noteOff sm adsr fl p u out s n hu⟩
  obtain ⟨w, out, h⟩ := GrainVoice.perSample_total sm adsr fl p source
    (GrainVoice.stopNote adsr v) output i hN
  obtain ⟨hg, hl, hn⟩ := GrainVoice.perSample_collection sm adsr fl p source _ w output out i h
  have hsp := GrainVoice.afterSpawn_grains sm adsr p (GrainVoice.stopNote adsr v) i
  refine ⟨w, out, h, hg, fun hs => ?_, fun hs => ?_⟩
  · obtain ⟨g, hgs, hlog, hon, hlen, -, hnote⟩ := hsp.1 hs
    exact ⟨g, hgs, by rw [hl, hlog]; rfl, hon, hlen, by rw [hn, hnote]; rfl⟩
  · obtain ⟨hgs, hlog, hnote⟩ := hsp.2 hs
    exact ⟨hgs, by rw [hl, hlog]; rfl, by rw [hn, hnote]; rfl⟩

/-- Witness of C31 as amended: the held voice after `stopNote`. -/
theorem GrainVoice.release_keeps_spawning_witness :
    (0 : Int) < sustainedVoice.delayLine.maxDelaySize ∧
    ∃ w out,
      GrainVoice.perSample settledRamp fadingEnvelope exactSqrtLib fixedDensityParams
        ⟨1, 4, fun _ _ => 1⟩ (GrainVoice.stopNote fadingEnvelope sustainedVoice)
        (AudioBuffer.cleared 1 1) 0 = some (w, out) ∧
      ∃ g : Grain ℚ, w.spawnLog = [(0, g)] ∧ g.onset = 0 := by
  have hN : (0 : Int) < sustainedVoice.delayLine.maxDelaySize := by decide
  obtain ⟨w, out, h, -, hs, -⟩ := (GrainVoice.release_keeps_spawning settledRamp fadingEnvelope
    exactSqrtLib fixedDensityParams ⟨1, 4, fun _ _ => 1⟩ sustainedVoice
    (AudioBuffer.cleared 1 1) 0 hN).2.1
  obtain ⟨g, -, hlog, hon, -⟩ := hs (by decide)
  exact ⟨hN, w, out, h, g, hlog, hon⟩

end HybridGranulator
